import Mathlib

/-!
Verification development for the coracle-clearnet event-sync core
(`src/agent/sync.ts`): the event dispatcher `processEvents`, the
last-write-wins merge handlers for identities, the current user's profile
and rooms, the route-reputation engine `addRoute`, and the payment-endpoint
verification `verifyZapper`.

Modelling conventions:
* JavaScript numbers that carry protocol timestamps are modelled as `Int`;
  route scores (floats combined only by `+`, `*`, `/`) are modelled as `ℚ`.
* Parsed JSON is modelled by the inductive `JVal`; the runtime's
  `JSON.parse` is abstracted as a function `String → Option JVal`
  (`none` = parse throws, caught by `tryJson`), quantified in theorems.
  JavaScript object semantics (key deduplication with last value winning,
  first-occurrence key order, truthiness, spread merge) are reproduced on
  `JVal` explicitly.
* A synchronous JavaScript exception is modelled by `Except String`; the
  dispatcher has no try/catch around handler invocation, so an error stops
  the processing of the remainder of the batch while keeping all table
  mutations already performed (module-level tables survive a rejected
  promise).
* The asynchronous verification side-channel launches are recorded as
  `Effect`s in the state; their later completions are separate pure
  functions (`verifyZapper`) applied to a fetched response.
* The wall clock `now()` is an explicit parameter `nowT` of the context.
-/

set_option maxHeartbeats 1000000

namespace Sync

/-! ### Kernel-evaluable string primitives

The runtime string operations are implemented over the character lists of
`String` so that concrete instances evaluate inside the kernel. -/

/-- Does `p` occur as an initial segment of `s`? -/
def strStarts (p s : String) : Bool := p.data.isPrefixOf s.data

/-- ASCII lowercasing of one character (the model of
`String.prototype.toLowerCase` restricted to the ASCII range). -/
def lowerChar (c : Char) : Char :=
  if c.toNat ≥ 65 && c.toNat ≤ 90 then Char.ofNat (c.toNat + 32) else c

/-- ASCII lowercasing of a string. -/
def toLowerStr (s : String) : String := String.mk (s.data.map lowerChar)

/-- Split a character list at every occurrence of a separator
(`String.prototype.split` on a single-character separator). -/
def splitChar (c : Char) : List Char → List (List Char)
  | [] => [[]]
  | x :: rest =>
    let r := splitChar c rest
    if x = c then [] :: r
    else
      match r with
      | [] => [[x]]
      | y :: ys => (x :: y) :: ys

/-- Does `needle` occur as a contiguous segment of the list? -/
def containsChars (needle : List Char) : List Char → Bool
  | [] => needle.isEmpty
  | c :: rest => needle.isPrefixOf (c :: rest) || containsChars needle rest

/-- Parsed JSON values. `num` is modelled over `ℚ` (exact arithmetic on the
numerals used by the engine). -/
inductive JVal where
  | null : JVal
  | bool : Bool → JVal
  | num : ℚ → JVal
  | str : String → JVal
  | arr : List JVal → JVal
  | obj : List (String × JVal) → JVal

mutual

/-- Decidable equality of JSON values (hand-rolled: the deriving handler
does not support this nested inductive). -/
def JVal.decEq : (a b : JVal) → Decidable (a = b)
  | .null, .null => .isTrue rfl
  | .null, .bool _ => .isFalse (fun h => JVal.noConfusion h)
  | .null, .num _ => .isFalse (fun h => JVal.noConfusion h)
  | .null, .str _ => .isFalse (fun h => JVal.noConfusion h)
  | .null, .arr _ => .isFalse (fun h => JVal.noConfusion h)
  | .null, .obj _ => .isFalse (fun h => JVal.noConfusion h)
  | .bool _, .null => .isFalse (fun h => JVal.noConfusion h)
  | .bool x, .bool y =>
    if h : x = y then .isTrue (by rw [h])
    else .isFalse (fun hh => h (JVal.bool.inj hh))
  | .bool _, .num _ => .isFalse (fun h => JVal.noConfusion h)
  | .bool _, .str _ => .isFalse (fun h => JVal.noConfusion h)
  | .bool _, .arr _ => .isFalse (fun h => JVal.noConfusion h)
  | .bool _, .obj _ => .isFalse (fun h => JVal.noConfusion h)
  | .num _, .null => .isFalse (fun h => JVal.noConfusion h)
  | .num _, .bool _ => .isFalse (fun h => JVal.noConfusion h)
  | .num x, .num y =>
    if h : x = y then .isTrue (by rw [h])
    else .isFalse (fun hh => h (JVal.num.inj hh))
  | .num _, .str _ => .isFalse (fun h => JVal.noConfusion h)
  | .num _, .arr _ => .isFalse (fun h => JVal.noConfusion h)
  | .num _, .obj _ => .isFalse (fun h => JVal.noConfusion h)
  | .str _, .null => .isFalse (fun h => JVal.noConfusion h)
  | .str _, .bool _ => .isFalse (fun h => JVal.noConfusion h)
  | .str _, .num _ => .isFalse (fun h => JVal.noConfusion h)
  | .str x, .str y =>
    if h : x = y then .isTrue (by rw [h])
    else .isFalse (fun hh => h (JVal.str.inj hh))
  | .str _, .arr _ => .isFalse (fun h => JVal.noConfusion h)
  | .str _, .obj _ => .isFalse (fun h => JVal.noConfusion h)
  | .arr _, .null => .isFalse (fun h => JVal.noConfusion h)
  | .arr _, .bool _ => .isFalse (fun h => JVal.noConfusion h)
  | .arr _, .num _ => .isFalse (fun h => JVal.noConfusion h)
  | .arr _, .str _ => .isFalse (fun h => JVal.noConfusion h)
  | .arr xs, .arr ys =>
    match JVal.decEqList xs ys with
    | .isTrue h => .isTrue (by rw [h])
    | .isFalse h => .isFalse (fun hh => h (JVal.arr.inj hh))
  | .arr _, .obj _ => .isFalse (fun h => JVal.noConfusion h)
  | .obj _, .null => .isFalse (fun h => JVal.noConfusion h)
  | .obj _, .bool _ => .isFalse (fun h => JVal.noConfusion h)
  | .obj _, .num _ => .isFalse (fun h => JVal.noConfusion h)
  | .obj _, .str _ => .isFalse (fun h => JVal.noConfusion h)
  | .obj _, .arr _ => .isFalse (fun h => JVal.noConfusion h)
  | .obj xs, .obj ys =>
    match JVal.decEqFields xs ys with
    | .isTrue h => .isTrue (by rw [h])
    | .isFalse h => .isFalse (fun hh => h (JVal.obj.inj hh))
termination_by a _ => sizeOf a

/-- Decidable equality of JSON value lists. -/
def JVal.decEqList : (xs ys : List JVal) → Decidable (xs = ys)
  | [], [] => .isTrue rfl
  | [], _ :: _ => .isFalse (fun h => List.noConfusion h)
  | _ :: _, [] => .isFalse (fun h => List.noConfusion h)
  | x :: xs, y :: ys =>
    match JVal.decEq x y with
    | .isTrue h1 =>
      match JVal.decEqList xs ys with
      | .isTrue h2 => .isTrue (by rw [h1, h2])
      | .isFalse h2 => .isFalse (fun hh => h2 (List.cons.inj hh).2)
    | .isFalse h1 => .isFalse (fun hh => h1 (List.cons.inj hh).1)
termination_by xs _ => sizeOf xs

/-- Decidable equality of JSON object field lists. -/
def JVal.decEqFields : (xs ys : List (String × JVal)) → Decidable (xs = ys)
  | [], [] => .isTrue rfl
  | [], _ :: _ => .isFalse (fun h => List.noConfusion h)
  | _ :: _, [] => .isFalse (fun h => List.noConfusion h)
  | (k, v) :: xs, (k', v') :: ys =>
    if hk : k = k' then
      match JVal.decEq v v' with
      | .isTrue h1 =>
        match JVal.decEqFields xs ys with
        | .isTrue h2 => .isTrue (by rw [hk, h1, h2])
        | .isFalse h2 => .isFalse (fun hh => h2 (List.cons.inj hh).2)
      | .isFalse h1 =>
        .isFalse (fun hh => h1 (congrArg Prod.snd (List.cons.inj hh).1))
    else .isFalse (fun hh => hk (congrArg Prod.fst (List.cons.inj hh).1))
termination_by xs _ => sizeOf xs

end

instance : DecidableEq JVal := JVal.decEq

/-- Structural test for the JSON `null` value. -/
def isNullJ : JVal → Bool
  | .null => true
  | _ => false

/-- JavaScript truthiness of a value. -/
def jTruthy : JVal → Bool
  | .null => false
  | .bool b => b
  | .num n => n ≠ 0
  | .str s => s ≠ ""
  | .arr _ => true
  | .obj _ => true

/-- Truthiness of a possibly-undefined value (`undefined` is falsy). -/
def jTruthyOpt : Option JVal → Bool
  | none => false
  | some v => jTruthy v

/-- First binding of a key in an association list. -/
def alookup (k : String) : List (String × JVal) → Option JVal
  | [] => none
  | (k', v) :: rest => if k' = k then some v else alookup k rest

/-- Whether a key occurs in an association list. -/
def akeyMem (k : String) (l : List (String × JVal)) : Bool :=
  (alookup k l).isSome

/-- Last binding of a key in an association list. -/
def alookupLast (k : String) : List (String × JVal) → Option JVal
  | [] => none
  | (k', v) :: rest =>
    match alookupLast k rest with
    | some w => some w
    | none => if k' = k then some v else none

/-- Canonical JavaScript object fields built from raw parsed bindings:
keys in first-occurrence order, each carrying its last value (as
`JSON.parse` deduplicates repeated keys). `seen` accumulates the keys
already emitted. -/
def canonAux (seen : List String) : List (String × JVal) → List (String × JVal)
  | [] => []
  | (k, v) :: rest =>
    if seen.contains k then canonAux seen rest
    else (k, (alookupLast k rest).getD v) :: canonAux (k :: seen) rest

/-- Canonical JavaScript object fields of raw parsed bindings. -/
def canonFields (l : List (String × JVal)) : List (String × JVal) :=
  canonAux [] l

/-- Indexed bindings produced by spreading or enumerating an array. -/
def indexedFields (xs : List JVal) : List (String × JVal) :=
  (List.range xs.length).zip xs |>.map (fun p => (toString p.1, p.2))

/-- Indexed bindings produced by enumerating a string (JavaScript exposes
its characters at numeric keys). -/
def stringFields (s : String) : List (String × JVal) :=
  indexedFields (s.toList.map (fun c => .str (String.singleton c)))

/-- Own enumerable fields of a value as used by object spread
(`...v`): objects give their canonical fields, arrays and strings their
indexed entries, primitives nothing. -/
def toObj : JVal → List (String × JVal)
  | .obj l => canonFields l
  | .arr xs => indexedFields xs
  | .str s => stringFields s
  | _ => []

/-- `Object.entries(v)`; `none` models the `TypeError` thrown on `null`
(always inside a `tryJson` at its call sites). -/
def jEntries : JVal → Option (List (String × JVal))
  | .null => none
  | .obj l => some (canonFields l)
  | .arr xs => some (indexedFields xs)
  | .str s => some (stringFields s)
  | _ => some []

/-- Property access `v.k`: `none` is `undefined`. Access on `null` is not
modelled here (the one call site that can receive `null` handles it
separately). -/
def jGet (v : JVal) (k : String) : Option JVal :=
  match v with
  | .obj l => alookup k (canonFields l)
  | _ => none

/-- The spread merge of two JavaScript objects: keys of `a` keep their
position (values overridden by `b` where present), then keys of `b` not in
`a` are appended in order. -/
def jsMerge (a b : List (String × JVal)) : List (String × JVal) :=
  (a.map (fun p => (p.1, (alookup p.1 b).getD p.2))) ++
    b.filter (fun p => !akeyMem p.1 a)

/-- The value the last patch of a patch sequence assigns to a key, if
any patch binds it (used to state what a chain of spread merges leaves at
each key). -/
def olast (k : String) : List (List (String × JVal)) → Option JVal
  | [] => none
  | b :: rest =>
    match olast k rest with
    | some u => some u
    | none => alookup k b

/-- `R.pick(keys, v)` restricted to parsed JSON: `none` models the throw
on `null`; on non-null primitives and arrays no listed key is own, giving
the empty object. -/
def pickFields (keys : List String) (v : JVal) : Option (List (String × JVal)) :=
  match v with
  | .null => none
  | .obj l => some ((canonFields l).filter (fun p => keys.contains p.1))
  | _ => some []

/-! ### Relay URL helpers

The relay normalizer lives in `src/util/nostr`, which is not part of the
sources. Modelled from the spec: pure functions validating and
canonicalizing endpoint URLs (shareable vs. unshareable, canonical string
form). -/

/-- Modelled from the spec: the "looks like a relay endpoint" validity
check (`isRelay` of `src/util/nostr`). -/
def isRelay (url : String) : Bool :=
  strStarts "ws://" url || strStarts "wss://" url

/-- Modelled from the spec: shareable relay endpoints are valid relay URLs
that do not point at a local host (`isShareableRelay` of
`src/util/nostr`). -/
def isShareableRelay (url : String) : Bool :=
  isRelay url && !containsChars "localhost".data url.data

/-- Modelled from the spec: canonical string form of a relay URL
(`normalizeRelayUrl` of `src/util/nostr`); trailing slash removal. -/
def normalizeRelayUrl (url : String) : String :=
  if url.data.getLast? = some '/' then String.mk url.data.dropLast else url

/-- Modelled from the spec: the deterministic hash of `src/util/misc` used
to key routes, abstracted as the identity injection on the concatenated
key. -/
def hashStr (s : String) : String := s

/-- Modelled from the spec: `timedelta(30, "days")` in seconds. -/
def timedelta30Days : Int := 30 * 86400

/-- Modelled from the spec: bech32 decoding of an `lnurl1` payload to a
URL (`bech32ToHex` of `src/util/misc`); decode failure gives `none`. The
coding itself is abstracted as an invertible affixing. -/
def bech32ToHex (s : String) : Option String :=
  if strStarts "lnurl1" s then some (String.mk (s.data.drop 6)) else none

/-- Modelled from the spec: bech32 re-encoding of a URL under a given
human-readable part (`hexToBech32` of `src/util/misc`). -/
def hexToBech32 (hrp : String) (s : String) : String :=
  hrp ++ "1" ++ s

/-! ### Data model -/

/-- An incoming protocol event. `tags` is an `Option` so that a malformed
event lacking its tags array (whose access throws in JavaScript) is
representable. -/
structure Event where
  id : String
  pubkey : String
  kind : Int
  created_at : Int
  content : String
  tags : Option (List (List String))
deriving DecidableEq

/-- A relay entry of the current user's relay selection. A missing URL or
flag (JavaScript `undefined`) is modelled by `getD` defaults at the
construction sites. -/
structure RelayEntry where
  url : String
  read : Option Bool := none
  write : Option Bool := none
deriving DecidableEq

/-- The Identity projection of one pubkey (row of the `people` table). -/
structure Person where
  pubkey : String
  updated_at : Int
  kind0 : Option (List (String × JVal)) := none
  kind0_updated_at : Option Int := none
  petnames : Option (List (List String)) := none
  petnames_updated_at : Option Int := none
  verified_as : Option String := none
  lnurl : Option String := none
  zapper : Option (List (String × JVal)) := none
deriving DecidableEq

/-- The current user's profile projection (the `user.profile` store). -/
structure Profile where
  pubkey : String
  relays : List RelayEntry := []
  relays_updated_at : Option Int := none
  mutes : Option (List (List String)) := none
  mutes_updated_at : Option Int := none
  kind0 : Option (List (String × JVal)) := none
  kind0_updated_at : Option Int := none
  petnames : Option (List (List String)) := none
  petnames_updated_at : Option Int := none
  verified_as : Option String := none
  lnurl : Option String := none
  zapper : Option (List (String × JVal)) := none
deriving DecidableEq

/-- A room row: identifier, creator, monotonic timestamp and the merged
whitelisted metadata fields. -/
structure Room where
  id : String
  pubkey : String
  updated_at : Int
  attrs : List (String × JVal)
deriving DecidableEq

/-- A route row of the reputation engine. `last_seen` is absent on the
synthesized defaults (`route.last_seen || 0` guards the read). -/
structure Route where
  id : String
  pubkey : String
  url : String
  mode : String
  score : ℚ
  count : Nat
  types : List String
  last_seen : Option Int := none
deriving DecidableEq

/-- A launched verification side-channel lookup (fire-and-forget). -/
inductive Effect where
  | nip05Verify : String → JVal → Effect
  | zapperVerify : String → String → Effect
deriving DecidableEq

/-- The entity store plus the pending side-channel launches. Tables are
modelled as key-indexed partial maps; `relays` rows carry only their URL
here, so the table is modelled by its key set. -/
structure State where
  people : String → Option Person
  profile : Profile
  rooms : String → Option Room
  routes : String → Option Route
  relays : String → Bool
  userEvents : String → Option Event
  effects : List Effect

/-- The initial state for a local user. -/
def State.init (userPubkey : String) : State where
  people := fun _ => none
  profile := { pubkey := userPubkey }
  rooms := fun _ => none
  routes := fun _ => none
  relays := fun _ => false
  userEvents := fun _ => none
  effects := []

/-- Point update of a partial map. -/
def mapPut {α : Type} (f : String → Option α) (k : String) (v : α) :
    String → Option α :=
  fun k' => if k' = k then some v else f k'

/-! ### Reputation engine -/

/-- `uniq` of ramda (keep the first occurrence of each element), with the
elements already kept accumulated in `seen`. -/
def listUniqAux (seen : List String) : List String → List String
  | [] => []
  | x :: rest =>
    if seen.contains x then listUniqAux seen rest
    else x :: listUniqAux (x :: seen) rest

/-- `uniq` of ramda: keep the first occurrence of each element. -/
def listUniq (l : List String) : List String := listUniqAux [] l

/-- The fixed per-evidence-type weight table; unknown types yield
`undefined` (`none`), which poisons the score computation. -/
def getWeight (type : String) : Option ℚ :=
  if type = "nip05" then some 1
  else if type = "kind:10002" then some 1
  else if type = "kind:3" then some (8 / 10)
  else if type = "kind:2" then some (5 / 10)
  else none

/-- This observation's evidence score
`weight(type) * (1 - (now - created_at) / 30 days)`; `none` models the NaN
produced by an undefined weight (which fails the `> 0` test). -/
def evidenceScore (nowT : Int) (type : String) (created_at : Int) : Option ℚ :=
  (getWeight type).map
    (fun w => w * (1 - ((nowT : ℚ) - (created_at : ℚ)) / (timedelta30Days : ℚ)))

/-- The deterministic route id. -/
def routeId (pubkey url mode : String) : String :=
  hashStr (pubkey ++ url ++ mode)

/-- `addRoute(pubkey, rawUrl, type, mode, created_at)`: fold one piece of
route evidence into the routes table, a no-op unless the URL is shareable
and the decayed evidence score is strictly positive. -/
def addRoute (nowT : Int) (σ : State) (pubkey rawUrl type mode : String)
    (created_at : Int) : State :=
  if !isShareableRelay rawUrl then σ
  else
    let url := normalizeRelayUrl rawUrl
    let id := routeId pubkey url mode
    let defaults : Route :=
      { id := id, pubkey := pubkey, url := url, mode := mode,
        score := 0, count := 0, types := [] }
    let route := (σ.routes id).getD defaults
    match evidenceScore nowT type created_at with
    | none => σ
    | some score =>
      let newTotalScore := route.score * route.count + score
      let newCount := route.count + 1
      if score > 0 then
        { σ with
          relays := fun u => if u = route.url then true else σ.relays u,
          routes := mapPut σ.routes id
            { route with
              count := newCount,
              score := newTotalScore / newCount,
              types := listUniq (route.types ++ [type]),
              last_seen := some (max created_at ((route.last_seen).getD 0)) } }
      else σ

/-! ### Event dispatch and merge handlers -/

/-- The processing context: the runtime's `JSON.parse` (abstracted as a
total function into `Option`, `none` meaning the parse threw) and the
wall-clock `now()` of this pass. -/
structure Ctx where
  parse : String → Option JVal
  nowT : Int

/-- The comparison `t < stored` of the last-write-wins guard: comparing
against a missing (`undefined`) timestamp is `NaN`-false, so a missing
timestamp never rejects. -/
def tsLt (t : Int) : Option Int → Bool
  | none => false
  | some u => t < u

/-- Pick the patch value when present, otherwise keep the old one. -/
def patchField {α : Type} : Option α → Option α → Option α
  | some x, _ => some x
  | none, y => y

/-- The partial-field `data` argument of `updatePerson`; `none` fields are
absent from the patch. -/
structure PersonData where
  kind0 : Option (List (String × JVal)) := none
  kind0_updated_at : Option Int := none
  petnames : Option (List (List String)) := none
  petnames_updated_at : Option Int := none
  verified_as : Option String := none
  lnurl : Option String := none
  zapper : Option (List (String × JVal)) := none

/-- The row a person patch merges into: the stored row, or a fresh one. -/
def personBase (nowT : Int) (σ : State) (pubkey : String) : Person :=
  match σ.people pubkey with
  | some p => p
  | none => { pubkey := pubkey, updated_at := nowT }

/-- `updatePerson(pubkey, data)`: patch the person row (creating it if
absent) with `updated_at := now()`, and mirror the same data into the
current user's profile when the pubkey matches. -/
def updatePerson (nowT : Int) (σ : State) (pubkey : String) (d : PersonData) :
    State :=
  let base : Person := personBase nowT σ pubkey
  let row : Person :=
    { pubkey := pubkey,
      updated_at := nowT,
      kind0 := patchField d.kind0 base.kind0,
      kind0_updated_at := patchField d.kind0_updated_at base.kind0_updated_at,
      petnames := patchField d.petnames base.petnames,
      petnames_updated_at :=
        patchField d.petnames_updated_at base.petnames_updated_at,
      verified_as := patchField d.verified_as base.verified_as,
      lnurl := patchField d.lnurl base.lnurl,
      zapper := patchField d.zapper base.zapper }
  let σ1 := { σ with people := mapPut σ.people pubkey row }
  if pubkey = σ.profile.pubkey then
    { σ1 with profile :=
      { σ1.profile with
        kind0 := patchField d.kind0 σ1.profile.kind0,
        kind0_updated_at :=
          patchField d.kind0_updated_at σ1.profile.kind0_updated_at,
        petnames := patchField d.petnames σ1.profile.petnames,
        petnames_updated_at :=
          patchField d.petnames_updated_at σ1.profile.petnames_updated_at,
        verified_as := patchField d.verified_as σ1.profile.verified_as,
        lnurl := patchField d.lnurl σ1.profile.lnurl,
        zapper := patchField d.zapper σ1.profile.zapper } }
  else σ1

/-- The result of an external domain-identity lookup. -/
structure Nip05Result where
  pubkey : String
  relays : List String

/-- The completion of the domain-identity verification, modelled as a pure
function of the lookup result (`none` models any swallowed failure). -/
def verifyNip05Apply (nowT : Int) (σ : State) (pubkey claimed : String)
    (result : Option Nip05Result) : State :=
  match result with
  | none => σ
  | some r =>
    if r.pubkey = pubkey then
      let σ1 := updatePerson nowT σ pubkey { verified_as := some claimed }
      if r.relays.length > 0 then
        let urls := r.relays.filter isRelay
        let σ2 := { σ1 with relays := fun u =>
          if (urls.map normalizeRelayUrl).contains u then true else σ1.relays u }
        urls.foldl (fun σ url =>
          addRoute nowT (addRoute nowT σ pubkey url "nip05" "write" nowT)
            pubkey url "nip05" "read" nowT) σ2
      else σ1
    else σ

/-- Resolve a payment address to its HTTPS metadata URL: an
`lnurl1`-prefixed bech32 string is decoded directly, a `name@domain`
address maps to the well-known `lnurlp` path; anything else (or a decode
failure) resolves to nothing. -/
def zapperUrl (address : String) : Option String :=
  if strStarts "lnurl1" address then bech32ToHex address
  else
    match (splitChar '@' address.data).map (fun l => String.mk l) with
    | name :: domain :: _ =>
      if name ≠ "" && domain ≠ "" then
        some ("https://" ++ domain ++ "/.well-known/lnurlp/" ++ name)
      else none
    | _ => none

/-- The keys kept when trimming accepted payment metadata. -/
def zapperKeys : List String :=
  ["callback", "maxSendable", "minSendable", "nostrPubkey"]

/-- `verifyZapper(pubkey, address)`: resolve the address to a metadata
URL, and — modelled as a pure function of the fetched, JSON-parsed
response (`none` = failed fetch or parse, swallowed) — accept only
metadata declaring `allowsNostr` and a non-empty `nostrPubkey`, storing
the re-encoded `lnurl` and the trimmed `zapper` subset. -/
def verifyZapper (nowT : Int) (σ : State) (pubkey address : String)
    (response : Option JVal) : State :=
  match zapperUrl address with
  | none => σ
  | some u =>
    let zapper := response
    let lnurl := hexToBech32 "lnurl" u
    if jTruthyOpt (zapper.bind (fun z => jGet z "allowsNostr")) &&
        jTruthyOpt (zapper.bind (fun z => jGet z "nostrPubkey")) then
      updatePerson nowT σ pubkey
        { lnurl := some lnurl,
          zapper := zapper.bind (pickFields zapperKeys) }
    else σ

/-- The payment address of a parsed kind-0 content:
`kind0.lud16 || kind0.lud06`. -/
def kind0Address (kind0 : JVal) : Option JVal :=
  if jTruthyOpt (jGet kind0 "lud16") then jGet kind0 "lud16"
  else jGet kind0 "lud06"

/-- Whether lowercasing the payment address cannot throw: the address is
absent, falsy, or an actual string (`.toLowerCase()` on a truthy
non-string throws, aborting the kind-0 update inside its `tryJson`). -/
def addressSafe (kind0 : JVal) : Bool :=
  match kind0Address kind0 with
  | none => true
  | some (.str _) => true
  | some v => !jTruthy v

/-- A per-kind handler. A `.error` models a synchronous JavaScript throw;
every throw in the source happens before any table mutation of its
handler, so an error carries no partial state. -/
def Handler : Type := Ctx → Event → State → Except String State

/-- The kind-0 handler: last-write-wins merge of profile metadata plus the
two verification side-channel triggers. The whole body runs inside
`tryJson`, so throws (unparseable content, property access on a parsed
`null`, `toLowerCase` on a non-string payment address) abort the update
silently, keeping any verification already launched. -/
def handler0 : Handler := fun ctx e σ => .ok <|
  match ctx.parse e.content with
  | none => σ
  | some kind0 =>
    let person := σ.people e.pubkey
    if tsLt e.created_at (person.bind (fun p => p.kind0_updated_at)) then σ
    else if kind0 = .null then σ
    else
      let effects1 :=
        if jTruthyOpt (jGet kind0 "nip05") then
          σ.effects ++ [.nip05Verify e.pubkey ((jGet kind0 "nip05").getD .null)]
        else σ.effects
      let address := kind0Address kind0
      let doUpdate := fun (effs : List Effect) =>
        updatePerson ctx.nowT { σ with effects := effs } e.pubkey
          { kind0 := some (jsMerge ((person.bind (fun p => p.kind0)).getD [])
              (toObj kind0)),
            kind0_updated_at := some e.created_at }
      match address with
      | some (.str s) => doUpdate (effects1 ++ [.zapperVerify e.pubkey (toLowerStr s)])
      | some v => if jTruthy v then { σ with effects := effects1 } else doUpdate effects1
      | none => doUpdate effects1

/-- The kind-3 petnames handler: last-write-wins replacement of the `p`
tag list. Accessing a missing tags array throws. -/
def handler3Petnames : Handler := fun ctx e σ =>
  let person := σ.people e.pubkey
  if tsLt e.created_at (person.bind (fun p => p.petnames_updated_at)) then .ok σ
  else
    match e.tags with
    | none => .error "tags of undefined"
    | some tags =>
      .ok (updatePerson ctx.nowT σ e.pubkey
        { petnames_updated_at := some e.created_at,
          petnames := some (tags.filter (fun t => t.head? == some "p")) })

/-- The generic current-user profile handler: under the pubkey and
staleness guards, compute a candidate value and patch the field plus its
companion timestamp only when the value is truthy (`none` models a
JavaScript-falsy result; lists are always truthy). -/
def profileHandler {α : Type}
    (readTs : Profile → Option Int)
    (setField : Profile → α → Int → Profile)
    (getValue : Ctx → Event → Profile → Except String (Option α)) : Handler :=
  fun ctx e σ =>
    let profile := σ.profile
    if e.pubkey ≠ profile.pubkey then .ok σ
    else if tsLt e.created_at (readTs profile) then .ok σ
    else
      match getValue ctx e profile with
      | .error err => .error err
      | .ok none => .ok σ
      | .ok (some v) => .ok { σ with profile := setField profile v e.created_at }

/-- Set the user's relay selection and its companion timestamp. -/
def setRelays (p : Profile) (v : List RelayEntry) (t : Int) : Profile :=
  { p with relays := v, relays_updated_at := some t }

/-- Set the user's mute list and its companion timestamp. -/
def setMutes (p : Profile) (v : List (List String)) (t : Int) : Profile :=
  { p with mutes := some v, mutes_updated_at := some t }

/-- Dedupe a relay list by URL keeping the first occurrence, with the URLs
already kept accumulated in `seen`. -/
def uniqByUrlAux (seen : List String) : List RelayEntry → List RelayEntry
  | [] => []
  | r :: rest =>
    if seen.contains r.url then uniqByUrlAux seen rest
    else r :: uniqByUrlAux (r.url :: seen) rest

/-- Modelled from the spec: `uniqByUrl` of `src/agent/relays` — dedupe a
relay list by URL keeping the first occurrence. -/
def uniqByUrl (l : List RelayEntry) : List RelayEntry := uniqByUrlAux [] l

/-- Is a relay condition explicitly negated (`[false, "!"].includes(x)`)? -/
def jsNegated : Option JVal → Bool
  | some (.bool false) => true
  | some (.str s) => s = "!"
  | _ => false

/-- Modelled from the spec: the `Tags` helper of `src/util/nostr` filtered
by tag name (`Tags.from(e).type(t).all()`). -/
def tagsOfType (tags : List (List String)) (type : String) : List (List String) :=
  tags.filter (fun t => t.head? == some type)

/-- Kind-2 relay value: append the event content as a relay URL and dedupe. -/
def getValueRelays2 : Ctx → Event → Profile → Except String (Option (List RelayEntry)) :=
  fun _ e p => .ok (some (uniqByUrl (p.relays ++ [{ url := e.content }])))

/-- Kind-3 relay value: parse the content as a relay-conditions object
(inside `tryJson`: a parse failure, `Object.entries(null)`, or
destructuring a `null` condition throws and yields no value) and build
read/write-flagged entries, keeping only valid relay URLs. -/
def getValueRelays3 : Ctx → Event → Profile → Except String (Option (List RelayEntry)) :=
  fun ctx e _ => .ok <|
    match ctx.parse e.content with
    | none => none
    | some j =>
      match jEntries j with
      | none => none
      | some entries =>
        if entries.any (fun p => isNullJ p.2) then none
        else
          let mapped : List RelayEntry := entries.map (fun p =>
            { url := normalizeRelayUrl p.1,
              read := some (!jsNegated (jGet p.2 "read")),
              write := some (!jsNegated (jGet p.2 "write")) })
          some (mapped.filter (fun r => isRelay r.url))

/-- Kind-10000 mute value: the raw tag list; reading `e.tags` never throws,
an absent list is `undefined` and hence falsy (while arrays, even empty
ones, are truthy). -/
def getValueMutes : Ctx → Event → Profile → Except String (Option (List (List String))) :=
  fun _ e _ => .ok e.tags

/-- Kind-10001 relay value (deprecated tag-list form): tag elements 0, 1
and 2 are URL, read marker and write marker; a missing URL is
`undefined`, modelled by the empty string. -/
def getValueRelays10001 : Ctx → Event → Profile → Except String (Option (List RelayEntry)) :=
  fun _ e _ =>
    match e.tags with
    | none => .error "tags of undefined"
    | some tags =>
      .ok (some (tags.map (fun t =>
        { url := (t.get? 0).getD "",
          read := some (!(t.get? 1 == some "!")),
          write := some (!(t.get? 2 == some "!")) })))

/-- Kind-10002 relay value: `r`-typed tags carry URL and an optional mode
marker; an absent marker defaults each flag's comparison. -/
def getValueRelays10002 : Ctx → Event → Profile → Except String (Option (List RelayEntry)) :=
  fun _ e _ =>
    match e.tags with
    | none => .error "tags of undefined"
    | some tags =>
      .ok (some ((tagsOfType tags "r").map (fun t =>
        let m := (t.get? 2).getD ""
        { url := (t.get? 1).getD "",
          read := some ((if m = "" then "read" else m) == "read"),
          write := some ((if m = "" then "write" else m) == "write") })))

/-- Modelled from the spec: the permitted room-attribute whitelist
(`roomAttrs` of `src/util/nostr`); `name` is the member required by the
handlers. -/
def roomAttrs : List String := ["name", "about", "picture"]

/-- The whitelisted room metadata of an event's content:
`tryJson(() => pick(roomAttrs, JSON.parse(content)))`. -/
def roomContent (ctx : Ctx) (e : Event) : Option (List (String × JVal)) :=
  match ctx.parse e.content with
  | none => none
  | some j => pickFields roomAttrs j

/-- The kind-40 (room creation) handler: last-write-wins on the room's own
`updated_at`, requiring a truthy `name` to survive the projection. -/
def handler40 : Handler := fun ctx e σ => .ok <|
  let room := σ.rooms e.id
  if tsLt e.created_at (room.map (fun r => r.updated_at)) then σ
  else
    match roomContent ctx e with
    | none => σ
    | some content =>
      if !jTruthyOpt (alookup "name" content) then σ
      else
        let newRoom : Room :=
          { id := e.id, pubkey := e.pubkey, updated_at := e.created_at,
            attrs := jsMerge ((room.map (fun r => r.attrs)).getD []) content }
        { σ with rooms := mapPut σ.rooms e.id newRoom }

/-- The kind-41 (room metadata update) handler: resolve the target room
from the first `e`-tag reference (no effect without one), then proceed as
for creation. Reading the tags of a tagless event throws. -/
def handler41 : Handler := fun ctx e σ =>
  match e.tags with
  | none => .error "tags of undefined"
  | some tags => .ok <|
    match ((tagsOfType tags "e").head?).bind (fun t => t.get? 1) with
    | none => σ
    | some roomId =>
      let room := σ.rooms roomId
      if tsLt e.created_at (room.map (fun r => r.updated_at)) then σ
      else
        match roomContent ctx e with
        | none => σ
        | some content =>
          if !jTruthyOpt (alookup "name" content) then σ
          else
            let newRoom : Room :=
              { id := roomId, pubkey := e.pubkey, updated_at := e.created_at,
                attrs := jsMerge ((room.map (fun r => r.attrs)).getD []) content }
            { σ with rooms := mapPut σ.rooms roomId newRoom }

/-- The kind-2 route handler: the content is a single relay URL, evidence
for both modes. -/
def handler2Routes : Handler := fun ctx e σ =>
  .ok (addRoute ctx.nowT
    (addRoute ctx.nowT σ e.pubkey e.content "kind:2" "read" e.created_at)
    e.pubkey e.content "kind:2" "write" e.created_at)

/-- Fold kind-3 relay-condition entries into route evidence; destructuring
a `null` condition throws, which the surrounding `tryJson` swallows while
keeping the routes already added. -/
def addRoutesFromEntries (ctx : Ctx) (e : Event) :
    State → List (String × JVal) → State
  | σ, [] => σ
  | σ, (url, cond) :: rest =>
    if isNullJ cond then σ
    else
      let σ1 := if !jsNegated (jGet cond "write") then
          addRoute ctx.nowT σ e.pubkey url "kind:3" "write" e.created_at
        else σ
      let σ2 := if !jsNegated (jGet cond "read") then
          addRoute ctx.nowT σ1 e.pubkey url "kind:3" "read" e.created_at
        else σ1
      addRoutesFromEntries ctx e σ2 rest

/-- The kind-3 route handler (inside `tryJson`). -/
def handler3Routes : Handler := fun ctx e σ => .ok <|
  match ctx.parse e.content with
  | none => σ
  | some j =>
    match jEntries j with
    | none => σ
    | some entries => addRoutesFromEntries ctx e σ entries

/-- The kind-10002 route handler: every tag contributes evidence, for the
tagged mode only when present and truthy, otherwise for both modes. -/
def handler10002Routes : Handler := fun ctx e σ =>
  match e.tags with
  | none => .error "tags of undefined"
  | some tags =>
    .ok (tags.foldl (fun σ t =>
      let url := (t.get? 1).getD ""
      let mode := (t.get? 2).getD ""
      if mode ≠ "" then
        addRoute ctx.nowT σ e.pubkey url "kind:10002" mode e.created_at
      else
        addRoute ctx.nowT
          (addRoute ctx.nowT σ e.pubkey url "kind:10002" "read" e.created_at)
          e.pubkey url "kind:10002" "write" e.created_at) σ)

/-- The handlers registered for each kind, in registration order. -/
def handlersFor (kind : Int) : List Handler :=
  if kind = 0 then [handler0]
  else if kind = 2 then
    [profileHandler (fun p => p.relays_updated_at) setRelays getValueRelays2,
     handler2Routes]
  else if kind = 3 then
    [handler3Petnames,
     profileHandler (fun p => p.relays_updated_at) setRelays getValueRelays3,
     handler3Routes]
  else if kind = 10000 then
    [profileHandler (fun p => p.mutes_updated_at) setMutes getValueMutes]
  else if kind = 10001 then
    [profileHandler (fun p => p.relays_updated_at) setRelays getValueRelays10001]
  else if kind = 10002 then
    [profileHandler (fun p => p.relays_updated_at) setRelays getValueRelays10002,
     handler10002Routes]
  else if kind = 40 then [handler40]
  else if kind = 41 then [handler41]
  else []

/-- Run a handler list in order; a thrown error keeps the state reached so
far and aborts the rest. -/
def runHandlers (ctx : Ctx) (e : Event) :
    List Handler → State → State × Option String
  | [], σ => (σ, none)
  | h :: rest, σ =>
    match h ctx e σ with
    | .ok σ' => runHandlers ctx e rest σ'
    | .error err => (σ, some err)

/-- Record an event verbatim into the "my own events" archive when its
publisher is the local user. -/
def archive (σ : State) (e : Event) : State :=
  if e.pubkey = σ.profile.pubkey then
    { σ with userEvents := mapPut σ.userEvents e.id e }
  else σ

/-- Process one event: archive the local user's own events verbatim, then
invoke every handler registered for the event's kind in registration
order. -/
def procEvent (ctx : Ctx) (σ : State) (e : Event) : State × Option String :=
  runHandlers ctx e (handlersFor e.kind) (archive σ e)

/-- Process a list of events in order, stopping at the first thrown error
while keeping all prior table mutations (the promise rejects but
module-level tables survive). -/
def runEvents (ctx : Ctx) (σ : State) : List Event → State × Option String
  | [] => (σ, none)
  | e :: rest =>
    match procEvent ctx σ e with
    | (σ', none) => runEvents ctx σ' rest
    | (σ', some err) => (σ', some err)

/-- Chunk a list by 100 with explicit recursion fuel (one unit per chunk
suffices; `chunk100` supplies the list length). -/
def chunkFuel : Nat → List Event → List (List Event)
  | _, [] => []
  | 0, l => [l]
  | fuel + 1, x :: rest =>
    ((x :: rest).take 100) :: chunkFuel fuel ((x :: rest).drop 100)

/-- Modelled from the spec: `chunk(100, l)` of hurdak — split the batch
into consecutive chunks of fixed size 100. -/
def chunk100 (l : List Event) : List (List Event) := chunkFuel l.length l

/-- Fold one chunk of the batch: a rejection raised in an earlier chunk
skips everything after it (the async function's exception propagates). -/
def stepChunk (ctx : Ctx) (acc : State × Option String) (c : List Event) :
    State × Option String :=
  match acc with
  | (σ', none) => runEvents ctx σ' c
  | (σ', some err) => (σ', some err)

/-- `processEvents(events)`: the sole entry point. The argument is the
already-pluralized batch with gaps (`null` entries) still present; they
are filtered out, the batch is chunked by 100 (the inter-chunk sleep has
no state effect) and events are dispatched in order. A single non-null
event `e` enters as `[some e]` (`ensurePlural`). -/
def processEvents (ctx : Ctx) (σ : State) (events : List (Option Event)) :
    State × Option String :=
  (chunk100 (events.filterMap id)).foldl (stepChunk ctx) (σ, none)

/-! ### Per-entity replay machines

Each people row, room row and the profile relay timestamp evolves as a
fold of the per-event actions relevant to it; the machines below record
those actions so that runs can be replayed and compared. -/

/-- One event's action on the people row of a fixed pubkey: an effective
kind-0 patch, a tagged kind-3 petnames patch, or an untagged kind-3
event (which throws unless the staleness guard discards it first). -/
inductive PEv where
  | e0 (ets : Int) (b : List (String × JVal))
  | p3 (ets : Int) (tags : List (List String))
  | c3 (ets : Int)

/-- The spread object a kind-0 event merges into the row when its handler
reaches `updatePerson`: the parsed content when it is non-null and the
payment address cannot make `toLowerCase` throw. -/
def eff0 (ctx : Ctx) (e : Event) : Option (List (String × JVal)) :=
  match ctx.parse e.content with
  | none => none
  | some j =>
    if isNullJ j then none
    else
      match kind0Address j with
      | some (.str _) => some (toObj j)
      | some v => if jTruthy v then none else some (toObj j)
      | none => some (toObj j)

/-- Step the people row of pubkey `p` by one recorded action, mirroring
`updatePerson` under the last-write-wins guards. -/
def pStep (nowT : Int) (p : String) (ps : Option Person) : PEv → Option Person
  | .e0 ets b =>
    if tsLt ets (ps.bind (fun r => r.kind0_updated_at)) then ps
    else
      let base := match ps with
        | some r => r
        | none => { pubkey := p, updated_at := nowT }
      let row : Person :=
        { pubkey := p, updated_at := nowT,
          kind0 := some (jsMerge ((ps.bind (fun r => r.kind0)).getD []) b),
          kind0_updated_at := some ets,
          petnames := base.petnames,
          petnames_updated_at := base.petnames_updated_at,
          verified_as := base.verified_as,
          lnurl := base.lnurl,
          zapper := base.zapper }
      some row
  | .p3 ets tags =>
    if tsLt ets (ps.bind (fun r => r.petnames_updated_at)) then ps
    else
      let base := match ps with
        | some r => r
        | none => { pubkey := p, updated_at := nowT }
      let row : Person :=
        { pubkey := p, updated_at := nowT,
          kind0 := base.kind0,
          kind0_updated_at := base.kind0_updated_at,
          petnames := some (tags.filter (fun t => t.head? == some "p")),
          petnames_updated_at := some ets,
          verified_as := base.verified_as,
          lnurl := base.lnurl,
          zapper := base.zapper }
      some row
  | .c3 _ => ps

/-- Replay a recorded action list over one people row. -/
def pRun (nowT : Int) (p : String) (ps : Option Person) (evs : List PEv) :
    Option Person :=
  evs.foldl (pStep nowT p) ps

/-- Every untagged kind-3 action along the run is discarded as stale
(otherwise the handler throws on the missing tag list). -/
def pOk (nowT : Int) (p : String) : Option Person → List PEv → Prop
  | _, [] => True
  | ps, ev :: rest =>
    (match ev with
     | .c3 ets =>
       tsLt ets (ps.bind (fun r => r.petnames_updated_at)) = true
     | _ => True) ∧ pOk nowT p (pStep nowT p ps ev) rest

/-- The people-row actions of a batch for pubkey `p`, in order. -/
def pext (ctx : Ctx) (p : String) (evs : List Event) : List PEv :=
  evs.filterMap (fun e =>
    if e.pubkey = p then
      if e.kind = 0 then (eff0 ctx e).map (fun b => PEv.e0 e.created_at b)
      else if e.kind = 3 then
        match e.tags with
        | some tags => some (.p3 e.created_at tags)
        | none => some (.c3 e.created_at)
      else none
    else none)

/-- One event's action on the room row of a fixed id. -/
structure REv where
  ets : Int
  pubkey : String
  content : List (String × JVal)

/-- Step one room row by one recorded action, mirroring the kind-40/41
patch under the room's own last-write-wins guard. -/
def rStep (rid : String) (rs : Option Room) (ev : REv) : Option Room :=
  if tsLt ev.ets (rs.map (fun r => r.updated_at)) then rs
  else
    let row : Room :=
      { id := rid, pubkey := ev.pubkey, updated_at := ev.ets,
        attrs := jsMerge ((rs.map (fun r => r.attrs)).getD []) ev.content }
    some row

/-- Replay a recorded action list over one room row. -/
def rRun (rid : String) (rs : Option Room) (evs : List REv) : Option Room :=
  evs.foldl (rStep rid) rs

/-- The whitelisted content a room event contributes when a truthy `name`
survives the projection. -/
def roomEff (ctx : Ctx) (e : Event) : Option (List (String × JVal)) :=
  match roomContent ctx e with
  | none => none
  | some content =>
    if jTruthyOpt (alookup "name" content) then some content else none

/-- The room id a kind-41 event addresses. -/
def roomTarget (tags : List (List String)) : Option String :=
  ((tagsOfType tags "e").head?).bind (fun t => t.get? 1)

/-- The room-row actions of a batch for room id `rid`, in order. -/
def rext (ctx : Ctx) (rid : String) (evs : List Event) : List REv :=
  evs.filterMap (fun e =>
    if e.kind = 40 then
      if e.id = rid then
        (roomEff ctx e).map (fun c => ⟨e.created_at, e.pubkey, c⟩)
      else none
    else if e.kind = 41 then
      match e.tags with
      | none => none
      | some tags =>
        if roomTarget tags = some rid then
          (roomEff ctx e).map (fun c => ⟨e.created_at, e.pubkey, c⟩)
        else none
    else none)

/-- One event's action on the user profile's relay timestamp: a truthy
relay-list extraction, a falsy one, or a kind-10001 event without a tag
list (which throws unless the staleness guard discards it first). -/
inductive RlEv where
  | upd (ets : Int)
  | skip (ets : Int)
  | chk (ets : Int)

/-- Step the relay timestamp by one recorded action. -/
def rlStep (ts : Option Int) : RlEv → Option Int
  | .upd ets => if tsLt ets ts then ts else some ets
  | .skip _ => ts
  | .chk _ => ts

/-- Replay a recorded action list over the relay timestamp. -/
def rlRun (ts : Option Int) (evs : List RlEv) : Option Int :=
  evs.foldl rlStep ts

/-- Every untagged kind-10001 action along the run is discarded as
stale. -/
def rlOk : Option Int → List RlEv → Prop
  | _, [] => True
  | ts, ev :: rest =>
    (match ev with
     | .chk ets => tsLt ets ts = true
     | _ => True) ∧ rlOk (rlStep ts ev) rest

/-- Whether the kind-3 relay extraction yields a (truthy) list rather
than aborting inside its `tryJson`. -/
def rl3some (ctx : Ctx) (e : Event) : Bool :=
  match ctx.parse e.content with
  | none => false
  | some j =>
    match jEntries j with
    | none => false
    | some entries => !(entries.any (fun p => isNullJ p.2))

/-- The relay-timestamp actions of a batch, in order (only the local
user's own events reach the profile handlers). -/
def rlext (ctx : Ctx) (user : String) (evs : List Event) : List RlEv :=
  evs.filterMap (fun e =>
    if e.pubkey = user then
      if e.kind = 2 then some (.upd e.created_at)
      else if e.kind = 3 then
        some (if rl3some ctx e then .upd e.created_at
          else .skip e.created_at)
      else if e.kind = 10001 then
        match e.tags with
        | some _ => some (.upd e.created_at)
        | none => some (.chk e.created_at)
      else if e.kind = 10002 then
        match e.tags with
        | some _ => some (.upd e.created_at)
        | none => some (.skip e.created_at)
      else none
    else none)

/-- The stored kind-0 timestamp of a possibly-missing people row. -/
def k0ts (ps : Option Person) : Option Int :=
  ps.bind (fun r => r.kind0_updated_at)

/-- The stored petnames timestamp of a possibly-missing people row. -/
def petts (ps : Option Person) : Option Int :=
  ps.bind (fun r => r.petnames_updated_at)

/-- The stored kind-0 object of a possibly-missing people row, as the
merge base the handler uses. -/
def k0v (ps : Option Person) : List (String × JVal) :=
  (ps.bind (fun r => r.kind0)).getD []

/-- The stored petname list of a possibly-missing people row. -/
def petv (ps : Option Person) : Option (List (List String)) :=
  ps.bind (fun r => r.petnames)

/-- The kind-0 patches of an action list carrying exactly the given
timestamp. -/
def atM0 (evs : List PEv) (M : Option Int) : List (List (String × JVal)) :=
  evs.filterMap (fun ev => match ev with
    | .e0 ets b => if (some ets : Option Int) = M then some b else none
    | _ => none)

/-- The petname patches of an action list carrying exactly the given
timestamp. -/
def atMp (evs : List PEv) (M : Option Int) : List (List (List String)) :=
  evs.filterMap (fun ev => match ev with
    | .p3 ets tags => if (some ets : Option Int) = M then some tags else none
    | _ => none)

/-- Mid-replay closeness of a people row to its target: either already
equal, or both rows exist, stamped with the same pubkey and update time,
and agreeing everywhere except possibly the kind-0 object and the petname
list (which the remaining replay still overwrites). -/
def PClose (nowT : Int) (p : String) (τ P : Option Person) : Prop :=
  τ = P ∨
  (∃ rτ rP, τ = some rτ ∧ P = some rP ∧
    rτ.pubkey = p ∧ rP.pubkey = p ∧
    rτ.updated_at = nowT ∧ rP.updated_at = nowT ∧
    rτ.kind0_updated_at = rP.kind0_updated_at ∧
    rτ.petnames_updated_at = rP.petnames_updated_at ∧
    rτ.verified_as = rP.verified_as ∧ rτ.lnurl = rP.lnurl ∧
    rτ.zapper = rP.zapper)

/-- The stored timestamp of a possibly-missing room row. -/
def rts (rs : Option Room) : Option Int := rs.map (fun r => r.updated_at)

/-- The stored attributes of a possibly-missing room row, as the merge
base the handler uses. -/
def rv (rs : Option Room) : List (String × JVal) :=
  (rs.map (fun r => r.attrs)).getD []

/-- The room actions of an action list carrying exactly the given
timestamp: creator and contributed content. -/
def ratM (evs : List REv) (M : Option Int) :
    List (String × List (String × JVal)) :=
  evs.filterMap (fun ev =>
    if (some ev.ets : Option Int) = M then some (ev.pubkey, ev.content)
    else none)

/-- Mid-replay closeness of a room row to its target: either already
equal, or both rows exist under the replayed id with the same update
time (pubkey and attributes are still being overwritten). -/
def RClose (rid : String) (τ R : Option Room) : Prop :=
  τ = R ∨
  (∃ rτ rR, τ = some rτ ∧ R = some rR ∧
    rτ.id = rid ∧ rR.id = rid ∧ rτ.updated_at = rR.updated_at)

/-- The conditions under which dispatching one event does not throw: a
kind-3 event without tags must be stale for its pubkey's petnames, a
kind-10001 event without tags must be foreign or stale for the user's
relay list, and kind-10002 and kind-41 events must carry tags. -/
def OkEv (ctx : Ctx) (σ : State) (e : Event) : Prop :=
  (e.kind = 3 → e.tags = none →
    tsLt e.created_at
      ((σ.people e.pubkey).bind (fun r => r.petnames_updated_at)) = true) ∧
  (e.kind = 10001 → e.tags = none → e.pubkey = σ.profile.pubkey →
    tsLt e.created_at σ.profile.relays_updated_at = true) ∧
  (e.kind = 10002 → e.tags ≠ none) ∧
  (e.kind = 41 → e.tags ≠ none)

/-- The conditions under which a whole batch runs to completion. -/
def AllOk (ctx : Ctx) (σ : State) (evs : List Event) : Prop :=
  (∀ e ∈ evs, e.kind = 10002 → e.tags ≠ none) ∧
  (∀ e ∈ evs, e.kind = 41 → e.tags ≠ none) ∧
  (∀ p, pOk ctx.nowT p (σ.people p) (pext ctx p evs)) ∧
  rlOk σ.profile.relays_updated_at (rlext ctx σ.profile.pubkey evs)

/-! ### Recorded reputation-engine invocations (for stating invariants) -/

/-- One recorded `addRoute` invocation. -/
structure AddCall where
  pubkey : String
  rawUrl : String
  type : String
  mode : String
  created_at : Int

/-- Replay a sequence of `addRoute` invocations. -/
def runAddRoutes (nowT : Int) (σ : State) (calls : List AddCall) : State :=
  calls.foldl
    (fun σ c => addRoute nowT σ c.pubkey c.rawUrl c.type c.mode c.created_at) σ

/-- The individually-computed evidence scores of exactly those calls that
target a given route id and are folded in: valid shareable URL and a
strictly positive decayed score. -/
def foldedScores (nowT : Int) (rid : String) (calls : List AddCall) : List ℚ :=
  calls.filterMap (fun c =>
    if isShareableRelay c.rawUrl &&
        (routeId c.pubkey (normalizeRelayUrl c.rawUrl) c.mode == rid) then
      match evidenceScore nowT c.type c.created_at with
      | some s => if s > 0 then some s else none
      | none => none
    else none)

/-- The stored fold count of a route id (0 when the row is absent). -/
def countAt (σ : State) (rid : String) : Nat :=
  ((σ.routes rid).map (fun r => r.count)).getD 0

/-- The `addRoute` invocations the kind-10002 route handler makes for a
tag list, in call order: the tagged mode when present and truthy,
otherwise read then write. -/
def calls10002 (e : Event) (tags : List (List String)) : List AddCall :=
  tags.flatMap (fun t =>
    let url := (t.get? 1).getD ""
    let mode := (t.get? 2).getD ""
    if mode ≠ "" then [⟨e.pubkey, url, "kind:10002", mode, e.created_at⟩]
    else [⟨e.pubkey, url, "kind:10002", "read", e.created_at⟩,
          ⟨e.pubkey, url, "kind:10002", "write", e.created_at⟩])

/-- The stored `last_seen` of a route id, when the row carries one. -/
def lastSeenAt (σ : State) (rid : String) : Option Int :=
  (σ.routes rid).bind (fun r => r.last_seen)

/-- Ordering on possibly-missing timestamps: a missing one precedes
everything, a present one only later-or-equal present ones. -/
def optIntLe : Option Int → Option Int → Prop
  | none, _ => True
  | some _, none => False
  | some a, some b => a ≤ b

/-- Equality of all state components other than the two route-evidence
tables (used to frame the reputation engine's writes). -/
def EqOutsideRoutes (σ' σ : State) : Prop :=
  σ'.people = σ.people ∧ σ'.profile = σ.profile ∧ σ'.rooms = σ.rooms ∧
  σ'.userEvents = σ.userEvents ∧ σ'.effects = σ.effects

/-- The route row produced by one fresh accepted `kind:10002` fold (used
to exhibit the invariants at a concrete input). -/
def sampleRoute : Route :=
  { id := routeId "pk1" "wss://relay.example" "write", pubkey := "pk1",
    url := "wss://relay.example", mode := "write",
    score := (0 * (0 : ℕ) + 1) / ((0 : ℕ) + 1), count := 1,
    types := listUniq ([] ++ ["kind:10002"]),
    last_seen := some (max 1700000000 ((none : Option Int).getD 0)) }

/-- The per-event dispatch contract on the replayed projections: after a
non-throwing dispatch, every people row, every room row, the profile's
relay timestamp and its pubkey evolve exactly by their recorded
actions. -/
def ProcOk (ctx : Ctx) (σ : State) (e : Event) (σ' : State) : Prop :=
  (∀ p, σ'.people p = pRun ctx.nowT p (σ.people p) (pext ctx p [e])) ∧
  (∀ rid, σ'.rooms rid = rRun rid (σ.rooms rid) (rext ctx rid [e])) ∧
  σ'.profile.pubkey = σ.profile.pubkey ∧
  σ'.profile.relays_updated_at =
    rlRun σ.profile.relays_updated_at (rlext ctx σ.profile.pubkey [e])

/-- The per-event dispatch characterization: under the no-throw
conditions the dispatch succeeds and satisfies the replay contract,
otherwise it throws the missing-tags error with only the archive
written. -/
def ProcChar (ctx : Ctx) (σ : State) (e : Event) : Prop :=
  (OkEv ctx σ e → (procEvent ctx σ e).2 = none ∧
    ProcOk ctx σ e (procEvent ctx σ e).1) ∧
  (¬OkEv ctx σ e →
    procEvent ctx σ e = (archive σ e, some "tags of undefined"))

/-! ## Theorems -/


/-- An `addRoute` call on an unshareable URL is a no-op. -/
theorem addRoute_not_shareable (nowT : Int) (σ : State)
    (pubkey rawUrl type mode : String) (created_at : Int)
    (hshare : isShareableRelay rawUrl = false) :
    addRoute nowT σ pubkey rawUrl type mode created_at = σ := by
  unfold addRoute
  rw [if_pos (by simp [hshare])]

/-- An `addRoute` call whose computed evidence score is undefined or not
strictly positive is a no-op. -/
theorem addRoute_nonpos (nowT : Int) (σ : State)
    (pubkey rawUrl type mode : String) (created_at : Int)
    (hscore : (evidenceScore nowT type created_at).getD 0 ≤ 0) :
    addRoute nowT σ pubkey rawUrl type mode created_at = σ := by
  unfold addRoute
  by_cases hshare : isShareableRelay rawUrl
  · rw [if_neg (by simp [hshare])]
    cases hs : evidenceScore nowT type created_at with
    | none => simp only [hs]
    | some s =>
      have hs0 : s ≤ 0 := by rw [hs] at hscore; simpa using hscore
      simp only [hs]
      rw [if_neg (not_lt.mpr hs0)]
  · rw [if_pos (by simpa using hshare)]

/-- An `addRoute` call on a shareable URL with strictly positive evidence
score folds the score into the running average, increments the count,
unions the type and raises `last_seen`. -/
theorem addRoute_accepted (nowT : Int) (σ : State)
    (pubkey rawUrl type mode : String) (created_at : Int) (s : ℚ)
    (hshare : isShareableRelay rawUrl = true)
    (hs : evidenceScore nowT type created_at = some s) (hpos : s > 0) :
    addRoute nowT σ pubkey rawUrl type mode created_at =
      { σ with
        relays := fun u =>
          if u = ((σ.routes (routeId pubkey (normalizeRelayUrl rawUrl) mode)).getD
              { id := routeId pubkey (normalizeRelayUrl rawUrl) mode,
                pubkey := pubkey, url := normalizeRelayUrl rawUrl, mode := mode,
                score := 0, count := 0, types := [] }).url then true
          else σ.relays u,
        routes := mapPut σ.routes (routeId pubkey (normalizeRelayUrl rawUrl) mode)
          (let route := (σ.routes (routeId pubkey (normalizeRelayUrl rawUrl) mode)).getD
              { id := routeId pubkey (normalizeRelayUrl rawUrl) mode,
                pubkey := pubkey, url := normalizeRelayUrl rawUrl, mode := mode,
                score := 0, count := 0, types := [] }
           { route with
             count := route.count + 1,
             score := (route.score * route.count + s) / ((route.count + 1 : ℕ) : ℚ),
             types := listUniq (route.types ++ [type]),
             last_seen := some (max created_at ((route.last_seen).getD 0)) }) } := by
  unfold addRoute
  rw [if_neg (by simp [hshare]), hs]
  dsimp only
  rw [if_pos hpos]

/-- Appending one call to a replay folds it on the end state. -/
theorem runAddRoutes_append (nowT : Int) (σ : State) (calls : List AddCall)
    (c : AddCall) :
    runAddRoutes nowT σ (calls ++ [c]) =
      addRoute nowT (runAddRoutes nowT σ calls) c.pubkey c.rawUrl c.type
        c.mode c.created_at := by
  unfold runAddRoutes
  rw [List.foldl_append]
  rfl

/-- Folded scores decompose along call-list concatenation. -/
theorem foldedScores_append (nowT : Int) (rid : String) (calls : List AddCall)
    (c : AddCall) :
    foldedScores nowT rid (calls ++ [c]) =
      foldedScores nowT rid calls ++ foldedScores nowT rid [c] := by
  unfold foldedScores
  rw [List.filterMap_append]

/-- A call on an unshareable URL folds nothing anywhere. -/
theorem foldedScores_single_unshareable (nowT : Int) (rid : String) (c : AddCall)
    (hsh : isShareableRelay c.rawUrl = false) :
    foldedScores nowT rid [c] = [] := by
  simp [foldedScores, hsh]

/-- A call with an undefined or non-positive score folds nothing. -/
theorem foldedScores_single_nonpos (nowT : Int) (rid : String) (c : AddCall)
    (hscore : (evidenceScore nowT c.type c.created_at).getD 0 ≤ 0) :
    foldedScores nowT rid [c] = [] := by
  unfold foldedScores
  cases hev : evidenceScore nowT c.type c.created_at with
  | none => simp [hev, ite_self]
  | some s =>
    rw [hev] at hscore
    simp only [Option.getD_some] at hscore
    simp [hev, not_lt.mpr hscore, ite_self]

/-- An accepted call folds exactly its own score at its own route id. -/
theorem foldedScores_single_pos (nowT : Int) (rid : String) (c : AddCall) (s : ℚ)
    (hsh : isShareableRelay c.rawUrl = true)
    (hev : evidenceScore nowT c.type c.created_at = some s) (hpos : 0 < s) :
    foldedScores nowT rid [c] =
      if routeId c.pubkey (normalizeRelayUrl c.rawUrl) c.mode = rid then [s]
      else [] := by
  unfold foldedScores
  by_cases hid : routeId c.pubkey (normalizeRelayUrl c.rawUrl) c.mode = rid
  · simp [hsh, hev, hid, hpos]
  · simp [hsh, hev, hid]

/-- Characterization of a replay from an empty routes table: a stored row
counts and averages exactly the folded scores of its id, and an id without
a row has no folded scores. -/
theorem runAddRoutes_char (nowT : Int) (calls : List AddCall) (σ : State)
    (hempty : σ.routes = fun _ => none) (rid : String) :
    (∀ r, (runAddRoutes nowT σ calls).routes rid = some r →
        0 < r.count ∧ r.count = (foldedScores nowT rid calls).length ∧
        r.score = (foldedScores nowT rid calls).sum / (r.count : ℚ)) ∧
    ((runAddRoutes nowT σ calls).routes rid = none →
        foldedScores nowT rid calls = []) := by
  induction calls using List.reverseRecOn with
  | nil =>
    constructor
    · intro r hr
      rw [show runAddRoutes nowT σ [] = σ from rfl, hempty] at hr
      simp at hr
    · intro _
      rfl
  | append_singleton cs c ih =>
    rw [runAddRoutes_append, foldedScores_append]
    cases hsh : isShareableRelay c.rawUrl with
    | false =>
      rw [addRoute_not_shareable _ _ _ _ _ _ _ hsh,
        foldedScores_single_unshareable nowT rid c hsh, List.append_nil]
      exact ih
    | true =>
      cases hev : evidenceScore nowT c.type c.created_at with
      | none =>
        rw [addRoute_nonpos _ _ _ _ _ _ _ (by rw [hev]; exact le_refl _),
          foldedScores_single_nonpos nowT rid c (by rw [hev]; exact le_refl _),
          List.append_nil]
        exact ih
      | some s =>
        rcases le_or_lt s 0 with hle | hpos
        · rw [addRoute_nonpos _ _ _ _ _ _ _ (by rw [hev]; simpa using hle),
            foldedScores_single_nonpos nowT rid c (by rw [hev]; simpa using hle),
            List.append_nil]
          exact ih
        · rw [addRoute_accepted nowT _ c.pubkey c.rawUrl c.type c.mode
            c.created_at s hsh hev hpos,
            foldedScores_single_pos nowT rid c s hsh hev hpos]
          by_cases hid : routeId c.pubkey (normalizeRelayUrl c.rawUrl) c.mode = rid
          · subst hid
            rw [if_pos rfl]
            constructor
            · intro r hr
              simp only [mapPut, eq_self_iff_true, if_true, Option.some.injEq] at hr
              subst hr
              cases hold : (runAddRoutes nowT σ cs).routes
                  (routeId c.pubkey (normalizeRelayUrl c.rawUrl) c.mode) with
              | none =>
                have hnil := ih.2 hold
                rw [hnil]
                refine ⟨by simp, by simp, ?_⟩
                simp only [Option.getD_none, List.nil_append, List.sum_cons,
                  List.sum_nil]
                push_cast
                norm_num
              | some r0 =>
                obtain ⟨hpos0, hcnt, hsc⟩ := ih.1 r0 hold
                simp only [Option.getD_some]
                refine ⟨by omega, by simp [hcnt], ?_⟩
                rw [hsc, List.sum_append, List.sum_cons, List.sum_nil]
                have hne : ((r0.count : ℚ)) ≠ 0 := by
                  exact_mod_cast Nat.pos_iff_ne_zero.mp hpos0
                rw [div_mul_cancel₀ _ hne]
                ring_nf
            · intro hr
              simp [mapPut] at hr
          · rw [if_neg hid, List.append_nil]
            have hne : ¬(rid = routeId c.pubkey (normalizeRelayUrl c.rawUrl) c.mode) :=
              fun h => hid h.symm
            constructor
            · intro r hr
              exact ih.1 r (by simpa [mapPut, hne] using hr)
            · intro hr
              exact ih.2 (by simpa [mapPut, hne] using hr)

/-- The missing-timestamp ordering is reflexive. -/
theorem optIntLe_refl (a : Option Int) : optIntLe a a := by
  cases a <;> simp [optIntLe]

/-- One call's effect on a stored count: plus one exactly when folded,
never a decrease. -/
theorem countAt_step (nowT : Int) (σ : State) (c : AddCall) (rid : String) :
    countAt (runAddRoutes nowT σ [c]) rid =
      countAt σ rid + (foldedScores nowT rid [c]).length := by
  have hrun : runAddRoutes nowT σ [c] =
      addRoute nowT σ c.pubkey c.rawUrl c.type c.mode c.created_at := rfl
  rw [hrun]
  cases hsh : isShareableRelay c.rawUrl with
  | false =>
    rw [addRoute_not_shareable _ _ _ _ _ _ _ hsh,
      foldedScores_single_unshareable nowT rid c hsh]
    rfl
  | true =>
    cases hev : evidenceScore nowT c.type c.created_at with
    | none =>
      rw [addRoute_nonpos _ _ _ _ _ _ _ (by rw [hev]; exact le_refl _),
        foldedScores_single_nonpos nowT rid c (by rw [hev]; exact le_refl _)]
      rfl
    | some s =>
      rcases le_or_lt s 0 with hle | hpos
      · rw [addRoute_nonpos _ _ _ _ _ _ _ (by rw [hev]; simpa using hle),
          foldedScores_single_nonpos nowT rid c (by rw [hev]; simpa using hle)]
        rfl
      · rw [addRoute_accepted nowT σ c.pubkey c.rawUrl c.type c.mode
          c.created_at s hsh hev hpos,
          foldedScores_single_pos nowT rid c s hsh hev hpos]
        by_cases hid : routeId c.pubkey (normalizeRelayUrl c.rawUrl) c.mode = rid
        · subst hid
          rw [if_pos rfl]
          unfold countAt
          simp only [mapPut, eq_self_iff_true, if_true, Option.map_some',
            Option.getD_some, List.length_cons, List.length_nil]
          cases h0 : σ.routes (routeId c.pubkey (normalizeRelayUrl c.rawUrl) c.mode) <;>
            simp
        · rw [if_neg hid]
          have hne : ¬(rid = routeId c.pubkey (normalizeRelayUrl c.rawUrl) c.mode) :=
            fun h => hid h.symm
          unfold countAt
          simp [mapPut, hne]

/-- One call never decreases a stored `last_seen`. -/
theorem lastSeenAt_step_mono (nowT : Int) (σ : State) (c : AddCall)
    (rid : String) :
    optIntLe (lastSeenAt σ rid) (lastSeenAt (runAddRoutes nowT σ [c]) rid) := by
  have hrun : runAddRoutes nowT σ [c] =
      addRoute nowT σ c.pubkey c.rawUrl c.type c.mode c.created_at := rfl
  rw [hrun]
  cases hsh : isShareableRelay c.rawUrl with
  | false =>
    rw [addRoute_not_shareable _ _ _ _ _ _ _ hsh]
    exact optIntLe_refl _
  | true =>
    cases hev : evidenceScore nowT c.type c.created_at with
    | none =>
      rw [addRoute_nonpos _ _ _ _ _ _ _ (by rw [hev]; exact le_refl _)]
      exact optIntLe_refl _
    | some s =>
      rcases le_or_lt s 0 with hle | hpos
      · rw [addRoute_nonpos _ _ _ _ _ _ _ (by rw [hev]; simpa using hle)]
        exact optIntLe_refl _
      · rw [addRoute_accepted nowT σ c.pubkey c.rawUrl c.type c.mode
          c.created_at s hsh hev hpos]
        by_cases hid : routeId c.pubkey (normalizeRelayUrl c.rawUrl) c.mode = rid
        · subst hid
          unfold lastSeenAt
          simp only [mapPut, eq_self_iff_true, if_true]
          cases h0 : σ.routes (routeId c.pubkey (normalizeRelayUrl c.rawUrl) c.mode) with
          | none => simp [optIntLe]
          | some r0 =>
            cases hl : r0.last_seen with
            | none => simp [hl, optIntLe]
            | some t => simp [hl, optIntLe, le_max_right]
        · have hne : ¬(rid = routeId c.pubkey (normalizeRelayUrl c.rawUrl) c.mode) :=
            fun h => hid h.symm
          unfold lastSeenAt
          simp only [mapPut, if_neg hne]
          exact optIntLe_refl _

/-- An accepted fold sets `last_seen` to the maximum of the observation
time and the previous value. -/
theorem lastSeenAt_step_accepted (nowT : Int) (σ : State) (c : AddCall) (s : ℚ)
    (hsh : isShareableRelay c.rawUrl = true)
    (hev : evidenceScore nowT c.type c.created_at = some s) (hpos : 0 < s) :
    lastSeenAt (runAddRoutes nowT σ [c])
        (routeId c.pubkey (normalizeRelayUrl c.rawUrl) c.mode) =
      some (max c.created_at
        ((lastSeenAt σ (routeId c.pubkey (normalizeRelayUrl c.rawUrl) c.mode)).getD 0)) := by
  have hrun : runAddRoutes nowT σ [c] =
      addRoute nowT σ c.pubkey c.rawUrl c.type c.mode c.created_at := rfl
  rw [hrun, addRoute_accepted nowT σ c.pubkey c.rawUrl c.type c.mode
    c.created_at s hsh hev hpos]
  unfold lastSeenAt
  simp only [mapPut, eq_self_iff_true, if_true]
  cases h0 : σ.routes (routeId c.pubkey (normalizeRelayUrl c.rawUrl) c.mode) <;>
    simp

/-- C3: for every Route row and every sequence of `addRoute` calls from an
empty table, the stored score equals the arithmetic mean of exactly the
individually-computed strictly-positive folded evidence scores and the
count equals their number; a single call increments a count by one exactly
when its evidence is folded (so counts never decrease); and `last_seen`
never decreases, each accepted fold setting it to the maximum of the
observation time and the previous value. -/
theorem claim3_route_invariants :
    (∀ (nowT : Int) (σ : State) (calls : List AddCall) (rid : String) (r : Route),
      σ.routes = (fun _ => none) →
      (runAddRoutes nowT σ calls).routes rid = some r →
      0 < r.count ∧ r.count = (foldedScores nowT rid calls).length ∧
        r.score = (foldedScores nowT rid calls).sum / (r.count : ℚ)) ∧
    (∀ (nowT : Int) (σ : State) (c : AddCall) (rid : String),
      countAt (runAddRoutes nowT σ [c]) rid =
        countAt σ rid + (foldedScores nowT rid [c]).length) ∧
    (∀ (nowT : Int) (σ : State) (c : AddCall) (rid : String),
      optIntLe (lastSeenAt σ rid) (lastSeenAt (runAddRoutes nowT σ [c]) rid)) ∧
    (∀ (nowT : Int) (σ : State) (c : AddCall) (s : ℚ),
      isShareableRelay c.rawUrl = true →
      evidenceScore nowT c.type c.created_at = some s → 0 < s →
      lastSeenAt (runAddRoutes nowT σ [c])
          (routeId c.pubkey (normalizeRelayUrl c.rawUrl) c.mode) =
        some (max c.created_at
          ((lastSeenAt σ
            (routeId c.pubkey (normalizeRelayUrl c.rawUrl) c.mode)).getD 0))) :=
  ⟨fun nowT σ calls rid r hempty hr =>
      (runAddRoutes_char nowT calls σ hempty rid).1 r hr,
    countAt_step, lastSeenAt_step_mono, lastSeenAt_step_accepted⟩

/-- C3 witness: a single accepted `kind:10002` fold from the empty table
realizes the mean/count characterization, the count step equation and the
`last_seen` equations at concrete inputs. -/
theorem claim3_witness :
    (0 < sampleRoute.count ∧
      sampleRoute.count =
        (foldedScores 1700000000 (routeId "pk1" "wss://relay.example" "write")
          [⟨"pk1", "wss://relay.example", "kind:10002", "write", 1700000000⟩]).length ∧
      sampleRoute.score =
        (foldedScores 1700000000 (routeId "pk1" "wss://relay.example" "write")
          [⟨"pk1", "wss://relay.example", "kind:10002", "write", 1700000000⟩]).sum /
          (sampleRoute.count : ℚ)) ∧
    countAt (runAddRoutes 1700000000 (State.init "u")
        [⟨"pk1", "wss://relay.example", "kind:10002", "write", 1700000000⟩])
        (routeId "pk1" "wss://relay.example" "write") =
      countAt (State.init "u") (routeId "pk1" "wss://relay.example" "write") +
        (foldedScores 1700000000 (routeId "pk1" "wss://relay.example" "write")
          [⟨"pk1", "wss://relay.example", "kind:10002", "write", 1700000000⟩]).length ∧
    lastSeenAt (runAddRoutes 1700000000 (State.init "u")
        [⟨"pk1", "wss://relay.example", "kind:10002", "write", 1700000000⟩])
        (routeId "pk1" "wss://relay.example" "write") =
      some (max 1700000000
        ((lastSeenAt (State.init "u")
          (routeId "pk1" "wss://relay.example" "write")).getD 0)) := by
  have hs1 : evidenceScore 1700000000 "kind:10002" 1700000000 = some 1 := by
    have hw : getWeight "kind:10002" = some 1 := rfl
    simp only [evidenceScore, hw, Option.map_some', Option.some.injEq,
      timedelta30Days]
    norm_num
  have hnorm : normalizeRelayUrl "wss://relay.example" = "wss://relay.example" := by
    decide
  have h1 := addRoute_accepted 1700000000 (State.init "u") "pk1"
    "wss://relay.example" "kind:10002" "write" 1700000000 1 (by decide) hs1
    (by norm_num)
  rw [hnorm] at h1
  have hlook : (runAddRoutes 1700000000 (State.init "u")
      [⟨"pk1", "wss://relay.example", "kind:10002", "write", 1700000000⟩]).routes
      (routeId "pk1" "wss://relay.example" "write") = some sampleRoute := by
    show (addRoute 1700000000 (State.init "u") "pk1" "wss://relay.example"
      "kind:10002" "write" 1700000000).routes
      (routeId "pk1" "wss://relay.example" "write") = _
    rw [h1]
    simp [State.init, mapPut, sampleRoute]
  refine ⟨?_, ?_, ?_⟩
  · exact claim3_route_invariants.1 1700000000 (State.init "u")
      [⟨"pk1", "wss://relay.example", "kind:10002", "write", 1700000000⟩]
      (routeId "pk1" "wss://relay.example" "write") _ rfl hlook
  · exact claim3_route_invariants.2.1 1700000000 (State.init "u")
      ⟨"pk1", "wss://relay.example", "kind:10002", "write", 1700000000⟩
      (routeId "pk1" "wss://relay.example" "write")
  · have := claim3_route_invariants.2.2.2 1700000000 (State.init "u")
      ⟨"pk1", "wss://relay.example", "kind:10002", "write", 1700000000⟩ 1
      (by decide) hs1 (by norm_num)
    rw [hnorm] at this
    exact this

/-- C4: for every `addRoute` call with a valid shareable URL whose
computed evidence score `weight(type) * (1 - (now - observedAt)/30 days)`
is not strictly positive — including observations older than 30 days and
evidence types with no defined weight (score `none`, the JavaScript NaN) —
the Route table and the RelayEndpoint table are left completely
unchanged. -/
theorem claim4_nonpositive_evidence_noop (nowT : Int) (σ : State)
    (pubkey rawUrl type mode : String) (created_at : Int)
    (hshare : isShareableRelay rawUrl = true)
    (hscore : (evidenceScore nowT type created_at).getD 0 ≤ 0) :
    (addRoute nowT σ pubkey rawUrl type mode created_at).routes = σ.routes ∧
    (addRoute nowT σ pubkey rawUrl type mode created_at).relays = σ.relays := by
  rw [addRoute_nonpos nowT σ pubkey rawUrl type mode created_at hscore]
  exact ⟨rfl, rfl⟩

/-- C4 witness: a 60-day-old `kind:10002` observation (computed score
`-1`) leaves both tables untouched. -/
theorem claim4_witness :
    (addRoute 5184000 (State.init "u") "pk" "wss://r.example" "kind:10002"
        "write" 0).routes = (State.init "u").routes ∧
    (addRoute 5184000 (State.init "u") "pk" "wss://r.example" "kind:10002"
        "write" 0).relays = (State.init "u").relays :=
  claim4_nonpositive_evidence_noop 5184000 (State.init "u") "pk"
    "wss://r.example" "kind:10002" "write" 0 (by decide)
    (by norm_num [evidenceScore, getWeight, timedelta30Days])

/-- C5: on an empty table,
`addRoute("pk1", "wss://relay.example", "kind:10002", "write", now)`
yields `count = 1`, `score = 1`; a second call with `kind:3` evidence
observed 15 days (1296000 s) earlier computes evidence score
`0.8 * (1 - 0.5) = 0.4` and folds to `score = (1*1 + 0.4)/2 = 0.7`,
`count = 2`. -/
theorem claim5_route_scoring_example :
    ((addRoute 1700000000 (State.init "u") "pk1" "wss://relay.example"
        "kind:10002" "write" 1700000000).routes
        (routeId "pk1" "wss://relay.example" "write")).map
        (fun r => (r.count, r.score)) = some (1, 1) ∧
    evidenceScore 1700000000 "kind:3" (1700000000 - 1296000) = some (2 / 5) ∧
    ((addRoute 1700000000
        (addRoute 1700000000 (State.init "u") "pk1" "wss://relay.example"
          "kind:10002" "write" 1700000000)
        "pk1" "wss://relay.example" "kind:3" "write"
        (1700000000 - 1296000)).routes
        (routeId "pk1" "wss://relay.example" "write")).map
        (fun r => (r.count, r.score)) = some (2, 7 / 10) := by
  have hnorm : normalizeRelayUrl "wss://relay.example" = "wss://relay.example" := by
    decide
  have hs1 : evidenceScore 1700000000 "kind:10002" 1700000000 = some 1 := by
    have hw : getWeight "kind:10002" = some 1 := rfl
    simp only [evidenceScore, hw, Option.map_some', Option.some.injEq,
      timedelta30Days]
    norm_num
  have hs2 : evidenceScore 1700000000 "kind:3" (1700000000 - 1296000) =
      some (2 / 5) := by
    have hw : getWeight "kind:3" = some (8 / 10) := rfl
    simp only [evidenceScore, hw, Option.map_some', Option.some.injEq,
      timedelta30Days]
    norm_num
  have h1 := addRoute_accepted 1700000000 (State.init "u") "pk1"
    "wss://relay.example" "kind:10002" "write" 1700000000 1 (by decide) hs1
    (by norm_num)
  rw [hnorm] at h1
  have hlook1 : (addRoute 1700000000 (State.init "u") "pk1" "wss://relay.example"
      "kind:10002" "write" 1700000000).routes
      (routeId "pk1" "wss://relay.example" "write") =
      some { id := routeId "pk1" "wss://relay.example" "write", pubkey := "pk1",
             url := "wss://relay.example", mode := "write",
             score := (0 * (0 : ℕ) + 1) / ((0 : ℕ) + 1), count := 1,
             types := listUniq ([] ++ ["kind:10002"]),
             last_seen := some (max 1700000000 ((none : Option Int).getD 0)) } := by
    rw [h1]
    simp [State.init, mapPut]
  have h2 := addRoute_accepted 1700000000
    (addRoute 1700000000 (State.init "u") "pk1" "wss://relay.example"
      "kind:10002" "write" 1700000000)
    "pk1" "wss://relay.example" "kind:3" "write" (1700000000 - 1296000) (2 / 5)
    (by decide) hs2 (by norm_num)
  rw [hnorm, hlook1] at h2
  refine ⟨?_, hs2, ?_⟩
  · rw [hlook1]
    simp only [Option.map_some', Option.some.injEq, Prod.mk.injEq]
    norm_num
  · rw [h2]
    simp [mapPut]
    norm_num [Prod.mk.injEq]

/-- C8: the payment-endpoint verification sets `lnurl` and `zapper` only
when the fetched metadata declares a truthy `allowsNostr` and a non-empty
`nostrPubkey`. A response failing the guard — in particular one missing
`allowsNostr: true` however valid otherwise — leaves the state, and hence
`lnurl` and `zapper`, completely unchanged; on acceptance the stored
`zapper` keeps only the keys `callback`, `maxSendable`, `minSendable`,
`nostrPubkey`. -/
theorem claim8_zapper_gating (nowT : Int) (σ : State) (pubkey address : String)
    (response : Option JVal) :
    ((jTruthyOpt (response.bind (fun z => jGet z "allowsNostr")) &&
        jTruthyOpt (response.bind (fun z => jGet z "nostrPubkey"))) = false →
      verifyZapper nowT σ pubkey address response = σ) ∧
    (∀ u z, zapperUrl address = some u → response = some z →
      jTruthyOpt (jGet z "allowsNostr") = true →
      jTruthyOpt (jGet z "nostrPubkey") = true →
      ((verifyZapper nowT σ pubkey address response).people pubkey).bind
          (fun p => p.lnurl) = some (hexToBech32 "lnurl" u) ∧
      (∀ l, ((verifyZapper nowT σ pubkey address response).people pubkey).bind
          (fun p => p.zapper) = some l →
        ∀ kv ∈ l, kv.1 ∈ zapperKeys)) := by
  constructor
  · intro hguard
    unfold verifyZapper
    cases hu : zapperUrl address with
    | none => rfl
    | some u =>
      dsimp only
      rw [if_neg (by simp [hguard])]
  · intro u z hu hz hallow hnostr
    subst hz
    obtain ⟨fields, rfl⟩ : ∃ fields, z = JVal.obj fields := by
      cases z with
      | obj fields => exact ⟨fields, rfl⟩
      | null => simp [jGet, jTruthyOpt] at hallow
      | bool b => simp [jGet, jTruthyOpt] at hallow
      | num n => simp [jGet, jTruthyOpt] at hallow
      | str s => simp [jGet, jTruthyOpt] at hallow
      | arr xs => simp [jGet, jTruthyOpt] at hallow
    unfold verifyZapper
    rw [hu]
    dsimp only
    rw [if_pos (by simp [hallow, hnostr])]
    unfold updatePerson
    constructor
    · by_cases hp : pubkey = σ.profile.pubkey <;>
        simp [hp, mapPut, patchField]
    · intro l hl kv hkv
      have hl' : some ((canonFields fields).filter
          (fun p => zapperKeys.contains p.1)) = some l := by
        by_cases hp : pubkey = σ.profile.pubkey <;>
          simpa [hp, mapPut, patchField, pickFields] using hl
      have hll := Option.some.inj hl'
      subst hll
      have := (List.mem_filter.mp hkv).2
      simpa using this

/-- C8 witness: a response missing `allowsNostr` (but otherwise valid)
changes nothing, while an accepting response stores the re-encoded
`lnurl`. -/
theorem claim8_witness :
    verifyZapper 5 (State.init "u") "alice" "user@host"
      (some (.obj [("callback", .str "cb"), ("nostrPubkey", .str "npk")])) =
      State.init "u" ∧
    ((verifyZapper 5 (State.init "u") "alice" "user@host"
        (some (.obj [("allowsNostr", .bool true), ("nostrPubkey", .str "pk"),
          ("callback", .str "cb"), ("minSendable", .num 1),
          ("extra", .str "x")]))).people "alice").bind (fun p => p.lnurl) =
      some (hexToBech32 "lnurl" "https://host/.well-known/lnurlp/user") := by
  constructor
  · exact (claim8_zapper_gating 5 (State.init "u") "alice" "user@host"
      (some (.obj [("callback", .str "cb"), ("nostrPubkey", .str "npk")]))).1
      (by decide)
  · exact ((claim8_zapper_gating 5 (State.init "u") "alice" "user@host"
      (some (.obj [("allowsNostr", .bool true), ("nostrPubkey", .str "pk"),
        ("callback", .str "cb"), ("minSendable", .num 1),
        ("extra", .str "x")]))).2
      "https://host/.well-known/lnurlp/user" _ (by decide) rfl (by decide)
      (by decide)).1

/-! ### Frame and guard lemmas for the event handlers -/

/-- The outside-routes equality is reflexive. -/
theorem eqOutsideRoutes_refl (σ : State) : EqOutsideRoutes σ σ :=
  ⟨rfl, rfl, rfl, rfl, rfl⟩

/-- The outside-routes equality is transitive. -/
theorem eqOutsideRoutes_trans {a b c : State} (h1 : EqOutsideRoutes a b)
    (h2 : EqOutsideRoutes b c) : EqOutsideRoutes a c :=
  ⟨h1.1.trans h2.1, h1.2.1.trans h2.2.1, h1.2.2.1.trans h2.2.2.1,
    h1.2.2.2.1.trans h2.2.2.2.1, h1.2.2.2.2.trans h2.2.2.2.2⟩

/-- Branching preserves the outside-routes equality. -/
theorem eqOutsideRoutes_ite {c : Prop} [Decidable c] {a b σ : State}
    (ha : EqOutsideRoutes a σ) (hb : EqOutsideRoutes b σ) :
    EqOutsideRoutes (if c then a else b) σ := by
  split
  · exact ha
  · exact hb

/-- `addRoute` writes only the two route-evidence tables. -/
theorem addRoute_eqOutside (nowT : Int) (σ : State)
    (pubkey rawUrl type mode : String) (created_at : Int) :
    EqOutsideRoutes (addRoute nowT σ pubkey rawUrl type mode created_at) σ := by
  unfold addRoute
  split
  · exact eqOutsideRoutes_refl σ
  · split
    · exact eqOutsideRoutes_refl σ
    · split
      · exact ⟨rfl, rfl, rfl, rfl, rfl⟩
      · exact eqOutsideRoutes_refl σ

/-- Folding kind-3 relay-condition entries writes only the route tables. -/
theorem addRoutesFromEntries_eqOutside (ctx : Ctx) (e : Event) :
    ∀ (entries : List (String × JVal)) (σ : State),
      EqOutsideRoutes (addRoutesFromEntries ctx e σ entries) σ := by
  intro entries
  induction entries with
  | nil => intro σ; exact eqOutsideRoutes_refl σ
  | cons p rest ih =>
    intro σ
    obtain ⟨url, cond⟩ := p
    rw [addRoutesFromEntries]
    split
    · exact eqOutsideRoutes_refl σ
    · exact eqOutsideRoutes_trans (ih _)
        (eqOutsideRoutes_ite
          (eqOutsideRoutes_trans (addRoute_eqOutside _ _ _ _ _ _ _)
            (eqOutsideRoutes_ite (addRoute_eqOutside _ _ _ _ _ _ _)
              (eqOutsideRoutes_refl σ)))
          (eqOutsideRoutes_ite (addRoute_eqOutside _ _ _ _ _ _ _)
            (eqOutsideRoutes_refl σ)))

/-- The kind-2 route handler writes only the route tables. -/
theorem handler2Routes_eqOutside (ctx : Ctx) (e : Event) (σ σ' : State)
    (h : handler2Routes ctx e σ = .ok σ') : EqOutsideRoutes σ' σ := by
  unfold handler2Routes at h
  have hσ := Except.ok.inj h
  subst hσ
  exact eqOutsideRoutes_trans (addRoute_eqOutside _ _ _ _ _ _ _)
    (addRoute_eqOutside _ _ _ _ _ _ _)

/-- The kind-3 route handler writes only the route tables. -/
theorem handler3Routes_eqOutside (ctx : Ctx) (e : Event) (σ σ' : State)
    (h : handler3Routes ctx e σ = .ok σ') : EqOutsideRoutes σ' σ := by
  unfold handler3Routes at h
  have hσ := Except.ok.inj h
  subst hσ
  cases hp : ctx.parse e.content with
  | none => exact eqOutsideRoutes_refl σ
  | some j =>
    dsimp only
    cases hj : jEntries j with
    | none => exact eqOutsideRoutes_refl σ
    | some entries => exact addRoutesFromEntries_eqOutside ctx e entries σ

/-- The kind-10002 route handler writes only the route tables. -/
theorem handler10002Routes_eqOutside (ctx : Ctx) (e : Event) (σ σ' : State)
    (h : handler10002Routes ctx e σ = .ok σ') : EqOutsideRoutes σ' σ := by
  unfold handler10002Routes at h
  cases htags : e.tags with
  | none => rw [htags] at h; cases h
  | some tags =>
    rw [htags] at h
    have hσ := Except.ok.inj h
    subst hσ
    clear h htags
    induction tags using List.reverseRecOn with
    | nil => exact eqOutsideRoutes_refl σ
    | append_singleton ts t ih =>
      rw [List.foldl_append, List.foldl_cons, List.foldl_nil]
      refine eqOutsideRoutes_trans ?_ ih
      dsimp only
      split
      · exact addRoute_eqOutside _ _ _ _ _ _ _
      · exact eqOutsideRoutes_trans (addRoute_eqOutside _ _ _ _ _ _ _)
          (addRoute_eqOutside _ _ _ _ _ _ _)

/-- Archiving changes only the `userEvents` table. -/
theorem archive_frame (σ : State) (e : Event) :
    (archive σ e).people = σ.people ∧ (archive σ e).profile = σ.profile ∧
    (archive σ e).rooms = σ.rooms ∧ (archive σ e).routes = σ.routes ∧
    (archive σ e).relays = σ.relays ∧ (archive σ e).effects = σ.effects := by
  unfold archive
  split
  · exact ⟨rfl, rfl, rfl, rfl, rfl, rfl⟩
  · exact ⟨rfl, rfl, rfl, rfl, rfl, rfl⟩

/-- `updatePerson` leaves rooms, routes, relay rows, the archive, the
effects, and the profile's pubkey, relay selection and mutes alone. -/
theorem updatePerson_frame (nowT : Int) (σ : State) (pk : String)
    (d : PersonData) :
    (updatePerson nowT σ pk d).rooms = σ.rooms ∧
    (updatePerson nowT σ pk d).routes = σ.routes ∧
    (updatePerson nowT σ pk d).relays = σ.relays ∧
    (updatePerson nowT σ pk d).userEvents = σ.userEvents ∧
    (updatePerson nowT σ pk d).effects = σ.effects ∧
    (updatePerson nowT σ pk d).profile.pubkey = σ.profile.pubkey ∧
    (updatePerson nowT σ pk d).profile.relays = σ.profile.relays ∧
    (updatePerson nowT σ pk d).profile.relays_updated_at =
      σ.profile.relays_updated_at ∧
    (updatePerson nowT σ pk d).profile.mutes = σ.profile.mutes ∧
    (updatePerson nowT σ pk d).profile.mutes_updated_at =
      σ.profile.mutes_updated_at := by
  unfold updatePerson
  split
  · exact ⟨rfl, rfl, rfl, rfl, rfl, rfl, rfl, rfl, rfl, rfl⟩
  · exact ⟨rfl, rfl, rfl, rfl, rfl, rfl, rfl, rfl, rfl, rfl⟩

/-- `updatePerson` touches only its own person row. -/
theorem updatePerson_people_other (nowT : Int) (σ : State) (pk : String)
    (d : PersonData) (pk' : String) (h : pk' ≠ pk) :
    (updatePerson nowT σ pk d).people pk' = σ.people pk' := by
  unfold updatePerson
  split
  · simp [mapPut, h]
  · simp [mapPut, h]

/-- The person row written by `updatePerson`. -/
theorem updatePerson_people_same (nowT : Int) (σ : State) (pk : String)
    (d : PersonData) :
    (updatePerson nowT σ pk d).people pk =
      some { pubkey := pk, updated_at := nowT,
             kind0 := patchField d.kind0 (personBase nowT σ pk).kind0,
             kind0_updated_at := patchField d.kind0_updated_at
               (personBase nowT σ pk).kind0_updated_at,
             petnames := patchField d.petnames (personBase nowT σ pk).petnames,
             petnames_updated_at := patchField d.petnames_updated_at
               (personBase nowT σ pk).petnames_updated_at,
             verified_as := patchField d.verified_as
               (personBase nowT σ pk).verified_as,
             lnurl := patchField d.lnurl (personBase nowT σ pk).lnurl,
             zapper := patchField d.zapper (personBase nowT σ pk).zapper } := by
  unfold updatePerson
  split
  · simp [mapPut]
  · simp [mapPut]

/-- The kind-0 handler is a no-op on events staler than the stored
`kind0_updated_at`. -/
theorem handler0_stale (ctx : Ctx) (e : Event) (σ : State) (T : Int)
    (hT : (σ.people e.pubkey).bind (fun p => p.kind0_updated_at) = some T)
    (hlt : e.created_at < T) :
    handler0 ctx e σ = .ok σ := by
  unfold handler0
  cases hp : ctx.parse e.content with
  | none => rfl
  | some kind0 =>
    dsimp only
    rw [if_pos (show tsLt e.created_at
      ((σ.people e.pubkey).bind (fun p => p.kind0_updated_at)) = true from by
        rw [hT]; simpa [tsLt] using hlt)]

/-- The kind-0 handler is a no-op on unparseable content. -/
theorem handler0_parse_fail (ctx : Ctx) (e : Event) (σ : State)
    (hp : ctx.parse e.content = none) :
    handler0 ctx e σ = .ok σ := by
  unfold handler0
  rw [hp]

/-- The kind-0 handler on a fresh event with parseable non-null content
and a throw-safe payment address patches the merged profile data (with
some verification launches recorded). -/
theorem handler0_accept (ctx : Ctx) (e : Event) (σ : State) (j : JVal)
    (hp : ctx.parse e.content = some j)
    (hstale : tsLt e.created_at
      ((σ.people e.pubkey).bind (fun p => p.kind0_updated_at)) = false)
    (hnull : ¬(j = JVal.null)) (hsafe : addressSafe j = true) :
    ∃ effs, handler0 ctx e σ =
      .ok (updatePerson ctx.nowT { σ with effects := effs } e.pubkey
        { kind0 := some (jsMerge
            (((σ.people e.pubkey).bind (fun p => p.kind0)).getD []) (toObj j)),
          kind0_updated_at := some e.created_at }) := by
  unfold handler0
  rw [hp]
  dsimp only
  rw [if_neg (by simp [hstale]), if_neg hnull]
  unfold addressSafe at hsafe
  cases ha : kind0Address j with
  | none => exact ⟨_, rfl⟩
  | some v =>
    cases v with
    | str s => exact ⟨_, rfl⟩
    | null => exact ⟨_, rfl⟩
    | bool b =>
      cases b with
      | false => exact ⟨_, rfl⟩
      | true => rw [ha] at hsafe; simp [jTruthy] at hsafe
    | num n =>
      rw [ha] at hsafe
      have hn : jTruthy (JVal.num n) = false := by simpa using hsafe
      dsimp only
      rw [if_neg (by simp [hn])]
      exact ⟨_, rfl⟩
    | arr xs => rw [ha] at hsafe; simp [jTruthy] at hsafe
    | obj fields => rw [ha] at hsafe; simp [jTruthy] at hsafe

/-- Any non-throwing kind-0 handler run touches neither rooms, routes,
relay rows, the archive, the user's relay selection or mutes, nor the
profile's pubkey. -/
theorem handler0_ok_frame (ctx : Ctx) (e : Event) (σ σ' : State)
    (h : handler0 ctx e σ = .ok σ') :
    σ'.rooms = σ.rooms ∧ σ'.routes = σ.routes ∧ σ'.relays = σ.relays ∧
    σ'.userEvents = σ.userEvents ∧ σ'.profile.pubkey = σ.profile.pubkey ∧
    σ'.profile.relays = σ.profile.relays ∧
    σ'.profile.relays_updated_at = σ.profile.relays_updated_at ∧
    σ'.profile.mutes = σ.profile.mutes ∧
    σ'.profile.mutes_updated_at = σ.profile.mutes_updated_at := by
  unfold handler0 at h
  have hσ := Except.ok.inj h
  subst hσ
  clear h
  cases hp : ctx.parse e.content with
  | none => exact ⟨rfl, rfl, rfl, rfl, rfl, rfl, rfl, rfl, rfl⟩
  | some kind0 =>
    dsimp only
    split
    · exact ⟨rfl, rfl, rfl, rfl, rfl, rfl, rfl, rfl, rfl⟩
    · split
      · exact ⟨rfl, rfl, rfl, rfl, rfl, rfl, rfl, rfl, rfl⟩
      · split
        · obtain ⟨h1, h2, h3, h4, h5, h6, h7, h8, h9, h10⟩ :=
            updatePerson_frame ctx.nowT _ e.pubkey _
          exact ⟨h1, h2, h3, h4, h6, h7, h8, h9, h10⟩
        · split
          · exact ⟨rfl, rfl, rfl, rfl, rfl, rfl, rfl, rfl, rfl⟩
          · obtain ⟨h1, h2, h3, h4, h5, h6, h7, h8, h9, h10⟩ :=
              updatePerson_frame ctx.nowT _ e.pubkey _
            exact ⟨h1, h2, h3, h4, h6, h7, h8, h9, h10⟩
        · obtain ⟨h1, h2, h3, h4, h5, h6, h7, h8, h9, h10⟩ :=
            updatePerson_frame ctx.nowT _ e.pubkey _
          exact ⟨h1, h2, h3, h4, h6, h7, h8, h9, h10⟩

/-- The kind-3 petnames handler is a no-op on stale events. -/
theorem handler3Petnames_stale (ctx : Ctx) (e : Event) (σ : State) (T : Int)
    (hT : (σ.people e.pubkey).bind (fun p => p.petnames_updated_at) = some T)
    (hlt : e.created_at < T) :
    handler3Petnames ctx e σ = .ok σ := by
  unfold handler3Petnames
  rw [if_pos (show tsLt e.created_at
    ((σ.people e.pubkey).bind (fun p => p.petnames_updated_at)) = true from by
      rw [hT]; simpa [tsLt] using hlt)]

/-- The kind-3 petnames handler on a fresh tagged event replaces the
petname list. -/
theorem handler3Petnames_accept (ctx : Ctx) (e : Event) (σ : State)
    (tags : List (List String)) (htags : e.tags = some tags)
    (hstale : tsLt e.created_at
      ((σ.people e.pubkey).bind (fun p => p.petnames_updated_at)) = false) :
    handler3Petnames ctx e σ =
      .ok (updatePerson ctx.nowT σ e.pubkey
        { petnames_updated_at := some e.created_at,
          petnames := some (tags.filter (fun t => t.head? == some "p")) }) := by
  unfold handler3Petnames
  rw [if_neg (by simp [hstale]), htags]

/-- Any non-throwing kind-3 petnames run touches neither rooms, routes,
relay rows, the archive, the effects, the user's relay selection or mutes,
nor the profile's pubkey. -/
theorem handler3Petnames_ok_frame (ctx : Ctx) (e : Event) (σ σ' : State)
    (h : handler3Petnames ctx e σ = .ok σ') :
    σ'.rooms = σ.rooms ∧ σ'.routes = σ.routes ∧ σ'.relays = σ.relays ∧
    σ'.userEvents = σ.userEvents ∧ σ'.effects = σ.effects ∧
    σ'.profile.pubkey = σ.profile.pubkey ∧
    σ'.profile.relays = σ.profile.relays ∧
    σ'.profile.relays_updated_at = σ.profile.relays_updated_at ∧
    σ'.profile.mutes = σ.profile.mutes ∧
    σ'.profile.mutes_updated_at = σ.profile.mutes_updated_at := by
  unfold handler3Petnames at h
  dsimp only at h
  by_cases hts : tsLt e.created_at
      ((σ.people e.pubkey).bind fun p => p.petnames_updated_at) = true
  · rw [if_pos hts] at h
    obtain rfl := Except.ok.inj h
    exact ⟨rfl, rfl, rfl, rfl, rfl, rfl, rfl, rfl, rfl, rfl⟩
  · rw [if_neg hts] at h
    cases htags : e.tags with
    | none =>
      rw [htags] at h
      exact Except.noConfusion h
    | some tags =>
      rw [htags] at h
      obtain rfl := Except.ok.inj h
      obtain ⟨h1, h2, h3, h4, h5, h6, h7, h8, h9, h10⟩ :=
        updatePerson_frame ctx.nowT σ e.pubkey _
      exact ⟨h1, h2, h3, h4, h5, h6, h7, h8, h9, h10⟩

/-- The profile handler ignores other publishers' events. -/
theorem profileHandler_other {α : Type} (readTs : Profile → Option Int)
    (setField : Profile → α → Int → Profile)
    (getValue : Ctx → Event → Profile → Except String (Option α))
    (ctx : Ctx) (e : Event) (σ : State)
    (h : e.pubkey ≠ σ.profile.pubkey) :
    profileHandler readTs setField getValue ctx e σ = .ok σ := by
  unfold profileHandler
  rw [if_pos h]

/-- The profile handler is a no-op on stale events. -/
theorem profileHandler_stale {α : Type} (readTs : Profile → Option Int)
    (setField : Profile → α → Int → Profile)
    (getValue : Ctx → Event → Profile → Except String (Option α))
    (ctx : Ctx) (e : Event) (σ : State) (T : Int)
    (hT : readTs σ.profile = some T) (hlt : e.created_at < T) :
    profileHandler readTs setField getValue ctx e σ = .ok σ := by
  unfold profileHandler
  by_cases hpk : e.pubkey ≠ σ.profile.pubkey
  · rw [if_pos hpk]
  · rw [if_neg hpk, if_pos (show tsLt e.created_at (readTs σ.profile) = true from by
      rw [hT]; simpa [tsLt] using hlt)]

/-- The profile handler updates nothing when the computed value is falsy. -/
theorem profileHandler_falsy {α : Type} (readTs : Profile → Option Int)
    (setField : Profile → α → Int → Profile)
    (getValue : Ctx → Event → Profile → Except String (Option α))
    (ctx : Ctx) (e : Event) (σ : State)
    (hval : getValue ctx e σ.profile = .ok none) :
    profileHandler readTs setField getValue ctx e σ = .ok σ := by
  unfold profileHandler
  by_cases hpk : e.pubkey ≠ σ.profile.pubkey
  · rw [if_pos hpk]
  · rw [if_neg hpk]
    split
    · rfl
    · rw [hval]

/-- The profile handler on a fresh own event with a truthy computed value
patches the field and its companion timestamp. -/
theorem profileHandler_accept {α : Type} (readTs : Profile → Option Int)
    (setField : Profile → α → Int → Profile)
    (getValue : Ctx → Event → Profile → Except String (Option α))
    (ctx : Ctx) (e : Event) (σ : State) (v : α)
    (hpk : e.pubkey = σ.profile.pubkey)
    (hstale : tsLt e.created_at (readTs σ.profile) = false)
    (hval : getValue ctx e σ.profile = .ok (some v)) :
    profileHandler readTs setField getValue ctx e σ =
      .ok { σ with profile := setField σ.profile v e.created_at } := by
  unfold profileHandler
  rw [if_neg (by simpa using hpk), if_neg (by simp [hstale]), hval]

/-- Any non-throwing profile-handler run touches only the profile. -/
theorem profileHandler_ok_frame {α : Type} (readTs : Profile → Option Int)
    (setField : Profile → α → Int → Profile)
    (getValue : Ctx → Event → Profile → Except String (Option α))
    (ctx : Ctx) (e : Event) (σ σ' : State)
    (h : profileHandler readTs setField getValue ctx e σ = .ok σ') :
    σ'.people = σ.people ∧ σ'.rooms = σ.rooms ∧ σ'.routes = σ.routes ∧
    σ'.relays = σ.relays ∧ σ'.userEvents = σ.userEvents ∧
    σ'.effects = σ.effects := by
  unfold profileHandler at h
  dsimp only at h
  split at h
  · obtain rfl := Except.ok.inj h
    exact ⟨rfl, rfl, rfl, rfl, rfl, rfl⟩
  · split at h
    · obtain rfl := Except.ok.inj h
      exact ⟨rfl, rfl, rfl, rfl, rfl, rfl⟩
    · split at h
      · exact Except.noConfusion h
      · obtain rfl := Except.ok.inj h
        exact ⟨rfl, rfl, rfl, rfl, rfl, rfl⟩
      · obtain rfl := Except.ok.inj h
        exact ⟨rfl, rfl, rfl, rfl, rfl, rfl⟩

/-- The kind-40 handler is a no-op on stale events. -/
theorem handler40_stale (ctx : Ctx) (e : Event) (σ : State) (room : Room)
    (hroom : σ.rooms e.id = some room)
    (hlt : e.created_at < room.updated_at) :
    handler40 ctx e σ = .ok σ := by
  unfold handler40
  dsimp only
  rw [hroom, if_pos (show tsLt e.created_at
    ((some room).map (fun r => r.updated_at)) = true from by
      simp [tsLt]; exact hlt)]

/-- The kind-40 handler is a no-op without parseable whitelisted content. -/
theorem handler40_no_content (ctx : Ctx) (e : Event) (σ : State)
    (hc : roomContent ctx e = none) :
    handler40 ctx e σ = .ok σ := by
  unfold handler40
  dsimp only
  split
  · rfl
  · rw [hc]

/-- The kind-40 handler is a no-op when no truthy `name` survives the
projection. -/
theorem handler40_no_name (ctx : Ctx) (e : Event) (σ : State)
    (content : List (String × JVal)) (hc : roomContent ctx e = some content)
    (hn : jTruthyOpt (alookup "name" content) = false) :
    handler40 ctx e σ = .ok σ := by
  unfold handler40
  dsimp only
  split
  · rfl
  · rw [hc]
    dsimp only
    rw [if_pos (by simp [hn])]

/-- The kind-40 handler on a fresh event with whitelisted content carrying
a truthy `name` patches the room. -/
theorem handler40_accept (ctx : Ctx) (e : Event) (σ : State)
    (content : List (String × JVal))
    (hstale : tsLt e.created_at ((σ.rooms e.id).map (fun r => r.updated_at)) = false)
    (hc : roomContent ctx e = some content)
    (hn : jTruthyOpt (alookup "name" content) = true) :
    handler40 ctx e σ = .ok { σ with
      rooms := mapPut σ.rooms e.id ⟨e.id, e.pubkey, e.created_at,
        jsMerge (((σ.rooms e.id).map (fun r => r.attrs)).getD []) content⟩ } := by
  unfold handler40
  dsimp only
  rw [if_neg (by simp [hstale]), hc]
  dsimp only
  rw [if_neg (by simp [hn])]

/-- The kind-41 handler is a no-op on stale events for the referenced
room. -/
theorem handler41_stale (ctx : Ctx) (e : Event) (σ : State)
    (tags : List (List String)) (rid : String) (room : Room)
    (htags : e.tags = some tags)
    (hr : ((tagsOfType tags "e").head?).bind (fun t => t.get? 1) = some rid)
    (hroom : σ.rooms rid = some room)
    (hlt : e.created_at < room.updated_at) :
    handler41 ctx e σ = .ok σ := by
  unfold handler41
  rw [htags]
  dsimp only
  rw [hr]
  dsimp only
  rw [hroom, if_pos (show tsLt e.created_at
    ((some room).map (fun r => r.updated_at)) = true from by
      simp [tsLt]; exact hlt)]

/-- Any non-throwing kind-40 handler run touches only the rooms table. -/
theorem handler40_ok_frame (ctx : Ctx) (e : Event) (σ σ' : State)
    (h : handler40 ctx e σ = .ok σ') :
    σ'.people = σ.people ∧ σ'.profile = σ.profile ∧ σ'.routes = σ.routes ∧
    σ'.relays = σ.relays ∧ σ'.userEvents = σ.userEvents ∧
    σ'.effects = σ.effects := by
  unfold handler40 at h
  have hσ := Except.ok.inj h
  subst hσ
  dsimp only
  split
  · exact ⟨rfl, rfl, rfl, rfl, rfl, rfl⟩
  · split
    · exact ⟨rfl, rfl, rfl, rfl, rfl, rfl⟩
    · split
      · exact ⟨rfl, rfl, rfl, rfl, rfl, rfl⟩
      · exact ⟨rfl, rfl, rfl, rfl, rfl, rfl⟩

/-- Any non-throwing kind-41 handler run touches only the rooms table. -/
theorem handler41_ok_frame (ctx : Ctx) (e : Event) (σ σ' : State)
    (h : handler41 ctx e σ = .ok σ') :
    σ'.people = σ.people ∧ σ'.profile = σ.profile ∧ σ'.routes = σ.routes ∧
    σ'.relays = σ.relays ∧ σ'.userEvents = σ.userEvents ∧
    σ'.effects = σ.effects := by
  unfold handler41 at h
  cases htags : e.tags with
  | none => rw [htags] at h; exact Except.noConfusion h
  | some tags =>
    rw [htags] at h
    have hσ := Except.ok.inj h
    subst hσ
    dsimp only
    split
    · exact ⟨rfl, rfl, rfl, rfl, rfl, rfl⟩
    · split
      · exact ⟨rfl, rfl, rfl, rfl, rfl, rfl⟩
      · split
        · exact ⟨rfl, rfl, rfl, rfl, rfl, rfl⟩
        · split
          · exact ⟨rfl, rfl, rfl, rfl, rfl, rfl⟩
          · exact ⟨rfl, rfl, rfl, rfl, rfl, rfl⟩

/-- Stepping the handler chain over a non-throwing handler. -/
theorem runHandlers_cons_ok (ctx : Ctx) (e : Event) (h : Handler)
    (rest : List Handler) (σ σ' : State) (hh : h ctx e σ = .ok σ') :
    runHandlers ctx e (h :: rest) σ = runHandlers ctx e rest σ' := by
  conv_lhs => rw [runHandlers]
  rw [hh]

/-- A throwing handler stops the chain, keeping the state reached. -/
theorem runHandlers_cons_err (ctx : Ctx) (e : Event) (h : Handler)
    (rest : List Handler) (σ : State) (err : String)
    (hh : h ctx e σ = .error err) :
    runHandlers ctx e (h :: rest) σ = (σ, some err) := by
  unfold runHandlers
  rw [hh]

/-- The empty handler chain returns the state unchanged and no error. -/
theorem runHandlers_nil (ctx : Ctx) (e : Event) (σ : State) :
    runHandlers ctx e [] σ = (σ, none) := rfl

/-- A profile handler whose value computation returns cleanly never
throws. -/
theorem profileHandler_total {α : Type} (readTs : Profile → Option Int)
    (setField : Profile → α → Int → Profile)
    (getValue : Ctx → Event → Profile → Except String (Option α))
    (ctx : Ctx) (e : Event) (σ : State)
    (hgv : ∃ o, getValue ctx e σ.profile = .ok o) :
    ∃ σ', profileHandler readTs setField getValue ctx e σ = .ok σ' := by
  unfold profileHandler
  dsimp only
  split
  · exact ⟨σ, rfl⟩
  · split
    · exact ⟨σ, rfl⟩
    · obtain ⟨o, ho⟩ := hgv
      rw [ho]
      cases o with
      | none => exact ⟨σ, rfl⟩
      | some v => exact ⟨_, rfl⟩

/-- C9: a kind-0 event staler than the stored `kind0_updated_at` triggers
neither the domain-identity nor the payment-endpoint verification
side-channel, whatever its content carries — the staleness guard runs
before the triggers. -/
theorem claim9_stale_kind0_no_verification (ctx : Ctx) (σ : State) (e : Event)
    (T : Int) (hk : e.kind = 0)
    (hT : (σ.people e.pubkey).bind (fun p => p.kind0_updated_at) = some T)
    (hlt : e.created_at < T) :
    (procEvent ctx σ e).1.effects = σ.effects := by
  obtain ⟨hp, _, _, _, _, heff⟩ := archive_frame σ e
  have h0 : handler0 ctx e (archive σ e) = .ok (archive σ e) :=
    handler0_stale ctx e (archive σ e) T (by rw [hp]; exact hT) hlt
  show (runHandlers ctx e (handlersFor e.kind) (archive σ e)).1.effects = σ.effects
  rw [hk, show handlersFor 0 = [handler0] from rfl,
    runHandlers_cons_ok _ _ _ _ _ _ h0, runHandlers_nil]
  exact heff

/-- C9 witness: a stale kind-0 event carrying `nip05` and `lud16` fields
launches no verification. -/
theorem claim9_witness :
    (procEvent ⟨fun _ => some (.obj [("nip05", .str "a@b"), ("lud16", .str "c@d")]), 7⟩
      { State.init "u" with
        people := mapPut (fun _ => none) "alice"
          ⟨"alice", 0, none, some 100, none, none, none, none, none⟩ }
      { id := "e1", pubkey := "alice", kind := 0, created_at := 50,
        content := "c", tags := some [] }).1.effects =
    ({ State.init "u" with
       people := mapPut (fun _ => none) "alice"
         ⟨"alice", 0, none, some 100, none, none, none, none, none⟩ } : State).effects :=
  claim9_stale_kind0_no_verification _ _ _ 100 rfl (by decide) (by decide)

/-- C10: the last-write-wins comparison against a missing companion
timestamp never discards. `tsLt t none = false` for every `t` (the
comparison with an absent timestamp is NaN-like and never rejects), so a
kind-0 event for a pubkey with no stored `kind0_updated_at`, a kind-3
petnames event with no stored `petnames_updated_at`, a kind-10002 relay
event while `relays_updated_at` is unset, and a kind-40 event for an
unknown room are all accepted — their companion timestamps are set to the
event's `created_at` — regardless of that `created_at`, including zero and
negative values. -/
theorem claim10_missing_timestamp_accepts :
    (∀ (t : Int), tsLt t none = false) ∧
    (∀ (ctx : Ctx) (σ : State) (e : Event) (j : JVal), e.kind = 0 →
      (σ.people e.pubkey).bind (fun p => p.kind0_updated_at) = none →
      ctx.parse e.content = some j → ¬(j = JVal.null) →
      addressSafe j = true →
      ((procEvent ctx σ e).1.people e.pubkey).bind
        (fun p => p.kind0_updated_at) = some e.created_at) ∧
    (∀ (ctx : Ctx) (σ : State) (e : Event) (tags : List (List String)),
      e.kind = 3 → e.tags = some tags →
      (σ.people e.pubkey).bind (fun p => p.petnames_updated_at) = none →
      ((procEvent ctx σ e).1.people e.pubkey).bind
        (fun p => p.petnames_updated_at) = some e.created_at) ∧
    (∀ (ctx : Ctx) (σ : State) (e : Event) (v : List RelayEntry),
      e.kind = 10002 → e.pubkey = σ.profile.pubkey →
      σ.profile.relays_updated_at = none →
      getValueRelays10002 ctx e σ.profile = .ok (some v) →
      (procEvent ctx σ e).1.profile.relays_updated_at =
        some e.created_at) ∧
    (∀ (ctx : Ctx) (σ : State) (e : Event)
        (content : List (String × JVal)),
      e.kind = 40 → σ.rooms e.id = none →
      roomContent ctx e = some content →
      jTruthyOpt (alookup "name" content) = true →
      ((procEvent ctx σ e).1.rooms e.id).map (fun r => r.updated_at) =
        some e.created_at) := by
  refine ⟨fun t => rfl, ?_, ?_, ?_, ?_⟩
  · -- kind-0 with no stored kind0 timestamp
    intro ctx σ e j hk hT hp hnull hsafe
    obtain ⟨hpa, _, _, _, _, _⟩ := archive_frame σ e
    have hstale : tsLt e.created_at
        (((archive σ e).people e.pubkey).bind
          fun p => p.kind0_updated_at) = false := by
      rw [hpa, hT]
      rfl
    obtain ⟨effs, h0⟩ := handler0_accept ctx e (archive σ e) j hp hstale
      hnull hsafe
    show ((runHandlers ctx e (handlersFor e.kind) (archive σ e)).1.people
      e.pubkey).bind (fun p => p.kind0_updated_at) = some e.created_at
    rw [hk, show handlersFor 0 = [handler0] from rfl,
      runHandlers_cons_ok _ _ _ _ _ _ h0, runHandlers_nil,
      updatePerson_people_same]
    simp [patchField]
  · -- kind-3 petnames with no stored petnames timestamp
    intro ctx σ e tags hk htags hT
    obtain ⟨hpa, _, _, _, _, _⟩ := archive_frame σ e
    have hstale : tsLt e.created_at
        (((archive σ e).people e.pubkey).bind
          fun p => p.petnames_updated_at) = false := by
      rw [hpa, hT]
      rfl
    have h1 := handler3Petnames_accept ctx e (archive σ e) tags htags hstale
    show ((runHandlers ctx e (handlersFor e.kind) (archive σ e)).1.people
      e.pubkey).bind (fun p => p.petnames_updated_at) = some e.created_at
    rw [hk, show handlersFor 3 = [handler3Petnames,
      profileHandler (fun p => p.relays_updated_at) setRelays getValueRelays3,
      handler3Routes] from rfl,
      runHandlers_cons_ok _ _ _ _ _ _ h1]
    obtain ⟨σ2, h2⟩ := profileHandler_total
      (fun p => p.relays_updated_at) setRelays getValueRelays3 ctx e _ ⟨_, rfl⟩
    rw [runHandlers_cons_ok _ _ _ _ _ _ h2]
    obtain ⟨σ3, h3⟩ : ∃ σ', handler3Routes ctx e σ2 = .ok σ' := ⟨_, rfl⟩
    rw [runHandlers_cons_ok _ _ _ _ _ _ h3, runHandlers_nil,
      (handler3Routes_eqOutside ctx e σ2 σ3 h3).1,
      (profileHandler_ok_frame _ _ _ ctx e _ σ2 h2).1,
      updatePerson_people_same]
    simp [patchField]
  · -- user relay list (kind 10002) with no stored relays timestamp
    intro ctx σ e v hk hpk hT hgv
    obtain ⟨_, hprof, _, _, _, _⟩ := archive_frame σ e
    obtain ⟨σ2, hσ2⟩ : ∃ σ2, ({ archive σ e with
        profile := setRelays (archive σ e).profile v e.created_at } :
        State) = σ2 := ⟨_, rfl⟩
    have h1 : profileHandler (fun p => p.relays_updated_at) setRelays
        getValueRelays10002 ctx e (archive σ e) = .ok σ2 := by
      rw [← hσ2]
      exact profileHandler_accept _ _ _ ctx e (archive σ e) v
        (by rw [hprof]; exact hpk) (by rw [hprof, hT]; rfl)
        (by rw [hprof]; exact hgv)
    have hσ2prof : σ2.profile.relays_updated_at = some e.created_at := by
      rw [← hσ2]
      rfl
    show (runHandlers ctx e (handlersFor e.kind)
      (archive σ e)).1.profile.relays_updated_at = some e.created_at
    rw [hk, show handlersFor 10002 = [profileHandler
      (fun p => p.relays_updated_at) setRelays getValueRelays10002,
      handler10002Routes] from rfl,
      runHandlers_cons_ok _ _ _ _ _ _ h1]
    cases h2 : handler10002Routes ctx e σ2 with
    | error err =>
      rw [runHandlers_cons_err _ _ _ _ _ _ h2]
      exact hσ2prof
    | ok σ3 =>
      rw [runHandlers_cons_ok _ _ _ _ _ _ h2, runHandlers_nil,
        (handler10002Routes_eqOutside ctx e σ2 σ3 h2).2.1]
      exact hσ2prof
  · -- room creation (kind 40) for an unknown room
    intro ctx σ e content hk hroom hc hn
    obtain ⟨_, _, hrm, _, _, _⟩ := archive_frame σ e
    have hstale : tsLt e.created_at
        (((archive σ e).rooms e.id).map (fun r => r.updated_at)) = false := by
      rw [hrm, hroom]
      rfl
    have h1 := handler40_accept ctx e (archive σ e) content hstale hc hn
    show ((runHandlers ctx e (handlersFor e.kind) (archive σ e)).1.rooms
      e.id).map (fun r => r.updated_at) = some e.created_at
    rw [hk, show handlersFor 40 = [handler40] from rfl,
      runHandlers_cons_ok _ _ _ _ _ _ h1, runHandlers_nil]
    simp [mapPut]

/-- C10 witness: a fresh pubkey accepts a kind-0 event at `created_at = -5`
and a kind-3 petnames event at `created_at = 0`, the fresh user profile
accepts a kind-10002 relay list at `created_at = -1`, and an unknown room
accepts its creation event at `created_at = -3`. -/
theorem claim10_witness :
    tsLt (-7) none = false ∧
    ((procEvent ⟨fun _ => some (.obj [("name", .str "n")]), 7⟩
      (State.init "u")
      { id := "e1", pubkey := "alice", kind := 0, created_at := -5,
        content := "c", tags := some [] }).1.people "alice").bind
      (fun p => p.kind0_updated_at) = some (-5) ∧
    ((procEvent ⟨fun _ => some (.obj [("name", .str "n")]), 7⟩
      (State.init "u")
      { id := "e3", pubkey := "carol", kind := 3, created_at := 0,
        content := "c", tags := some [["p", "dave"]] }).1.people
      "carol").bind (fun p => p.petnames_updated_at) = some 0 ∧
    (procEvent ⟨fun _ => some (.obj [("name", .str "n")]), 7⟩
      (State.init "u")
      { id := "e4", pubkey := "u", kind := 10002, created_at := -1,
        content := "c",
        tags := some [["r", "wss://x.com"]] }).1.profile.relays_updated_at =
      some (-1) ∧
    ((procEvent ⟨fun _ => some (.obj [("name", .str "n")]), 7⟩
      (State.init "u")
      { id := "room1", pubkey := "bob", kind := 40, created_at := -3,
        content := "c", tags := some [] }).1.rooms "room1").map
      (fun r => r.updated_at) = some (-3) := by
  refine ⟨claim10_missing_timestamp_accepts.1 (-7), ?_, ?_, ?_, ?_⟩
  · exact claim10_missing_timestamp_accepts.2.1 _ _ _
      (.obj [("name", .str "n")]) rfl rfl rfl
      (fun h => JVal.noConfusion h) (by decide)
  · exact claim10_missing_timestamp_accepts.2.2.1 _ _ _
      [["p", "dave"]] rfl rfl rfl
  · exact claim10_missing_timestamp_accepts.2.2.2.1 _ _ _
      [⟨"wss://x.com", some true, some true⟩] rfl rfl rfl rfl
  · exact claim10_missing_timestamp_accepts.2.2.2.2 _ _ _
      [("name", JVal.str "n")] rfl rfl rfl (by decide)

/-- C7 counterexample: contrary to the claim that an empty extraction
result updates nothing, a kind-3 event carrying tags but no "p" tag
overwrites the stored petname list with the empty list and bumps
`petnames_updated_at` — the petnames patch is applied unconditionally,
and an empty array is truthy in any case. -/
theorem claim7_counterexample :
    (((procEvent ⟨fun _ => none, 7⟩
      { State.init "u" with
        people := mapPut (fun _ => none) "alice"
          ⟨"alice", 0, none, none, some [["p", "bob"]], some 5, none, none,
            none⟩ }
      { id := "e1", pubkey := "alice", kind := 3, created_at := 10,
        content := "c", tags := some [["e", "x"]] }).1.people "alice").bind
      (fun p => p.petnames) = some []) ∧
    (((procEvent ⟨fun _ => none, 7⟩
      { State.init "u" with
        people := mapPut (fun _ => none) "alice"
          ⟨"alice", 0, none, none, some [["p", "bob"]], some 5, none, none,
            none⟩ }
      { id := "e1", pubkey := "alice", kind := 3, created_at := 10,
        content := "c", tags := some [["e", "x"]] }).1.people "alice").bind
      (fun p => p.petnames_updated_at) = some 10) := by
  exact ⟨by decide, by decide⟩

/-- C7 (amended): only a JS-falsy extraction result updates nothing — the
kind-3 petnames patch is unconditional and empty arrays are truthy, so
"empty" does not protect. The falsy cases: unparseable kind-0 content
leaves the people table unchanged; unparseable kind-3 content leaves the
user's relay list and its timestamp unchanged; a kind-10000 event without
a tag list leaves the mutes and their timestamp unchanged; kind-40
content lacking a truthy `name` (or unparseable) leaves the rooms table
unchanged. -/
theorem claim7_falsy_extraction_updates_nothing :
    (∀ (ctx : Ctx) (σ : State) (e : Event), e.kind = 0 →
      ctx.parse e.content = none →
      (procEvent ctx σ e).1.people = σ.people) ∧
    (∀ (ctx : Ctx) (σ : State) (e : Event), e.kind = 3 →
      ctx.parse e.content = none →
      (procEvent ctx σ e).1.profile.relays = σ.profile.relays ∧
      (procEvent ctx σ e).1.profile.relays_updated_at =
        σ.profile.relays_updated_at) ∧
    (∀ (ctx : Ctx) (σ : State) (e : Event), e.kind = 10000 →
      e.tags = none →
      (procEvent ctx σ e).1.profile.mutes = σ.profile.mutes ∧
      (procEvent ctx σ e).1.profile.mutes_updated_at =
        σ.profile.mutes_updated_at) ∧
    (∀ (ctx : Ctx) (σ : State) (e : Event)
        (content : List (String × JVal)), e.kind = 40 →
      roomContent ctx e = some content →
      jTruthyOpt (alookup "name" content) = false →
      (procEvent ctx σ e).1.rooms = σ.rooms) ∧
    (∀ (ctx : Ctx) (σ : State) (e : Event), e.kind = 40 →
      roomContent ctx e = none →
      (procEvent ctx σ e).1.rooms = σ.rooms) := by
  refine ⟨?_, ?_, ?_, ?_, ?_⟩
  · -- unparseable kind-0 content
    intro ctx σ e hk hp
    obtain ⟨hpa, _, _, _, _, _⟩ := archive_frame σ e
    have h0 := handler0_parse_fail ctx e (archive σ e) hp
    show (runHandlers ctx e (handlersFor e.kind) (archive σ e)).1.people =
      σ.people
    rw [hk, show handlersFor 0 = [handler0] from rfl,
      runHandlers_cons_ok _ _ _ _ _ _ h0, runHandlers_nil]
    exact hpa
  · -- unparseable kind-3 content: the user relay list survives
    intro ctx σ e hk hp
    obtain ⟨_, hprof, _, _, _, _⟩ := archive_frame σ e
    show (runHandlers ctx e (handlersFor e.kind)
        (archive σ e)).1.profile.relays = σ.profile.relays ∧
      (runHandlers ctx e (handlersFor e.kind)
        (archive σ e)).1.profile.relays_updated_at =
        σ.profile.relays_updated_at
    rw [hk, show handlersFor 3 = [handler3Petnames,
      profileHandler (fun p => p.relays_updated_at) setRelays getValueRelays3,
      handler3Routes] from rfl]
    cases h1 : handler3Petnames ctx e (archive σ e) with
    | error err =>
      rw [runHandlers_cons_err _ _ _ _ _ _ h1]
      exact ⟨by rw [show ((archive σ e, some err) :
          State × Option String).1 = archive σ e from rfl, hprof],
        by rw [show ((archive σ e, some err) :
          State × Option String).1 = archive σ e from rfl, hprof]⟩
    | ok σ1 =>
      rw [runHandlers_cons_ok _ _ _ _ _ _ h1]
      have hfr := handler3Petnames_ok_frame ctx e _ σ1 h1
      have hgv : getValueRelays3 ctx e σ1.profile = .ok none := by
        unfold getValueRelays3
        rw [hp]
      have h2 := profileHandler_falsy (fun p => p.relays_updated_at)
        setRelays getValueRelays3 ctx e σ1 hgv
      rw [runHandlers_cons_ok _ _ _ _ _ _ h2]
      obtain ⟨σ3, h3⟩ : ∃ σ', handler3Routes ctx e σ1 = .ok σ' := ⟨_, rfl⟩
      rw [runHandlers_cons_ok _ _ _ _ _ _ h3, runHandlers_nil,
        (handler3Routes_eqOutside ctx e σ1 σ3 h3).2.1]
      exact ⟨by rw [hfr.2.2.2.2.2.2.1, hprof],
        by rw [hfr.2.2.2.2.2.2.2.1, hprof]⟩
  · -- kind-10000 without a tag list: the mutes survive
    intro ctx σ e hk htags
    obtain ⟨_, hprof, _, _, _, _⟩ := archive_frame σ e
    have hgv : getValueMutes ctx e (archive σ e).profile = .ok none := by
      unfold getValueMutes
      rw [htags]
    have h1 := profileHandler_falsy (fun p => p.mutes_updated_at)
      setMutes getValueMutes ctx e (archive σ e) hgv
    show (runHandlers ctx e (handlersFor e.kind)
        (archive σ e)).1.profile.mutes = σ.profile.mutes ∧
      (runHandlers ctx e (handlersFor e.kind)
        (archive σ e)).1.profile.mutes_updated_at =
        σ.profile.mutes_updated_at
    rw [hk, show handlersFor 10000 = [profileHandler
      (fun p => p.mutes_updated_at) setMutes getValueMutes] from rfl,
      runHandlers_cons_ok _ _ _ _ _ _ h1, runHandlers_nil]
    exact ⟨by rw [hprof], by rw [hprof]⟩
  · -- kind-40 content without a truthy name: the rooms survive
    intro ctx σ e content hk hc hn
    obtain ⟨_, _, hrm, _, _, _⟩ := archive_frame σ e
    have h1 := handler40_no_name ctx e (archive σ e) content hc hn
    show (runHandlers ctx e (handlersFor e.kind) (archive σ e)).1.rooms =
      σ.rooms
    rw [hk, show handlersFor 40 = [handler40] from rfl,
      runHandlers_cons_ok _ _ _ _ _ _ h1, runHandlers_nil]
    exact hrm
  · -- unparseable kind-40 content: the rooms survive
    intro ctx σ e hk hc
    obtain ⟨_, _, hrm, _, _, _⟩ := archive_frame σ e
    have h1 := handler40_no_content ctx e (archive σ e) hc
    show (runHandlers ctx e (handlersFor e.kind) (archive σ e)).1.rooms =
      σ.rooms
    rw [hk, show handlersFor 40 = [handler40] from rfl,
      runHandlers_cons_ok _ _ _ _ _ _ h1, runHandlers_nil]
    exact hrm

/-- C7 witness: a kind-0 event with unparseable content, a kind-10000
event without a tag list and a kind-40 event whose content has no `name`
each leave their tables untouched. -/
theorem claim7_witness :
    ((procEvent ⟨fun _ => none, 7⟩ (State.init "u")
      { id := "w1", pubkey := "alice", kind := 0, created_at := 10,
        content := "bad", tags := some [] }).1.people =
      (State.init "u").people) ∧
    ((procEvent ⟨fun _ => none, 7⟩ (State.init "u")
      { id := "w2", pubkey := "u", kind := 10000, created_at := 10,
        content := "c", tags := none }).1.profile.mutes =
      (State.init "u").profile.mutes) ∧
    ((procEvent ⟨fun _ => some (.obj [("about", .str "x")]), 7⟩
      (State.init "u")
      { id := "w3", pubkey := "bob", kind := 40, created_at := 10,
        content := "c", tags := some [] }).1.rooms =
      (State.init "u").rooms) := by
  refine ⟨?_, ?_, ?_⟩
  · exact claim7_falsy_extraction_updates_nothing.1 _ _ _ rfl rfl
  · exact (claim7_falsy_extraction_updates_nothing.2.2.1 _ _ _ rfl rfl).1
  · exact claim7_falsy_extraction_updates_nothing.2.2.2.1 _ _ _
      [("about", JVal.str "x")] rfl rfl rfl

/-- An event processed without a thrown error continues the batch with the
resulting state. -/
theorem runEvents_cons_ok (ctx : Ctx) (σ σ' : State) (e : Event)
    (rest : List Event) (h : procEvent ctx σ e = (σ', none)) :
    runEvents ctx σ (e :: rest) = runEvents ctx σ' rest := by
  conv_lhs => rw [runEvents]
  rw [h]

/-- A thrown error stops the batch, keeping the tables as mutated so
far. -/
theorem runEvents_cons_err (ctx : Ctx) (σ σ' : State) (e : Event)
    (rest : List Event) (err : String)
    (h : procEvent ctx σ e = (σ', some err)) :
    runEvents ctx σ (e :: rest) = (σ', some err) := by
  conv_lhs => rw [runEvents]
  rw [h]

/-- The kind-0 handler never throws: it is `tryJson`-wrapped end to
end. -/
theorem handler0_total (ctx : Ctx) (e : Event) (σ : State) :
    ∃ σ', handler0 ctx e σ = .ok σ' := ⟨_, rfl⟩

/-- The kind-3 petnames handler never throws once the event carries a tag
list. -/
theorem handler3Petnames_total (ctx : Ctx) (e : Event) (σ : State)
    (tags : List (List String)) (htags : e.tags = some tags) :
    ∃ σ', handler3Petnames ctx e σ = .ok σ' := by
  unfold handler3Petnames
  dsimp only
  split
  · exact ⟨σ, rfl⟩
  · rw [htags]
    exact ⟨_, rfl⟩

/-- The kind-41 handler never throws once the event carries a tag
list. -/
theorem handler41_total (ctx : Ctx) (e : Event) (σ : State)
    (tags : List (List String)) (htags : e.tags = some tags) :
    ∃ σ', handler41 ctx e σ = .ok σ' := by
  unfold handler41
  rw [htags]
  exact ⟨_, rfl⟩

/-- The kind-10002 route handler never throws once the event carries a
tag list. -/
theorem handler10002Routes_total (ctx : Ctx) (e : Event) (σ : State)
    (tags : List (List String)) (htags : e.tags = some tags) :
    ∃ σ', handler10002Routes ctx e σ = .ok σ' := by
  unfold handler10002Routes
  rw [htags]
  exact ⟨_, rfl⟩

/-- The kind-10001 relay extraction returns cleanly once the event
carries a tag list. -/
theorem getValueRelays10001_ok (ctx : Ctx) (e : Event) (p : Profile)
    (tags : List (List String)) (htags : e.tags = some tags) :
    ∃ o, getValueRelays10001 ctx e p = .ok o := by
  unfold getValueRelays10001
  rw [htags]
  exact ⟨_, rfl⟩

/-- The kind-10002 relay extraction returns cleanly once the event
carries a tag list. -/
theorem getValueRelays10002_ok (ctx : Ctx) (e : Event) (p : Profile)
    (tags : List (List String)) (htags : e.tags = some tags) :
    ∃ o, getValueRelays10002 ctx e p = .ok o := by
  unfold getValueRelays10002
  rw [htags]
  exact ⟨_, rfl⟩

/-- A chain of handlers none of which can throw reports no error. -/
theorem runHandlers_no_error (ctx : Ctx) (e : Event) (hs : List Handler)
    (h : ∀ h' ∈ hs, ∀ τ, ∃ τ', h' ctx e τ = .ok τ') :
    ∀ σ, (runHandlers ctx e hs σ).2 = none := by
  induction hs with
  | nil => intro σ; rfl
  | cons hd tl ih =>
    intro σ
    obtain ⟨τ', hτ⟩ := h hd (List.mem_cons_self _ _) σ
    rw [runHandlers_cons_ok _ _ _ _ _ _ hτ]
    exact ih (fun h' hm => h h' (List.mem_cons_of_mem _ hm)) τ'

/-- Every registered handler is throw-free on an event that carries a tag
list (the only accesses that can throw are on a missing tags array). -/
theorem handlersFor_no_throw (ctx : Ctx) (e : Event)
    (tags : List (List String)) (htags : e.tags = some tags)
    (h' : Handler) (hm : h' ∈ handlersFor e.kind) :
    ∀ τ, ∃ τ', h' ctx e τ = .ok τ' := by
  intro τ
  unfold handlersFor at hm
  split_ifs at hm
  · obtain rfl := List.mem_singleton.mp hm
    exact ⟨_, rfl⟩
  · simp only [List.mem_cons, List.not_mem_nil, or_false] at hm
    rcases hm with rfl | rfl
    · exact profileHandler_total _ _ _ ctx e τ ⟨_, rfl⟩
    · exact ⟨_, rfl⟩
  · simp only [List.mem_cons, List.not_mem_nil, or_false] at hm
    rcases hm with rfl | rfl | rfl
    · exact handler3Petnames_total ctx e τ tags htags
    · exact profileHandler_total _ _ _ ctx e τ ⟨_, rfl⟩
    · exact ⟨_, rfl⟩
  · obtain rfl := List.mem_singleton.mp hm
    exact profileHandler_total _ _ _ ctx e τ ⟨_, rfl⟩
  · obtain rfl := List.mem_singleton.mp hm
    exact profileHandler_total _ _ _ ctx e τ
      (getValueRelays10001_ok ctx e τ.profile tags htags)
  · simp only [List.mem_cons, List.not_mem_nil, or_false] at hm
    rcases hm with rfl | rfl
    · exact profileHandler_total _ _ _ ctx e τ
        (getValueRelays10002_ok ctx e τ.profile tags htags)
    · exact handler10002Routes_total ctx e τ tags htags
  · obtain rfl := List.mem_singleton.mp hm
    exact ⟨_, rfl⟩
  · obtain rfl := List.mem_singleton.mp hm
    exact handler41_total ctx e τ tags htags
  · exact absurd hm (List.not_mem_nil h')

/-- Dispatching one event that carries a tag list never throws, whatever
its kind, content or the table state. -/
theorem procEvent_no_throw (ctx : Ctx) (σ : State) (e : Event)
    (htags : e.tags.isSome = true) : (procEvent ctx σ e).2 = none := by
  obtain ⟨tags, htags'⟩ := Option.isSome_iff_exists.mp htags
  exact runHandlers_no_error ctx e _
    (fun h' hm => handlersFor_no_throw ctx e tags htags' h' hm) (archive σ e)

/-- A batch of events that all carry tag lists runs to completion. -/
theorem runEvents_no_throw (ctx : Ctx) (σ : State) (evs : List Event)
    (h : ∀ e ∈ evs, e.tags.isSome = true) :
    (runEvents ctx σ evs).2 = none := by
  induction evs generalizing σ with
  | nil => rfl
  | cons e rest ih =>
    cases hpe : procEvent ctx σ e with
    | mk σ' errOpt =>
      cases errOpt with
      | none =>
        rw [runEvents_cons_ok ctx σ σ' e rest hpe]
        exact ih σ' (fun e' hm => h e' (List.mem_cons_of_mem _ hm))
      | some err =>
        have hthrow := procEvent_no_throw ctx σ e (h e (List.mem_cons_self _ _))
        rw [hpe] at hthrow
        cases hthrow

/-- Every member of a chunk is a member of the chunked list. -/
theorem chunkFuel_mem : ∀ (fuel : Nat) (l c : List Event),
    c ∈ chunkFuel fuel l → ∀ e ∈ c, e ∈ l := by
  intro fuel
  induction fuel with
  | zero =>
    intro l c hc e he
    cases l with
    | nil => exact absurd hc (List.not_mem_nil c)
    | cons x xs =>
      obtain rfl := List.mem_singleton.mp hc
      exact he
  | succ n ih =>
    intro l c hc e he
    cases l with
    | nil => exact absurd hc (List.not_mem_nil c)
    | cons x xs =>
      rw [show chunkFuel (n + 1) (x :: xs) =
        ((x :: xs).take 100) :: chunkFuel n ((x :: xs).drop 100) from rfl] at hc
      rcases List.mem_cons.mp hc with rfl | hc'
      · exact List.take_subset _ _ he
      · exact List.drop_subset _ _ (ih _ _ hc' e he)

/-- Folding chunks whose events all carry tag lists reports no error. -/
theorem foldChunks_no_throw (ctx : Ctx) (chunks : List (List Event)) :
    ∀ (σ : State), (∀ c ∈ chunks, ∀ e ∈ c, e.tags.isSome = true) →
      (chunks.foldl (stepChunk ctx) (σ, none)).2 = none := by
  induction chunks with
  | nil => intro σ h; rfl
  | cons c rest ih =>
    intro σ h
    rw [List.foldl_cons, show stepChunk ctx (σ, none) c =
      runEvents ctx σ c from rfl]
    have h2 := runEvents_no_throw ctx σ c (h c (List.mem_cons_self _ _))
    cases hre : runEvents ctx σ c with
    | mk σ' errOpt =>
      rw [hre] at h2
      cases errOpt with
      | none => exact ih σ' (fun c' hm => h c' (List.mem_cons_of_mem _ hm))
      | some err => cases h2

/-- C1 counterexample: contrary to the claim, `processEvents` does throw
on a malformed event — a kind-3 event with no tags array rejects the
batch (`tags.filter` on `undefined` throws before any `try` can catch
it), and the remaining events of the batch are never handled: the second
event's pubkey acquires no people row. -/
theorem claim1_counterexample :
    ((processEvents ⟨fun _ => none, 7⟩ (State.init "u")
      [some { id := "b1", pubkey := "a", kind := 3, created_at := 10,
              content := "c", tags := none },
       some { id := "g1", pubkey := "b", kind := 3, created_at := 10,
              content := "c", tags := some [["p", "x"]] }]).2.isSome =
      true) ∧
    ((processEvents ⟨fun _ => none, 7⟩ (State.init "u")
      [some { id := "b1", pubkey := "a", kind := 3, created_at := 10,
              content := "c", tags := none },
       some { id := "g1", pubkey := "b", kind := 3, created_at := 10,
              content := "c", tags := some [["p", "x"]] }]).1.people "b" =
      none) := by
  exact ⟨rfl, rfl⟩

/-- C1 (amended): `processEvents` completes without throwing on any batch
— single event or sequence, `null` gaps filtered out — whose events all
carry a tags array, however malformed their content or profile fields are
(the context's parser is arbitrary, so every content may be unparseable);
the only throwing accesses in any handler are on a missing tags array. -/
theorem claim1_tagged_batches_never_throw (ctx : Ctx) (σ : State)
    (events : List (Option Event))
    (h : ∀ e ∈ events.filterMap id, e.tags.isSome = true) :
    (processEvents ctx σ events).2 = none := by
  unfold processEvents chunk100
  exact foldChunks_no_throw ctx _ σ (fun c hc e he =>
    h e (chunkFuel_mem _ _ c hc e he))

/-- C1 witness: a batch with a `null` gap and two tagged events — one
with unparseable content — completes without an error. -/
theorem claim1_witness :
    (processEvents ⟨fun _ => none, 7⟩ (State.init "u")
      [some { id := "g1", pubkey := "a", kind := 3, created_at := 10,
              content := "c", tags := some [["p", "x"]] },
       none,
       some { id := "g2", pubkey := "b", kind := 41, created_at := 5,
              content := "c", tags := some [] }]).2 = none :=
  claim1_tagged_batches_never_throw _ _ _ (by decide)

/-- Replaying concatenated call lists composes. -/
theorem runAddRoutes_app (nowT : Int) (σ : State) (a b : List AddCall) :
    runAddRoutes nowT σ (a ++ b) =
      runAddRoutes nowT (runAddRoutes nowT σ a) b := by
  unfold runAddRoutes
  rw [List.foldl_append]

/-- The kind-10002 route handler is the replay of its recorded calls. -/
theorem handler10002Routes_eq_run (ctx : Ctx) (e : Event) (σ : State)
    (tags : List (List String)) (htags : e.tags = some tags) :
    handler10002Routes ctx e σ =
      .ok (runAddRoutes ctx.nowT σ (calls10002 e tags)) := by
  have key : ∀ (l : List (List String)) (τ : State),
      List.foldl (fun σ t =>
        let url := (t.get? 1).getD ""
        let mode := (t.get? 2).getD ""
        if mode ≠ "" then
          addRoute ctx.nowT σ e.pubkey url "kind:10002" mode e.created_at
        else
          addRoute ctx.nowT
            (addRoute ctx.nowT σ e.pubkey url "kind:10002" "read"
              e.created_at)
            e.pubkey url "kind:10002" "write" e.created_at) τ l =
      runAddRoutes ctx.nowT τ (calls10002 e l) := by
    intro l
    induction l with
    | nil => intro τ; rfl
    | cons t ts ih =>
      intro τ
      rw [List.foldl_cons]
      dsimp only
      by_cases hm : ((t.get? 2).getD "") = ""
      · rw [if_neg (by simpa using hm), show calls10002 e (t :: ts) =
          ⟨e.pubkey, (t.get? 1).getD "", "kind:10002", "read",
            e.created_at⟩ ::
          ⟨e.pubkey, (t.get? 1).getD "", "kind:10002", "write",
            e.created_at⟩ :: calls10002 e ts from by
            have hm2 : t[2]?.getD "" = "" := by simpa using hm
            simp [calls10002, hm2]]
        exact ih _
      · rw [if_pos (by simpa using hm), show calls10002 e (t :: ts) =
          ⟨e.pubkey, (t.get? 1).getD "", "kind:10002", (t.get? 2).getD "",
            e.created_at⟩ :: calls10002 e ts from by
            have hm2 : ¬(t[2]?.getD "" = "") := by simpa using hm
            simp [calls10002, hm2]]
        exact ih _
  unfold handler10002Routes
  rw [htags]
  dsimp only
  rw [key tags σ]

/-- Replaying any call list adds exactly the folded-score tally to each
route count. -/
theorem countAt_run (nowT : Int) (calls : List AddCall) :
    ∀ (σ : State) (rid : String),
    countAt (runAddRoutes nowT σ calls) rid =
      countAt σ rid + (foldedScores nowT rid calls).length := by
  induction calls using List.reverseRecOn with
  | nil => intro σ rid; rfl
  | append_singleton cs c ih =>
    intro σ rid
    rw [runAddRoutes_append, foldedScores_append,
      show addRoute nowT (runAddRoutes nowT σ cs) c.pubkey c.rawUrl c.type
        c.mode c.created_at =
        runAddRoutes nowT (runAddRoutes nowT σ cs) [c] from rfl,
      countAt_step, ih, List.length_append]
    omega

/-- Dispatching one tagged kind-10002 event adds a state-independent
tally — the number of its positively-scored shareable calls aimed at the
route — to that route's count. -/
theorem procEvent_10002_count (ctx : Ctx) (σ : State) (e : Event)
    (tags : List (List String)) (hk : e.kind = 10002)
    (htags : e.tags = some tags) (rid : String) :
    countAt (procEvent ctx σ e).1 rid =
      countAt σ rid +
        (foldedScores ctx.nowT rid (calls10002 e tags)).length := by
  obtain ⟨_, _, _, hroutes, _, _⟩ := archive_frame σ e
  show countAt (runHandlers ctx e (handlersFor e.kind) (archive σ e)).1 rid = _
  rw [hk, show handlersFor 10002 = [profileHandler
    (fun p => p.relays_updated_at) setRelays getValueRelays10002,
    handler10002Routes] from rfl]
  obtain ⟨σ2, h2⟩ := profileHandler_total _ _ _ ctx e (archive σ e)
    (getValueRelays10002_ok ctx e (archive σ e).profile tags htags)
  rw [runHandlers_cons_ok _ _ _ _ _ _ h2,
    runHandlers_cons_ok _ _ _ _ _ _
      (handler10002Routes_eq_run ctx e σ2 tags htags),
    runHandlers_nil]
  have hr2 : σ2.routes = σ.routes := by
    rw [(profileHandler_ok_frame _ _ _ ctx e _ σ2 h2).2.2.1, hroutes]
  show countAt (runAddRoutes ctx.nowT σ2 (calls10002 e tags)) rid = _
  rw [countAt_run]
  unfold countAt
  rw [hr2]

/-- Key lookup searches the first list first across a concatenation. -/
theorem alookup_append (k : String) (a b : List (String × JVal)) :
    alookup k (a ++ b) =
      match alookup k a with
      | some v => some v
      | none => alookup k b := by
  induction a with
  | nil => rfl
  | cons p rest ih =>
    obtain ⟨k', v⟩ := p
    show (if k' = k then some v else alookup k (rest ++ b)) = _
    by_cases h : k' = k
    · rw [if_pos h, show alookup k ((k', v) :: rest) = some v from by
        show (if k' = k then some v else alookup k rest) = some v
        rw [if_pos h]]
    · rw [if_neg h, ih, show alookup k ((k', v) :: rest) = alookup k rest
        from by
        show (if k' = k then some v else alookup k rest) = _
        rw [if_neg h]]

/-- Lookup through the position-preserving override map. -/
theorem alookup_ovr (k : String) (a b : List (String × JVal)) :
    alookup k (a.map (fun p => (p.1, (alookup p.1 b).getD p.2))) =
      (alookup k a).map (fun v => (alookup k b).getD v) := by
  induction a with
  | nil => rfl
  | cons p rest ih =>
    obtain ⟨k', v⟩ := p
    show (if k' = k then some ((alookup k' b).getD v) else _) = _
    by_cases h : k' = k
    · subst h
      rw [if_pos rfl, show alookup k' ((k', v) :: rest) = some v from by
        show (if k' = k' then some v else alookup k' rest) = some v
        rw [if_pos rfl]]
      rfl
    · rw [if_neg h, ih, show alookup k ((k', v) :: rest) = alookup k rest
        from by
        show (if k' = k then some v else alookup k rest) = _
        rw [if_neg h]]

/-- Filtering out keys absent from `a` does not disturb lookups of keys
absent from `a`. -/
theorem alookup_filter_not_mem (k : String) (a b : List (String × JVal))
    (ha : alookup k a = none) :
    alookup k (b.filter (fun p => !akeyMem p.1 a)) = alookup k b := by
  induction b with
  | nil => rfl
  | cons p rest ih =>
    obtain ⟨k', v⟩ := p
    rw [List.filter_cons]
    by_cases h : k' = k
    · subst h
      rw [if_pos (by simp [akeyMem, ha])]
      show (if k' = k' then some v else _) =
        (if k' = k' then some v else alookup k' rest)
      rw [if_pos rfl, if_pos rfl]
    · by_cases hm : (!akeyMem k' a) = true
      · rw [if_pos hm]
        show (if k' = k then some v else _) = (if k' = k then some v else _)
        rw [if_neg h, if_neg h]
        exact ih
      · rw [if_neg hm, ih, show alookup k ((k', v) :: rest) = alookup k rest
          from by
          show (if k' = k then some v else alookup k rest) = _
          rw [if_neg h]]

/-- What the spread merge leaves at each key: `b`'s value where present,
otherwise `a`'s. -/
theorem jsMerge_alookup (k : String) (a b : List (String × JVal)) :
    alookup k (jsMerge a b) =
      match alookup k a with
      | some v => some ((alookup k b).getD v)
      | none => alookup k b := by
  unfold jsMerge
  rw [alookup_append, alookup_ovr]
  cases h : alookup k a with
  | some v => rfl
  | none =>
    show alookup k (b.filter _) = _
    rw [alookup_filter_not_mem k a b h]

/-- A member's key is present. -/
theorem akeyMem_of_mem (p : String × JVal) (b : List (String × JVal))
    (hp : p ∈ b) : akeyMem p.1 b = true := by
  induction b with
  | nil => cases hp
  | cons q rest ih =>
    obtain ⟨k', v⟩ := q
    show (alookup p.1 ((k', v) :: rest)).isSome = true
    rw [show alookup p.1 ((k', v) :: rest) =
      (if k' = p.1 then some v else alookup p.1 rest) from rfl]
    by_cases h : k' = p.1
    · rw [if_pos h]
      rfl
    · rw [if_neg h]
      rcases List.mem_cons.mp hp with rfl | hp'

      · exact absurd rfl h
      · exact ih hp'

/-- Merged keys are the union of the two key sets. -/
theorem akeyMem_merge (k : String) (a b : List (String × JVal)) :
    akeyMem k (jsMerge a b) = (akeyMem k a || akeyMem k b) := by
  unfold akeyMem
  rw [jsMerge_alookup]
  cases alookup k a with
  | some v => rfl
  | none => cases alookup k b <;> rfl

/-- When every key of `b` already occurs in `a`, the merge is a pure
position-preserving override. -/
theorem jsMerge_collapse (a b : List (String × JVal))
    (h : ∀ p ∈ b, akeyMem p.1 a = true) :
    jsMerge a b = a.map (fun p => (p.1, (alookup p.1 b).getD p.2)) := by
  unfold jsMerge
  rw [show b.filter (fun p => !akeyMem p.1 a) = [] from
    List.filter_eq_nil.mpr (fun p hp => by simp [h p hp]),
    List.append_nil]

/-- The override map does not change which keys are present. -/
theorem akeyMem_ovr (k : String) (a b : List (String × JVal)) :
    akeyMem k (a.map (fun p => (p.1, (alookup p.1 b).getD p.2))) =
      akeyMem k a := by
  unfold akeyMem
  rw [alookup_ovr]
  cases alookup k a <;> rfl

/-- Later patch lists take precedence in `olast`. -/
theorem olast_append (k : String) (A1 A2 : List (List (String × JVal))) :
    olast k (A1 ++ A2) =
      match olast k A2 with
      | some u => some u
      | none => olast k A1 := by
  induction A1 with
  | nil =>
    show olast k A2 = _
    cases olast k A2 <;> rfl
  | cons b rest ih =>
    show (match olast k (rest ++ A2) with
      | some u => some u
      | none => alookup k b) = _
    rw [ih]
    cases olast k A2 with
    | some u => rfl
    | none =>
      show (match olast k rest with
        | some u => some u
        | none => alookup k b) = _
      rfl

/-- A key present in the base survives a whole merge chain. -/
theorem foldMerge_keyMono :
    ∀ (A : List (List (String × JVal))) (x : List (String × JVal))
      (k : String), akeyMem k x = true →
      akeyMem k (List.foldl jsMerge x A) = true := by
  intro A
  induction A with
  | nil => intro x k h; exact h
  | cons b rest ih =>
    intro x k h
    rw [List.foldl_cons]
    exact ih _ k (by rw [akeyMem_merge, h]; rfl)

/-- Every key of every patch occurs in the chain's result. -/
theorem foldMerge_keys (A : List (List (String × JVal)))
    (x : List (String × JVal)) (b : List (String × JVal)) (hb : b ∈ A)
    (p : String × JVal) (hp : p ∈ b) :
    akeyMem p.1 (List.foldl jsMerge x A) = true := by
  obtain ⟨s, t, rfl⟩ := List.append_of_mem hb
  rw [List.foldl_append, List.foldl_cons]
  exact foldMerge_keyMono t _ p.1
    (by rw [akeyMem_merge, akeyMem_of_mem p b hp]; simp)

/-- When all patch keys already occur in the base, a merge chain is a
single position-preserving override by the last-patch values. -/
theorem foldMerge_formula :
    ∀ (A : List (List (String × JVal))) (x : List (String × JVal)),
      (∀ b ∈ A, ∀ p ∈ b, akeyMem p.1 x = true) →
      List.foldl jsMerge x A =
        x.map (fun p => (p.1, (olast p.1 A).getD p.2)) := by
  intro A
  induction A with
  | nil =>
    intro x _
    show x = x.map (fun p => (p.1, ((none : Option JVal)).getD p.2))
    simp
  | cons b rest ih =>
    intro x hx
    rw [List.foldl_cons, jsMerge_collapse x b (hx b (List.mem_cons_self _ _)),
      ih _ (fun b' hb' p hp => by
        rw [akeyMem_ovr]
        exact hx b' (List.mem_cons_of_mem _ hb') p hp),
      List.map_map]
    apply List.map_congr_left
    intro p _
    show (p.1, (olast p.1 rest).getD ((alookup p.1 b).getD p.2)) =
      (p.1, (olast p.1 (b :: rest)).getD p.2)
    rw [show olast p.1 (b :: rest) =
      (match olast p.1 rest with
       | some u => some u
       | none => alookup p.1 b) from rfl]
    cases olast p.1 rest with
    | some u => rfl
    | none =>
      cases alookup p.1 b <;> rfl

/-- Every binding of a merge chain's result carries the last patch value
of its key, when each patch binds each of its keys to its first (and
only) value. -/
theorem foldMerge_olast :
    ∀ (A : List (List (String × JVal))),
      (∀ b ∈ A, ∀ p ∈ b, alookup p.1 b = some p.2) →
      ∀ (x : List (String × JVal)) (p : String × JVal),
        p ∈ List.foldl jsMerge x A →
        olast p.1 A = none ∨ olast p.1 A = some p.2 := by
  intro A
  induction A using List.reverseRecOn with
  | nil => intro _ x p _; exact Or.inl rfl
  | append_singleton A' b ih =>
    intro hA x p hp
    rw [List.foldl_append, List.foldl_cons, List.foldl_nil] at hp
    have holast : olast p.1 (A' ++ [b]) =
        match alookup p.1 b with
        | some u => some u
        | none => olast p.1 A' := by
      rw [olast_append]
      show (match (match (none : Option JVal) with
        | some u => some u
        | none => alookup p.1 b) with
        | some u => some u
        | none => olast p.1 A') = _
      cases alookup p.1 b <;> rfl
    unfold jsMerge at hp
    rcases List.mem_append.mp hp with hov | hfl
    · obtain ⟨q, hq, hqe⟩ := List.mem_map.mp hov
      rw [holast]
      have hk : q.1 = p.1 := by rw [← hqe]
      cases hb : alookup p.1 b with
      | some u =>
        right
        rw [← hqe]
        show some u = some ((alookup q.1 b).getD q.2)
        rw [hk, hb]
        rfl
      | none =>
        have hv : p.2 = q.2 := by
          rw [← hqe]
          show ((alookup q.1 b).getD q.2) = q.2
          rw [hk, hb]
          rfl
        rcases ih (fun b' hb' => hA b' (List.mem_append.mpr (Or.inl hb')))
            x q hq with h | h
        · left
          rw [← hk, h]
        · right
          rw [← hk, h, hv]
    · have hpb : p ∈ b := (List.mem_filter.mp hfl).1
      right
      rw [holast, hA b (List.mem_append.mpr (Or.inr (List.mem_singleton.mpr
        rfl))) p hpb]

/-- Re-applying a whole chain of canonical patches to its own result is a
no-op: the keys are all present and each is already carrying its key's
last patched value. -/
theorem foldMerge_absorb (A : List (List (String × JVal)))
    (w : List (String × JVal))
    (hA : ∀ b ∈ A, ∀ p ∈ b, alookup p.1 b = some p.2) :
    List.foldl jsMerge (List.foldl jsMerge w A) A =
      List.foldl jsMerge w A := by
  rw [foldMerge_formula A (List.foldl jsMerge w A)
    (fun b hb p hp => foldMerge_keys A w b hb p hp)]
  rw [List.map_congr_left (fun p hp => by
    rcases foldMerge_olast A hA w p hp with h | h
    · show (p.1, (olast p.1 A).getD p.2) = id p
      rw [h]
      rfl
    · show (p.1, (olast p.1 A).getD p.2) = id p
      rw [h]
      rfl)]
  exact List.map_id _

/-- The numeral writer appends its accumulator. -/
theorem toDigitsCore_acc (b : Nat) :
    ∀ (f n : Nat) (ds : List Char),
      Nat.toDigitsCore b f n ds = Nat.toDigitsCore b f n [] ++ ds := by
  intro f
  induction f with
  | zero => intro n ds; rfl
  | succ g ih =>
    intro n ds
    show (if n / b = 0 then Nat.digitChar (n % b) :: ds
        else Nat.toDigitsCore b g (n / b) (Nat.digitChar (n % b) :: ds)) =
      (if n / b = 0 then Nat.digitChar (n % b) :: ([] : List Char)
        else Nat.toDigitsCore b g (n / b) [Nat.digitChar (n % b)]) ++ ds
    by_cases h : n / b = 0
    · rw [if_pos h, if_pos h]
      rfl
    · rw [if_neg h, if_neg h, ih (n / b) (Nat.digitChar (n % b) :: ds),
        ih (n / b) [Nat.digitChar (n % b)], List.append_assoc]
      rfl

/-- With enough fuel the numeral writer emits the decimal digits, most
significant first. -/
theorem toDigitsCore_digits :
    ∀ (n : Nat), 0 < n → ∀ (f : Nat), n < f →
      Nat.toDigitsCore 10 f n [] =
        ((Nat.digits 10 n).map Nat.digitChar).reverse := by
  intro n
  induction n using Nat.strong_induction_on with
  | _ n ih =>
    intro hn f hf
    obtain ⟨g, rfl⟩ : ∃ g, f = g + 1 := ⟨f - 1, by omega⟩
    show (if n / 10 = 0 then [Nat.digitChar (n % 10)]
      else Nat.toDigitsCore 10 g (n / 10) [Nat.digitChar (n % 10)]) = _
    rw [Nat.digits_def' (by norm_num : (1 : Nat) < 10) hn]
    by_cases h : n / 10 = 0
    · rw [if_pos h, h, Nat.digits_zero]
      rfl
    · have hlt : n / 10 < n := Nat.div_lt_self hn (by norm_num)
      rw [if_neg h,
        toDigitsCore_acc 10 g (n / 10) [Nat.digitChar (n % 10)],
        ih (n / 10) hlt (Nat.pos_of_ne_zero h) g (by omega),
        List.map_cons, List.reverse_cons]

/-- The printed numeral of a positive number is its decimal digit
string. -/
theorem natRepr_digits (n : Nat) (hn : 0 < n) :
    Nat.repr n = (((Nat.digits 10 n).map Nat.digitChar).reverse).asString := by
  show (Nat.toDigits 10 n).asString = _
  unfold Nat.toDigits
  rw [toDigitsCore_digits n hn (n + 1) (Nat.lt_succ_self n)]

/-- Decimal digit characters identify decimal digits. -/
theorem digitChar_inj : ∀ a, a < 10 → ∀ c, c < 10 →
    Nat.digitChar a = Nat.digitChar c → a = c := by decide

/-- Mapping `digitChar` over digit lists is injective. -/
theorem digits_map_inj :
    ∀ (l1 l2 : List Nat), (∀ x ∈ l1, x < 10) → (∀ x ∈ l2, x < 10) →
      l1.map Nat.digitChar = l2.map Nat.digitChar → l1 = l2 := by
  intro l1
  induction l1 with
  | nil =>
    intro l2 _ _ h
    cases l2 with
    | nil => rfl
    | cons b t => exact absurd h (by simp)
  | cons a t ih =>
    intro l2 h1 h2 h
    cases l2 with
    | nil => exact absurd h (by simp)
    | cons b t2 =>
      simp only [List.map_cons, List.cons.injEq] at h
      rw [digitChar_inj a (h1 a (List.mem_cons_self _ _)) b
          (h2 b (List.mem_cons_self _ _)) h.1,
        ih t2 (fun x hx => h1 x (List.mem_cons_of_mem _ hx))
          (fun x hx => h2 x (List.mem_cons_of_mem _ hx)) h.2]

/-- A positive number never prints as `"0"`. -/
theorem natRepr_pos_ne_zero (n : Nat) (hn : 0 < n) :
    Nat.repr n ≠ Nat.repr 0 := by
  intro h
  rw [natRepr_digits n hn] at h
  have hL : ((Nat.digits 10 n).map Nat.digitChar).reverse = ['0'] :=
    congrArg String.data h
  have hL2 : (Nat.digits 10 n).map Nat.digitChar = ['0'] := by
    rw [← List.reverse_reverse ((Nat.digits 10 n).map Nat.digitChar), hL]
    rfl
  cases hd : Nat.digits 10 n with
  | nil =>
    rw [hd] at hL2
    exact absurd hL2 (by simp)
  | cons d ds =>
    rw [hd] at hL2
    simp only [List.map_cons, List.cons.injEq] at hL2
    obtain ⟨hd0, hds⟩ := hL2
    have hds' : ds = [] := by
      cases ds with
      | nil => rfl
      | cons x xs => exact absurd hds (by simp)
    have hdlt : d < 10 := Nat.digits_lt_base (by norm_num)
      (by rw [hd]; exact List.mem_cons_self _ _)
    have hd00 : d = 0 := digitChar_inj d hdlt 0 (by norm_num)
      (by rw [hd0]; rfl)
    have h0 := Nat.ofDigits_digits 10 n
    rw [hd, hds', hd00] at h0
    have : n = 0 := by simpa using h0.symm
    omega

/-- The decimal numeral printer is injective. -/
theorem natRepr_inj (m n : Nat) (h : Nat.repr m = Nat.repr n) : m = n := by
  rcases Nat.eq_zero_or_pos m with rfl | hm
  · rcases Nat.eq_zero_or_pos n with rfl | hn
    · rfl
    · exact absurd h.symm (natRepr_pos_ne_zero n hn)
  · rcases Nat.eq_zero_or_pos n with rfl | hn
    · exact absurd h (natRepr_pos_ne_zero m hm)
    · rw [natRepr_digits m hm, natRepr_digits n hn] at h
      have hrev : ((Nat.digits 10 m).map Nat.digitChar).reverse =
          ((Nat.digits 10 n).map Nat.digitChar).reverse :=
        congrArg String.data h
      have hmap := List.reverse_injective hrev
      have hdig := digits_map_inj _ _
        (fun x hx => Nat.digits_lt_base (by norm_num) hx)
        (fun x hx => Nat.digits_lt_base (by norm_num) hx) hmap
      have h1 := Nat.ofDigits_digits 10 m
      have h2 := Nat.ofDigits_digits 10 n
      rw [← h1, ← h2, hdig]

/-- Array spread keys (printed indices) are pairwise distinct. -/
theorem indexedFields_nodup (xs : List JVal) :
    ((indexedFields xs).map Prod.fst).Nodup := by
  unfold indexedFields
  rw [List.map_map,
    show ((List.range xs.length).zip xs).map
        (Prod.fst ∘ fun p => (toString p.1, p.2)) =
      (((List.range xs.length).zip xs).map Prod.fst).map toString from by
      rw [List.map_map]
      rfl,
    List.map_fst_zip _ _ (by simp)]
  exact List.Nodup.map (fun a c hac => natRepr_inj a c hac)
    (List.nodup_range _)

/-- In a list with pairwise distinct keys, every binding is what its key
looks up to. -/
theorem alookup_of_nodup :
    ∀ (l : List (String × JVal)), (l.map Prod.fst).Nodup →
      ∀ p ∈ l, alookup p.1 l = some p.2 := by
  intro l
  induction l with
  | nil => intro _ p hp; cases hp
  | cons q rest ih =>
    intro hnd p hp
    obtain ⟨k0, v0⟩ := q
    rw [List.map_cons, List.nodup_cons] at hnd
    rcases List.mem_cons.mp hp with rfl | hp'
    · show (if k0 = k0 then some v0 else _) = some v0
      rw [if_pos rfl]
    · show (if k0 = p.1 then some v0 else alookup p.1 rest) = some p.2
      rw [if_neg (fun hk => hnd.1
          (by rw [hk]; exact List.mem_map.mpr ⟨p, hp', rfl⟩)),
        ih hnd.2 p hp']

/-- Canonicalized object fields have pairwise distinct keys, none of them
already seen. -/
theorem canonAux_nodup :
    ∀ (l : List (String × JVal)) (seen : List String),
      (((canonAux seen l).map Prod.fst).Nodup) ∧
      (∀ k, k ∈ (canonAux seen l).map Prod.fst → ¬(k ∈ seen)) := by
  intro l
  induction l with
  | nil =>
    intro seen
    exact ⟨List.nodup_nil, fun k hk => absurd hk (List.not_mem_nil k)⟩
  | cons q rest ih =>
    intro seen
    obtain ⟨k0, v0⟩ := q
    rw [show canonAux seen ((k0, v0) :: rest) =
      (if seen.contains k0 then canonAux seen rest
       else (k0, (alookupLast k0 rest).getD v0) ::
         canonAux (k0 :: seen) rest) from rfl]
    by_cases h : seen.contains k0 = true
    · rw [if_pos h]
      exact ih seen
    · rw [if_neg h]
      refine ⟨?_, ?_⟩
      · rw [List.map_cons, List.nodup_cons]
        refine ⟨fun hk0 => ?_, (ih (k0 :: seen)).1⟩
        exact (ih (k0 :: seen)).2 k0 hk0 (List.mem_cons_self _ _)
      · intro k hk
        rw [List.map_cons] at hk
        rcases List.mem_cons.mp hk with rfl | hk'
        · intro hks
          exact h (List.elem_eq_true_of_mem hks)
        · intro hks
          exact (ih (k0 :: seen)).2 k hk' (List.mem_cons_of_mem _ hks)

/-- Canonical object fields have pairwise distinct keys. -/
theorem canonFields_nodup (l : List (String × JVal)) :
    ((canonFields l).map Prod.fst).Nodup := (canonAux_nodup l []).1

/-- Every spread source binds each of its keys to its first value. -/
theorem toObj_canon (j : JVal) :
    ∀ p ∈ toObj j, alookup p.1 (toObj j) = some p.2 := by
  cases j with
  | obj l => exact alookup_of_nodup _ (canonFields_nodup l)
  | arr xs => exact alookup_of_nodup _ (indexedFields_nodup xs)
  | str s => exact alookup_of_nodup _ (indexedFields_nodup _)
  | null => intro p hp; cases hp
  | bool b => intro p hp; cases hp
  | num q => intro p hp; cases hp

/-- Whitelisted room content binds each of its keys to its first
value. -/
theorem pickFields_canon (keys : List String) (j : JVal)
    (content : List (String × JVal)) (h : pickFields keys j = some content) :
    ∀ p ∈ content, alookup p.1 content = some p.2 := by
  cases j with
  | null => cases h
  | obj l =>
    have hc : content = (canonFields l).filter (fun p => keys.contains p.1) :=
      (Option.some.inj h).symm
    subst hc
    exact alookup_of_nodup _
      (List.Nodup.sublist (List.Sublist.map _ (List.filter_sublist _))
        (canonFields_nodup l))
  | bool b =>
    obtain rfl : ([] : List (String × JVal)) = content := Option.some.inj h
    intro p hp; cases hp
  | num q =>
    obtain rfl : ([] : List (String × JVal)) = content := Option.some.inj h
    intro p hp; cases hp
  | str s =>
    obtain rfl : ([] : List (String × JVal)) = content := Option.some.inj h
    intro p hp; cases hp
  | arr xs =>
    obtain rfl : ([] : List (String × JVal)) = content := Option.some.inj h
    intro p hp; cases hp

/-- `filterMap` over a cons splits as a singleton prefix. -/
theorem filterMap_cons_append {α β : Type} (f : α → Option β) (e : α)
    (l : List α) :
    List.filterMap f (e :: l) =
      List.filterMap f [e] ++ List.filterMap f l := by
  rw [List.filterMap_cons, List.filterMap_cons]
  cases f e <;> simp

/-- One people action, then the rest. -/
theorem pRun_cons (nowT : Int) (p : String) (s : Option Person) (ev : PEv)
    (rest : List PEv) :
    pRun nowT p s (ev :: rest) = pRun nowT p (pStep nowT p s ev) rest := rfl

/-- People actions replay in stages. -/
theorem pRun_append (nowT : Int) (p : String) (s : Option Person)
    (a b : List PEv) :
    pRun nowT p s (a ++ b) = pRun nowT p (pRun nowT p s a) b := by
  unfold pRun
  rw [List.foldl_append]

/-- The staleness conditions unfold one action at a time. -/
theorem pOk_cons (nowT : Int) (p : String) (s : Option Person) (ev : PEv)
    (rest : List PEv) :
    pOk nowT p s (ev :: rest) ↔
      ((match ev with
        | .c3 ets =>
          tsLt ets (s.bind (fun r => r.petnames_updated_at)) = true
        | _ => True) ∧ pOk nowT p (pStep nowT p s ev) rest) := Iff.rfl

/-- The staleness conditions split across concatenation. -/
theorem pOk_append (nowT : Int) (p : String) :
    ∀ (a b : List PEv) (s : Option Person),
      pOk nowT p s (a ++ b) ↔
        (pOk nowT p s a ∧ pOk nowT p (pRun nowT p s a) b) := by
  intro a
  induction a with
  | nil =>
    intro b s
    show pOk nowT p s b ↔ (True ∧ pOk nowT p s b)
    simp
  | cons ev rest ih =>
    intro b s
    rw [List.cons_append, pOk_cons nowT p s ev (rest ++ b),
      pOk_cons nowT p s ev rest, ih b (pStep nowT p s ev), pRun_cons,
      and_assoc]

/-- One room action, then the rest. -/
theorem rRun_cons (rid : String) (rs : Option Room) (ev : REv)
    (rest : List REv) :
    rRun rid rs (ev :: rest) = rRun rid (rStep rid rs ev) rest := rfl

/-- Room actions replay in stages. -/
theorem rRun_append (rid : String) (rs : Option Room) (a b : List REv) :
    rRun rid rs (a ++ b) = rRun rid (rRun rid rs a) b := by
  unfold rRun
  rw [List.foldl_append]

/-- One relay-timestamp action, then the rest. -/
theorem rlRun_cons (ts : Option Int) (ev : RlEv) (rest : List RlEv) :
    rlRun ts (ev :: rest) = rlRun (rlStep ts ev) rest := rfl

/-- Relay-timestamp actions replay in stages. -/
theorem rlRun_append (ts : Option Int) (a b : List RlEv) :
    rlRun ts (a ++ b) = rlRun (rlRun ts a) b := by
  unfold rlRun
  rw [List.foldl_append]

/-- The relay staleness conditions unfold one action at a time. -/
theorem rlOk_cons (ts : Option Int) (ev : RlEv) (rest : List RlEv) :
    rlOk ts (ev :: rest) ↔
      ((match ev with
        | .chk ets => tsLt ets ts = true
        | _ => True) ∧ rlOk (rlStep ts ev) rest) := Iff.rfl

/-- The relay staleness conditions split across concatenation. -/
theorem rlOk_append :
    ∀ (a b : List RlEv) (ts : Option Int),
      rlOk ts (a ++ b) ↔ (rlOk ts a ∧ rlOk (rlRun ts a) b) := by
  intro a
  induction a with
  | nil =>
    intro b ts
    show rlOk ts b ↔ (True ∧ rlOk ts b)
    simp
  | cons ev rest ih =>
    intro b ts
    rw [List.cons_append, rlOk_cons ts ev (rest ++ b), rlOk_cons ts ev rest,
      ih b (rlStep ts ev), rlRun_cons, and_assoc]

/-- The missing-first timestamp order is transitive. -/
theorem optIntLe_trans (a b c : Option Int) (hab : optIntLe a b)
    (hbc : optIntLe b c) : optIntLe a c := by
  cases a with
  | none => trivial
  | some x =>
    cases b with
    | none => exact absurd hab (by simp [optIntLe])
    | some y =>
      cases c with
      | none => exact absurd hbc (by simp [optIntLe])
      | some z => exact le_trans hab hbc

/-- A strict staleness comparison survives growing the stored
timestamp. -/
theorem tsLt_mono (t : Int) (a b : Option Int) (hab : optIntLe a b)
    (h : tsLt t a = true) : tsLt t b = true := by
  cases a with
  | none => cases h
  | some x =>
    cases b with
    | none => exact absurd hab (by simp [optIntLe])
    | some y =>
      simp only [tsLt, decide_eq_true_eq] at h ⊢
      exact lt_of_lt_of_le h hab

/-- Nothing is staler than its own timestamp. -/
theorem tsLt_irrefl (t : Int) : tsLt t (some t) = false := by
  simp [tsLt]

/-- A fresh comparison against a present timestamp bounds it. -/
theorem optIntLe_of_not_tsLt (t : Int) (T : Int)
    (h : tsLt t (some T) = false) : optIntLe (some T) (some t) := by
  simp only [tsLt, decide_eq_false_iff_not, not_lt] at h
  exact h

/-- A stale kind-0 action leaves the row alone. -/
theorem pStep_e0_skip (nowT : Int) (p : String) (s : Option Person)
    (ets : Int) (b : List (String × JVal))
    (h : tsLt ets (s.bind (fun r => r.kind0_updated_at)) = true) :
    pStep nowT p s (.e0 ets b) = s := by
  unfold pStep
  dsimp only
  rw [if_pos h]

/-- A fresh kind-0 action merges the patch and stamps the row. -/
theorem pStep_e0_apply (nowT : Int) (p : String) (s : Option Person)
    (ets : Int) (b : List (String × JVal))
    (h : tsLt ets (s.bind (fun r => r.kind0_updated_at)) = false) :
    ∃ r, pStep nowT p s (.e0 ets b) = some r ∧
      r.pubkey = p ∧ r.updated_at = nowT ∧
      r.kind0 = some (jsMerge (k0v s) b) ∧
      r.kind0_updated_at = some ets ∧
      r.petnames = petv s ∧
      r.petnames_updated_at = petts s ∧
      r.verified_as = s.bind (fun r0 => r0.verified_as) ∧
      r.lnurl = s.bind (fun r0 => r0.lnurl) ∧
      r.zapper = s.bind (fun r0 => r0.zapper) := by
  unfold pStep
  dsimp only
  rw [if_neg (by simp [h])]
  cases s with
  | none =>
    exact ⟨_, rfl, rfl, rfl, rfl, rfl, rfl, rfl, rfl, rfl, rfl⟩
  | some r0 =>
    exact ⟨_, rfl, rfl, rfl, rfl, rfl, rfl, rfl, rfl, rfl, rfl⟩

/-- A stale petnames action leaves the row alone. -/
theorem pStep_p3_skip (nowT : Int) (p : String) (s : Option Person)
    (ets : Int) (tags : List (List String))
    (h : tsLt ets (s.bind (fun r => r.petnames_updated_at)) = true) :
    pStep nowT p s (.p3 ets tags) = s := by
  unfold pStep
  dsimp only
  rw [if_pos h]

/-- A fresh petnames action replaces the list and stamps the row. -/
theorem pStep_p3_apply (nowT : Int) (p : String) (s : Option Person)
    (ets : Int) (tags : List (List String))
    (h : tsLt ets (s.bind (fun r => r.petnames_updated_at)) = false) :
    ∃ r, pStep nowT p s (.p3 ets tags) = some r ∧
      r.pubkey = p ∧ r.updated_at = nowT ∧
      r.kind0 = s.bind (fun r0 => r0.kind0) ∧
      r.kind0_updated_at = k0ts s ∧
      r.petnames = some (tags.filter (fun t => t.head? == some "p")) ∧
      r.petnames_updated_at = some ets ∧
      r.verified_as = s.bind (fun r0 => r0.verified_as) ∧
      r.lnurl = s.bind (fun r0 => r0.lnurl) ∧
      r.zapper = s.bind (fun r0 => r0.zapper) := by
  unfold pStep
  dsimp only
  rw [if_neg (by simp [h])]
  cases s with
  | none =>
    exact ⟨_, rfl, rfl, rfl, rfl, rfl, rfl, rfl, rfl, rfl, rfl⟩
  | some r0 =>
    exact ⟨_, rfl, rfl, rfl, rfl, rfl, rfl, rfl, rfl, rfl, rfl⟩

/-- An untagged kind-3 action never changes the row. -/
theorem pStep_c3 (nowT : Int) (p : String) (s : Option Person) (ets : Int) :
    pStep nowT p s (.c3 ets) = s := rfl

/-- A stale room action leaves the row alone. -/
theorem rStep_skip (rid : String) (rs : Option Room) (ev : REv)
    (h : tsLt ev.ets (rts rs) = true) : rStep rid rs ev = rs := by
  unfold rStep
  rw [if_pos (show tsLt ev.ets (rs.map (fun r => r.updated_at)) = true
    from h)]

/-- A fresh room action merges the content and stamps the row. -/
theorem rStep_apply (rid : String) (rs : Option Room) (ev : REv)
    (h : tsLt ev.ets (rts rs) = false) :
    rStep rid rs ev =
      some ⟨rid, ev.pubkey, ev.ets, jsMerge (rv rs) ev.content⟩ := by
  unfold rStep
  rw [if_neg (show ¬(tsLt ev.ets (rs.map (fun r => r.updated_at)) = true)
    from by simp [show tsLt ev.ets (rs.map (fun r => r.updated_at)) = false
      from h])]
  rfl

/-- Stepping never lowers either row timestamp. -/
theorem pStep_mono (nowT : Int) (p : String) (s : Option Person) (ev : PEv) :
    optIntLe (k0ts s) (k0ts (pStep nowT p s ev)) ∧
    optIntLe (petts s) (petts (pStep nowT p s ev)) := by
  cases ev with
  | e0 ets b =>
    by_cases h : tsLt ets (s.bind (fun r => r.kind0_updated_at)) = true
    · rw [pStep_e0_skip nowT p s ets b h]
      exact ⟨optIntLe_refl _, optIntLe_refl _⟩
    · obtain ⟨r, hr, _, _, _, hk0ts, _, hpetts, _, _, _⟩ :=
        pStep_e0_apply nowT p s ets b (by simpa using h)
      rw [hr]
      constructor
      · show optIntLe (k0ts s) r.kind0_updated_at
        rw [hk0ts]
        show optIntLe (s.bind (fun r0 => r0.kind0_updated_at)) (some ets)
        cases hs : s.bind (fun r0 => r0.kind0_updated_at) with
        | none => trivial
        | some T =>
          exact optIntLe_of_not_tsLt ets T (by rw [← hs]; simpa using h)
      · show optIntLe (petts s) r.petnames_updated_at
        rw [hpetts]
        exact optIntLe_refl _
  | p3 ets tags =>
    by_cases h : tsLt ets (s.bind (fun r => r.petnames_updated_at)) = true
    · rw [pStep_p3_skip nowT p s ets tags h]
      exact ⟨optIntLe_refl _, optIntLe_refl _⟩
    · obtain ⟨r, hr, _, _, _, hk0ts, _, hpetts, _, _, _⟩ :=
        pStep_p3_apply nowT p s ets tags (by simpa using h)
      rw [hr]
      constructor
      · show optIntLe (k0ts s) r.kind0_updated_at
        rw [hk0ts]
        exact optIntLe_refl _
      · show optIntLe (petts s) r.petnames_updated_at
        rw [hpetts]
        show optIntLe (s.bind (fun r0 => r0.petnames_updated_at)) (some ets)
        cases hs : s.bind (fun r0 => r0.petnames_updated_at) with
        | none => trivial
        | some T =>
          exact optIntLe_of_not_tsLt ets T (by rw [← hs]; simpa using h)
  | c3 ets => exact ⟨optIntLe_refl _, optIntLe_refl _⟩

/-- A whole replay never lowers either row timestamp. -/
theorem pRun_mono (nowT : Int) (p : String) :
    ∀ (evs : List PEv) (s : Option Person),
      optIntLe (k0ts s) (k0ts (pRun nowT p s evs)) ∧
      optIntLe (petts s) (petts (pRun nowT p s evs)) := by
  intro evs
  induction evs with
  | nil => intro s; exact ⟨optIntLe_refl _, optIntLe_refl _⟩
  | cons ev rest ih =>
    intro s
    rw [pRun_cons]
    exact ⟨optIntLe_trans _ _ _ (pStep_mono nowT p s ev).1 (ih _).1,
      optIntLe_trans _ _ _ (pStep_mono nowT p s ev).2 (ih _).2⟩

/-- A room step never lowers the room timestamp. -/
theorem rStep_mono (rid : String) (rs : Option Room) (ev : REv) :
    optIntLe (rts rs) (rts (rStep rid rs ev)) := by
  by_cases h : tsLt ev.ets (rts rs) = true
  · rw [rStep_skip rid rs ev h]
    exact optIntLe_refl _
  · rw [rStep_apply rid rs ev (by simpa using h)]
    show optIntLe (rts rs) (some ev.ets)
    cases hs : rts rs with
    | none => trivial
    | some T =>
      exact optIntLe_of_not_tsLt ev.ets T (by rw [← hs]; simpa using h)

/-- A whole room replay never lowers the room timestamp. -/
theorem rRun_mono (rid : String) :
    ∀ (evs : List REv) (rs : Option Room),
      optIntLe (rts rs) (rts (rRun rid rs evs)) := by
  intro evs
  induction evs with
  | nil => intro rs; exact optIntLe_refl _
  | cons ev rest ih =>
    intro rs
    rw [rRun_cons]
    exact optIntLe_trans _ _ _ (rStep_mono rid rs ev) (ih _)

/-- A relay-timestamp step never lowers the timestamp. -/
theorem rlStep_mono (ts : Option Int) (ev : RlEv) :
    optIntLe ts (rlStep ts ev) := by
  cases ev with
  | upd ets =>
    by_cases h : tsLt ets ts = true
    · show optIntLe ts (if tsLt ets ts = true then ts else some ets)
      rw [if_pos h]
      exact optIntLe_refl _
    · show optIntLe ts (if tsLt ets ts = true then ts else some ets)
      rw [if_neg h]
      cases ts with
      | none => trivial
      | some T => exact optIntLe_of_not_tsLt ets T (by simpa using h)
  | skip ets => exact optIntLe_refl _
  | chk ets => exact optIntLe_refl _

/-- A whole relay-timestamp replay never lowers the timestamp. -/
theorem rlRun_mono :
    ∀ (evs : List RlEv) (ts : Option Int), optIntLe ts (rlRun ts evs) := by
  intro evs
  induction evs with
  | nil => intro ts; exact optIntLe_refl _
  | cons ev rest ih =>
    intro ts
    rw [rlRun_cons]
    exact optIntLe_trans _ _ _ (rlStep_mono ts ev) (ih _)

/-- A successful staleness test bounds the compared timestamp. -/
theorem optIntLe_of_tsLt (t : Int) (x : Option Int)
    (h : tsLt t x = true) : optIntLe (some t) x := by
  cases x with
  | none => cases h
  | some T =>
    simp only [tsLt, decide_eq_true_eq] at h
    exact le_of_lt h

/-- A bounded timestamp other than the bound is strictly stale. -/
theorem tsLt_of_le_ne (t : Int) (x : Option Int)
    (hle : optIntLe (some t) x) (hne : ¬((some t : Option Int) = x)) :
    tsLt t x = true := by
  cases x with
  | none => exact absurd hle (by simp [optIntLe])
  | some T =>
    simp only [tsLt, decide_eq_true_eq]
    rcases lt_or_eq_of_le (show t ≤ T from hle) with h | h
    · exact h
    · exact absurd (by rw [h]) hne

/-- Selected kind-0 patches split across concatenation. -/
theorem atM0_append (a b : List PEv) (M : Option Int) :
    atM0 (a ++ b) M = atM0 a M ++ atM0 b M := by
  unfold atM0
  rw [List.filterMap_append]

/-- Selected petname patches split across concatenation. -/
theorem atMp_append (a b : List PEv) (M : Option Int) :
    atMp (a ++ b) M = atMp a M ++ atMp b M := by
  unfold atMp
  rw [List.filterMap_append]

/-- The kind-0 selection of a single kind-0 action. -/
theorem atM0_singleton_e0 (ets : Int) (b : List (String × JVal))
    (M : Option Int) :
    atM0 [.e0 ets b] M =
      if (some ets : Option Int) = M then [b] else [] := by
  unfold atM0
  by_cases h : (some ets : Option Int) = M
  · rw [if_pos h]
    simp only [List.filterMap_cons, List.filterMap_nil]
    rw [if_pos h]
  · rw [if_neg h]
    simp only [List.filterMap_cons, List.filterMap_nil]
    rw [if_neg h]

/-- Petname and untagged actions select no kind-0 patch. -/
theorem atM0_singleton_p3 (ets : Int) (tags : List (List String))
    (M : Option Int) : atM0 [.p3 ets tags] M = [] := rfl

/-- Untagged actions select no kind-0 patch. -/
theorem atM0_singleton_c3 (ets : Int) (M : Option Int) :
    atM0 [.c3 ets] M = [] := rfl

/-- The petname selection of a single petname action. -/
theorem atMp_singleton_p3 (ets : Int) (tags : List (List String))
    (M : Option Int) :
    atMp [.p3 ets tags] M =
      if (some ets : Option Int) = M then [tags] else [] := by
  unfold atMp
  by_cases h : (some ets : Option Int) = M
  · rw [if_pos h]
    simp only [List.filterMap_cons, List.filterMap_nil]
    rw [if_pos h]
  · rw [if_neg h]
    simp only [List.filterMap_cons, List.filterMap_nil]
    rw [if_neg h]

/-- Kind-0 actions select no petname patch. -/
theorem atMp_singleton_e0 (ets : Int) (b : List (String × JVal))
    (M : Option Int) : atMp [.e0 ets b] M = [] := rfl

/-- Untagged actions select no petname patch. -/
theorem atMp_singleton_c3 (ets : Int) (M : Option Int) :
    atMp [.c3 ets] M = [] := rfl

/-- No patch is selected at a timestamp no action carries. -/
theorem atM0_empty (evs : List PEv) (M : Option Int)
    (hM : ∀ ets b, PEv.e0 ets b ∈ evs → ¬((some ets : Option Int) = M)) :
    atM0 evs M = [] := by
  unfold atM0
  rw [List.filterMap_eq_nil]
  intro ev hev
  cases ev with
  | e0 ets b =>
    show (if (some ets : Option Int) = M then some b else none) = none
    rw [if_neg (hM ets b hev)]
  | p3 ets tags => rfl
  | c3 ets => rfl

/-- No petname patch is selected at a timestamp no action carries. -/
theorem atMp_empty (evs : List PEv) (M : Option Int)
    (hM : ∀ ets tags, PEv.p3 ets tags ∈ evs →
      ¬((some ets : Option Int) = M)) :
    atMp evs M = [] := by
  unfold atMp
  rw [List.filterMap_eq_nil]
  intro ev hev
  cases ev with
  | e0 ets b => rfl
  | p3 ets tags =>
    show (if (some ets : Option Int) = M then some tags else none) = none
    rw [if_neg (hM ets tags hev)]
  | c3 ets => rfl

/-- Selected kind-0 patches split off the head action. -/
theorem atM0_cons (ev : PEv) (rest : List PEv) (M : Option Int) :
    atM0 (ev :: rest) M = atM0 [ev] M ++ atM0 rest M := by
  unfold atM0
  exact filterMap_cons_append _ ev rest

/-- Selected petname patches split off the head action. -/
theorem atMp_cons (ev : PEv) (rest : List PEv) (M : Option Int) :
    atMp (ev :: rest) M = atMp [ev] M ++ atMp rest M := by
  unfold atMp
  exact filterMap_cons_append _ ev rest

/-- Pass-one shape of a people replay: the final timestamps bound every
action (strictly for the untagged ones, thanks to the staleness
conditions); the final kind-0 object is the merge chain of exactly the
final-timestamp patches over some base; the final petname list is the
last final-timestamp replacement; a final-timestamp action implies the
row was patched, stamping `pubkey` and `updated_at` and (for kind-0)
storing an object. -/
theorem pRun_decomp (nowT : Int) (p : String) :
    ∀ (evs : List PEv) (s : Option Person), pOk nowT p s evs →
      (∀ ets b, PEv.e0 ets b ∈ evs →
        optIntLe (some ets) (k0ts (pRun nowT p s evs))) ∧
      (∀ ets tags, PEv.p3 ets tags ∈ evs →
        optIntLe (some ets) (petts (pRun nowT p s evs))) ∧
      (∀ ets, PEv.c3 ets ∈ evs →
        tsLt ets (petts (pRun nowT p s evs)) = true) ∧
      (∃ w, k0v (pRun nowT p s evs) =
        List.foldl jsMerge w (atM0 evs (k0ts (pRun nowT p s evs)))) ∧
      (∀ tags,
        (atMp evs (petts (pRun nowT p s evs))).getLast? = some tags →
        petv (pRun nowT p s evs) =
          some (tags.filter (fun t => t.head? == some "p"))) ∧
      ((atM0 evs (k0ts (pRun nowT p s evs)) ≠ [] ∨
        atMp evs (petts (pRun nowT p s evs)) ≠ []) →
        ∃ r, pRun nowT p s evs = some r ∧ r.pubkey = p ∧
          r.updated_at = nowT) ∧
      (atM0 evs (k0ts (pRun nowT p s evs)) ≠ [] →
        ∃ v, (pRun nowT p s evs).bind (fun r => r.kind0) = some v) := by
  intro evs
  induction evs using List.reverseRecOn with
  | nil =>
    intro s _
    refine ⟨?_, ?_, ?_, ⟨k0v s, rfl⟩, ?_, ?_, ?_⟩
    · intro ets b hmem; cases hmem
    · intro ets tags hmem; cases hmem
    · intro ets hmem; cases hmem
    · intro tags htags; exact absurd htags (by simp [atMp])
    · intro hne; rcases hne with hne | hne <;> exact absurd rfl hne
    · intro hne; exact absurd rfl hne
  | append_singleton evs' ev ih =>
    intro s hok
    obtain ⟨hok', hgg⟩ := (pOk_append nowT p evs' [ev] s).mp hok
    obtain ⟨ha, hb, hc, hd, he, hf, hg0⟩ := ih s hok'
    rw [pOk_cons] at hgg
    have hP : pRun nowT p s (evs' ++ [ev]) =
        pStep nowT p (pRun nowT p s evs') ev := by
      rw [pRun_append]
      rfl
    rw [hP]
    cases ev with
    | c3 ets =>
      have hguard : tsLt ets (petts (pRun nowT p s evs')) = true := hgg.1
      rw [pStep_c3]
      rw [atM0_append, atM0_singleton_c3, List.append_nil,
        atMp_append, atMp_singleton_c3, List.append_nil]
      refine ⟨?_, ?_, ?_, hd, he, hf, hg0⟩
      · intro ets' b' hmem
        rcases List.mem_append.mp hmem with h | h
        · exact ha ets' b' h
        · exact PEv.noConfusion (List.mem_singleton.mp h)
      · intro ets' tags' hmem
        rcases List.mem_append.mp hmem with h | h
        · exact hb ets' tags' h
        · exact PEv.noConfusion (List.mem_singleton.mp h)
      · intro ets' hmem
        rcases List.mem_append.mp hmem with h | h
        · exact hc ets' h
        · have h2 := List.mem_singleton.mp h
          injection h2 with h3
          rw [h3]
          exact hguard
    | e0 ets b =>
      by_cases hts : tsLt ets (k0ts (pRun nowT p s evs')) = true
      · -- discarded as stale
        rw [pStep_e0_skip nowT p _ ets b hts]
        have hne : ¬((some ets : Option Int) =
            k0ts (pRun nowT p s evs')) := by
          intro heq
          rw [← heq, tsLt_irrefl] at hts
          cases hts
        rw [atM0_append, atM0_singleton_e0, if_neg hne, List.append_nil,
          atMp_append, atMp_singleton_e0, List.append_nil]
        refine ⟨?_, ?_, ?_, hd, he, hf, hg0⟩
        · intro ets' b' hmem
          rcases List.mem_append.mp hmem with h | h
          · exact ha ets' b' h
          · have h2 := List.mem_singleton.mp h
            injection h2 with h3 h4
            rw [h3]
            exact optIntLe_of_tsLt ets _ hts
        · intro ets' tags' hmem
          rcases List.mem_append.mp hmem with h | h
          · exact hb ets' tags' h
          · exact PEv.noConfusion (List.mem_singleton.mp h)
        · intro ets' hmem
          rcases List.mem_append.mp hmem with h | h
          · exact hc ets' h
          · exact PEv.noConfusion (List.mem_singleton.mp h)
      · -- folded in
        obtain ⟨r, hr, hrpub, hrupd, hrk0, hrk0ts, hrpet, hrpetts, hrver,
          hrln, hrzap⟩ := pStep_e0_apply nowT p _ ets b (by simpa using hts)
        rw [hr]
        have hkts : k0ts (some r) = some ets := hrk0ts
        have hpts : petts (some r) = petts (pRun nowT p s evs') := hrpetts
        have hk0v : k0v (some r) = jsMerge (k0v (pRun nowT p s evs')) b := by
          show (r.kind0).getD [] = _
          rw [hrk0]
          rfl
        have hpv : petv (some r) = petv (pRun nowT p s evs') := hrpet
        rw [hkts, hpts]
        have hA0 : atM0 (evs' ++ [.e0 ets b]) (some ets) =
            atM0 evs' (some ets) ++ [b] := by
          rw [atM0_append, atM0_singleton_e0, if_pos rfl]
        have hAp : atMp (evs' ++ [.e0 ets b])
            (petts (pRun nowT p s evs')) =
            atMp evs' (petts (pRun nowT p s evs')) := by
          rw [atMp_append, atMp_singleton_e0, List.append_nil]
        rw [hA0, hAp]
        have hbound : optIntLe (k0ts (pRun nowT p s evs')) (some ets) := by
          cases hk : k0ts (pRun nowT p s evs') with
          | none => trivial
          | some T =>
            exact optIntLe_of_not_tsLt ets T
              (by rw [← hk]; simpa using hts)
        refine ⟨?_, ?_, ?_, ?_, ?_, ?_, ?_⟩
        · intro ets' b' hmem
          rcases List.mem_append.mp hmem with h | h
          · exact optIntLe_trans _ _ _ (ha ets' b' h) hbound
          · have h2 := List.mem_singleton.mp h
            injection h2 with h3 h4
            rw [h3]
            exact le_refl _
        · intro ets' tags' hmem
          rcases List.mem_append.mp hmem with h | h
          · exact hb ets' tags' h
          · exact PEv.noConfusion (List.mem_singleton.mp h)
        · intro ets' hmem
          rcases List.mem_append.mp hmem with h | h
          · exact hc ets' h
          · exact PEv.noConfusion (List.mem_singleton.mp h)
        · by_cases heq : k0ts (pRun nowT p s evs') = (some ets : Option Int)
          · obtain ⟨w, hw⟩ := hd
            rw [heq] at hw
            refine ⟨w, ?_⟩
            rw [hk0v, List.foldl_append, hw]
            rfl
          · have hempty : atM0 evs' (some ets) = [] := by
              apply atM0_empty
              intro ets' b' hmem heqq
              have h5 := ha ets' b' hmem
              have h6 : ets' = ets := Option.some.inj heqq
              subst h6
              cases hk : k0ts (pRun nowT p s evs') with
              | none => rw [hk] at h5; exact h5
              | some T =>
                rw [hk] at h5 hbound
                exact heq (by rw [hk, le_antisymm hbound h5])
            refine ⟨k0v (pRun nowT p s evs'), ?_⟩
            rw [hempty, hk0v]
            rfl
        · intro tags' htags'
          rw [he tags' htags'] at hpv
          exact hpv
        · intro _
          exact ⟨r, rfl, hrpub, hrupd⟩
        · intro _
          refine ⟨jsMerge (k0v (pRun nowT p s evs')) b, ?_⟩
          show r.kind0 = _
          rw [hrk0]
    | p3 ets tags =>
      by_cases hts : tsLt ets (petts (pRun nowT p s evs')) = true
      · -- discarded as stale
        rw [pStep_p3_skip nowT p _ ets tags hts]
        have hne : ¬((some ets : Option Int) =
            petts (pRun nowT p s evs')) := by
          intro heq
          rw [← heq, tsLt_irrefl] at hts
          cases hts
        rw [atM0_append, atM0_singleton_p3, List.append_nil,
          atMp_append, atMp_singleton_p3, if_neg hne, List.append_nil]
        refine ⟨?_, ?_, ?_, hd, he, hf, hg0⟩
        · intro ets' b' hmem
          rcases List.mem_append.mp hmem with h | h
          · exact ha ets' b' h
          · exact PEv.noConfusion (List.mem_singleton.mp h)
        · intro ets' tags' hmem
          rcases List.mem_append.mp hmem with h | h
          · exact hb ets' tags' h
          · have h2 := List.mem_singleton.mp h
            injection h2 with h3 h4
            rw [h3]
            exact optIntLe_of_tsLt ets _ hts
        · intro ets' hmem
          rcases List.mem_append.mp hmem with h | h
          · exact hc ets' h
          · exact PEv.noConfusion (List.mem_singleton.mp h)
      · -- replaces the list
        obtain ⟨r, hr, hrpub, hrupd, hrk0, hrk0ts, hrpet, hrpetts, hrver,
          hrln, hrzap⟩ := pStep_p3_apply nowT p _ ets tags (by simpa using hts)
        rw [hr]
        have hkts : k0ts (some r) = k0ts (pRun nowT p s evs') := hrk0ts
        have hpts : petts (some r) = some ets := hrpetts
        have hk0f : (some r : Option Person).bind (fun r0 => r0.kind0) =
            (pRun nowT p s evs').bind (fun r0 => r0.kind0) := hrk0
        have hk0v : k0v (some r) = k0v (pRun nowT p s evs') := by
          show (r.kind0).getD [] = _
          rw [hrk0]
          rfl
        rw [hkts, hpts]
        have hA0 : atM0 (evs' ++ [.p3 ets tags])
            (k0ts (pRun nowT p s evs')) =
            atM0 evs' (k0ts (pRun nowT p s evs')) := by
          rw [atM0_append, atM0_singleton_p3, List.append_nil]
        have hAp : atMp (evs' ++ [.p3 ets tags]) (some ets) =
            atMp evs' (some ets) ++ [tags] := by
          rw [atMp_append, atMp_singleton_p3, if_pos rfl]
        rw [hA0, hAp]
        have hbound : optIntLe (petts (pRun nowT p s evs')) (some ets) := by
          cases hk : petts (pRun nowT p s evs') with
          | none => trivial
          | some T =>
            exact optIntLe_of_not_tsLt ets T
              (by rw [← hk]; simpa using hts)
        refine ⟨?_, ?_, ?_, ?_, ?_, ?_, ?_⟩
        · intro ets' b' hmem
          rcases List.mem_append.mp hmem with h | h
          · exact ha ets' b' h
          · exact PEv.noConfusion (List.mem_singleton.mp h)
        · intro ets' tags' hmem
          rcases List.mem_append.mp hmem with h | h
          · exact optIntLe_trans _ _ _ (hb ets' tags' h) hbound
          · have h2 := List.mem_singleton.mp h
            injection h2 with h3 h4
            rw [h3]
            exact le_refl _
        · intro ets' hmem
          rcases List.mem_append.mp hmem with h | h
          · exact tsLt_mono ets' _ _ hbound (hc ets' h)
          · exact PEv.noConfusion (List.mem_singleton.mp h)
        · obtain ⟨w, hw⟩ := hd
          refine ⟨w, ?_⟩
          rw [hk0v, hw]
        · intro tags' htags'
          rw [List.getLast?_concat] at htags'
          obtain rfl := Option.some.inj htags'
          exact hrpet
        · intro _
          exact ⟨r, rfl, hrpub, hrupd⟩
        · intro hne
          obtain ⟨v, hv⟩ := hg0 hne
          refine ⟨v, ?_⟩
          rw [hk0f]
          exact hv

/-- Pass-two characterization of a people replay: from any row that is
close to the pass-one result, carries its timestamps, and whose pending
patches complete to the pass-one values, replaying the same actions lands
exactly on the pass-one row, without tripping any staleness condition. -/
theorem pRun_pass2 (nowT : Int) (p : String) :
    ∀ (evs : List PEv) (P τ : Option Person),
      k0ts τ = k0ts P → petts τ = petts P →
      PClose nowT p τ P →
      (∀ ets b, PEv.e0 ets b ∈ evs → optIntLe (some ets) (k0ts P)) →
      (∀ ets tags, PEv.p3 ets tags ∈ evs →
        optIntLe (some ets) (petts P)) →
      (∀ ets, PEv.c3 ets ∈ evs → tsLt ets (petts P) = true) →
      List.foldl jsMerge (k0v τ) (atM0 evs (k0ts P)) = k0v P →
      (atM0 evs (k0ts P) = [] →
        τ.bind (fun r => r.kind0) = P.bind (fun r => r.kind0)) →
      (match (atMp evs (petts P)).getLast? with
       | some tags =>
         petv P = some (tags.filter (fun t => t.head? == some "p"))
       | none => petv τ = petv P) →
      ((atM0 evs (k0ts P) ≠ [] ∨ atMp evs (petts P) ≠ []) →
        ∃ r, P = some r ∧ r.pubkey = p ∧ r.updated_at = nowT) →
      (atM0 evs (k0ts P) ≠ [] →
        ∃ v, P.bind (fun r => r.kind0) = some v) →
      pRun nowT p τ evs = P ∧ pOk nowT p τ evs := by
  intro evs
  induction evs with
  | nil =>
    intro P τ hts0 htsp hclose hb0 hbp hbc hfold hfold0 hpet hform hsome0
    refine ⟨?_, trivial⟩
    show τ = P
    rcases hclose with rfl | ⟨rτ, rP, hτeq, hPeq, h1, h2, h3, h4, h5, h6,
      h7, h8, h9⟩
    · rfl
    · subst hτeq
      subst hPeq
      have hk0 : rτ.kind0 = rP.kind0 := hfold0 rfl
      have hpn : rτ.petnames = rP.petnames := hpet
      rw [Option.some.injEq]
      obtain ⟨a1, a2, a3, a4, a5, a6, a7, a8, a9⟩ := rτ
      obtain ⟨b1, b2, b3, b4, b5, b6, b7, b8, b9⟩ := rP
      simp_all
  | cons ev rest ih =>
    intro P τ hts0 htsp hclose hb0 hbp hbc hfold hfold0 hpet hform hsome0
    cases ev with
    | c3 ets =>
      have hguard : tsLt ets
          (τ.bind (fun r => r.petnames_updated_at)) = true := by
        show tsLt ets (petts τ) = true
        rw [htsp]
        exact hbc ets (List.mem_cons_self _ _)
      have hA0 : atM0 (PEv.c3 ets :: rest) (k0ts P) =
          atM0 rest (k0ts P) := by
        rw [atM0_cons, atM0_singleton_c3]
        rfl
      have hAp : atMp (PEv.c3 ets :: rest) (petts P) =
          atMp rest (petts P) := by
        rw [atMp_cons, atMp_singleton_c3]
        rfl
      rw [hA0] at hfold hfold0 hform hsome0
      rw [hAp] at hpet hform
      have hres := ih P τ hts0 htsp hclose
        (fun ets' b' h => hb0 ets' b' (List.mem_cons_of_mem _ h))
        (fun ets' tags' h => hbp ets' tags' (List.mem_cons_of_mem _ h))
        (fun ets' h => hbc ets' (List.mem_cons_of_mem _ h))
        hfold hfold0 hpet hform hsome0
      refine ⟨?_, (pOk_cons nowT p τ _ rest).mpr ⟨hguard, ?_⟩⟩
      · rw [pRun_cons, pStep_c3]
        exact hres.1
      · rw [pStep_c3]
        exact hres.2
    | e0 ets b =>
      by_cases hat : (some ets : Option Int) = k0ts P
      · -- replayed at the final timestamp: the patch folds in again
        have hstep : tsLt ets
            (τ.bind (fun r => r.kind0_updated_at)) = false := by
          show tsLt ets (k0ts τ) = false
          rw [hts0, ← hat]
          exact tsLt_irrefl ets
        obtain ⟨r', hr', hpub', hupd', hk0', hk0ts', hpet', hpetts',
          hver', hln', hzap'⟩ := pStep_e0_apply nowT p τ ets b hstep
        have hA0 : atM0 (PEv.e0 ets b :: rest) (k0ts P) =
            b :: atM0 rest (k0ts P) := by
          rw [atM0_cons, atM0_singleton_e0, if_pos hat]
          rfl
        have hAp : atMp (PEv.e0 ets b :: rest) (petts P) =
            atMp rest (petts P) := by
          rw [atMp_cons, atMp_singleton_e0]
          rfl
        rw [hA0] at hfold hsome0
        rw [hAp] at hpet
        obtain ⟨rP, hPeq, hPpub, hPupd⟩ :=
          hform (Or.inl (by rw [hA0]; simp))
        obtain ⟨v, hv⟩ := hsome0 (by simp)
        have hrPk : rP.kind0_updated_at = some ets := by
          have h10 : k0ts P = some ets := hat.symm
          rw [hPeq] at h10
          exact h10
        have hrPp : rP.petnames_updated_at = petts P := by
          rw [hPeq]
          rfl
        have hextra :
            τ.bind (fun r0 => r0.verified_as) = rP.verified_as ∧
            τ.bind (fun r0 => r0.lnurl) = rP.lnurl ∧
            τ.bind (fun r0 => r0.zapper) = rP.zapper := by
          rcases hclose with rfl | ⟨rτ, rP2, hτeq, hPeq2, _, _, _, _, _, _,
            hv7, hv8, hv9⟩
          · rw [hPeq]
            exact ⟨rfl, rfl, rfl⟩
          · obtain rfl : rP2 = rP := by
              rw [hPeq] at hPeq2
              exact (Option.some.inj hPeq2).symm
            rw [hτeq]
            exact ⟨hv7, hv8, hv9⟩
        have hts0' : k0ts (some r') = k0ts P := by
          show r'.kind0_updated_at = _
          rw [hk0ts', hat]
        have htsp' : petts (some r') = petts P := by
          show r'.petnames_updated_at = _
          rw [hpetts']
          exact htsp
        have hclose' : PClose nowT p (some r') P := by
          refine Or.inr ⟨r', rP, rfl, hPeq, hpub', hPpub, hupd', hPupd,
            ?_, ?_, ?_, ?_, ?_⟩
          · rw [hk0ts', hrPk]
          · rw [hpetts', hrPp]
            exact htsp
          · rw [hver', hextra.1]
          · rw [hln', hextra.2.1]
          · rw [hzap', hextra.2.2]
        have hfold' : List.foldl jsMerge (k0v (some r'))
            (atM0 rest (k0ts P)) = k0v P := by
          have hk0v' : k0v (some r') = jsMerge (k0v τ) b := by
            show (r'.kind0).getD [] = _
            rw [hk0']
            rfl
          rw [hk0v']
          rw [List.foldl_cons] at hfold
          exact hfold
        have hfold0' : atM0 rest (k0ts P) = [] →
            (some r' : Option Person).bind (fun r0 => r0.kind0) =
              P.bind (fun r0 => r0.kind0) := by
          intro hrest
          rw [hrest, List.foldl_nil] at hfold'
          have hk0some : P.bind (fun r0 => r0.kind0) = some (k0v P) := by
            rw [hv]
            show some v = some ((P.bind (fun r0 => r0.kind0)).getD [])
            rw [hv]
            rfl
          show r'.kind0 = _
          rw [hk0', hk0some]
          rw [show jsMerge (k0v τ) b = k0v (some r') from by
            show _ = (r'.kind0).getD []
            rw [hk0']
            rfl]
          rw [hfold']
        have hpet2 : match (atMp rest (petts P)).getLast? with
            | some tags =>
              petv P = some (tags.filter (fun t => t.head? == some "p"))
            | none => petv (some r') = petv P := by
          cases hl : (atMp rest (petts P)).getLast? with
          | some tags =>
            rw [hl] at hpet
            exact hpet
          | none =>
            rw [hl] at hpet
            show petv (some r') = petv P
            rw [show petv (some r') = petv τ from hpet']
            exact hpet
        have hres := ih P (some r') hts0' htsp' hclose'
          (fun ets' b' h => hb0 ets' b' (List.mem_cons_of_mem _ h))
          (fun ets' tags' h => hbp ets' tags' (List.mem_cons_of_mem _ h))
          (fun ets' h => hbc ets' (List.mem_cons_of_mem _ h))
          hfold' hfold0' hpet2
          (fun _ => ⟨rP, hPeq, hPpub, hPupd⟩)
          (fun _ => ⟨v, hv⟩)
        refine ⟨?_, (pOk_cons nowT p τ _ rest).mpr ⟨trivial, ?_⟩⟩
        · rw [pRun_cons, hr']
          exact hres.1
        · rw [hr']
          exact hres.2
      · -- replayed below the final timestamp: discarded as stale
        have hstep : tsLt ets
            (τ.bind (fun r => r.kind0_updated_at)) = true := by
          show tsLt ets (k0ts τ) = true
          rw [hts0]
          exact tsLt_of_le_ne ets _ (hb0 ets b (List.mem_cons_self _ _)) hat
        have hA0 : atM0 (PEv.e0 ets b :: rest) (k0ts P) =
            atM0 rest (k0ts P) := by
          rw [atM0_cons, atM0_singleton_e0, if_neg hat]
          rfl
        have hAp : atMp (PEv.e0 ets b :: rest) (petts P) =
            atMp rest (petts P) := by
          rw [atMp_cons, atMp_singleton_e0]
          rfl
        rw [hA0] at hfold hfold0 hform hsome0
        rw [hAp] at hpet hform
        have hres := ih P τ hts0 htsp hclose
          (fun ets' b' h => hb0 ets' b' (List.mem_cons_of_mem _ h))
          (fun ets' tags' h => hbp ets' tags' (List.mem_cons_of_mem _ h))
          (fun ets' h => hbc ets' (List.mem_cons_of_mem _ h))
          hfold hfold0 hpet hform hsome0
        refine ⟨?_, (pOk_cons nowT p τ _ rest).mpr ⟨trivial, ?_⟩⟩
        · rw [pRun_cons, pStep_e0_skip nowT p τ ets b hstep]
          exact hres.1
        · rw [pStep_e0_skip nowT p τ ets b hstep]
          exact hres.2
    | p3 ets tags =>
      by_cases hat : (some ets : Option Int) = petts P
      · -- replayed at the final timestamp: the list is replaced again
        have hstep : tsLt ets
            (τ.bind (fun r => r.petnames_updated_at)) = false := by
          show tsLt ets (petts τ) = false
          rw [htsp, ← hat]
          exact tsLt_irrefl ets
        obtain ⟨r', hr', hpub', hupd', hk0', hk0ts', hpet', hpetts',
          hver', hln', hzap'⟩ := pStep_p3_apply nowT p τ ets tags hstep
        have hA0 : atM0 (PEv.p3 ets tags :: rest) (k0ts P) =
            atM0 rest (k0ts P) := by
          rw [atM0_cons, atM0_singleton_p3]
          rfl
        have hAp : atMp (PEv.p3 ets tags :: rest) (petts P) =
            tags :: atMp rest (petts P) := by
          rw [atMp_cons, atMp_singleton_p3, if_pos hat]
          rfl
        rw [hA0] at hfold hfold0 hsome0
        rw [hAp] at hpet
        obtain ⟨rP, hPeq, hPpub, hPupd⟩ :=
          hform (Or.inr (by rw [hAp]; simp))
        have hrPk : rP.kind0_updated_at = k0ts P := by
          rw [hPeq]
          rfl
        have hrPp : rP.petnames_updated_at = some ets := by
          have h10 : petts P = some ets := hat.symm
          rw [hPeq] at h10
          exact h10
        have hextra :
            τ.bind (fun r0 => r0.verified_as) = rP.verified_as ∧
            τ.bind (fun r0 => r0.lnurl) = rP.lnurl ∧
            τ.bind (fun r0 => r0.zapper) = rP.zapper := by
          rcases hclose with rfl | ⟨rτ, rP2, hτeq, hPeq2, _, _, _, _, _, _,
            hv7, hv8, hv9⟩
          · rw [hPeq]
            exact ⟨rfl, rfl, rfl⟩
          · obtain rfl : rP2 = rP := by
              rw [hPeq] at hPeq2
              exact (Option.some.inj hPeq2).symm
            rw [hτeq]
            exact ⟨hv7, hv8, hv9⟩
        have hts0' : k0ts (some r') = k0ts P := by
          show r'.kind0_updated_at = _
          rw [hk0ts']
          exact hts0
        have htsp' : petts (some r') = petts P := by
          show r'.petnames_updated_at = _
          rw [hpetts', hat]
        have hclose' : PClose nowT p (some r') P := by
          refine Or.inr ⟨r', rP, rfl, hPeq, hpub', hPpub, hupd', hPupd,
            ?_, ?_, ?_, ?_, ?_⟩
          · rw [hk0ts', hrPk]
            exact hts0
          · rw [hpetts', hrPp]
          · rw [hver', hextra.1]
          · rw [hln', hextra.2.1]
          · rw [hzap', hextra.2.2]
        have hk0vpres : k0v (some r') = k0v τ := by
          show (r'.kind0).getD [] = _
          rw [hk0']
          rfl
        have hfold' : List.foldl jsMerge (k0v (some r'))
            (atM0 rest (k0ts P)) = k0v P := by
          rw [hk0vpres]
          exact hfold
        have hfold0' : atM0 rest (k0ts P) = [] →
            (some r' : Option Person).bind (fun r0 => r0.kind0) =
              P.bind (fun r0 => r0.kind0) := by
          intro hrest
          show r'.kind0 = _
          rw [hk0']
          exact hfold0 hrest
        have hpet2 : match (atMp rest (petts P)).getLast? with
            | some tags' =>
              petv P = some (tags'.filter (fun t => t.head? == some "p"))
            | none => petv (some r') = petv P := by
          cases hl : (atMp rest (petts P)).getLast? with
          | some tags' =>
            cases hrest : atMp rest (petts P) with
            | nil => rw [hrest] at hl; cases hl
            | cons y ys =>
              rw [hrest] at hpet
              rw [show ((tags :: y :: ys).getLast? = (y :: ys).getLast?)
                from List.getLast?_cons_cons, ← hrest, hl] at hpet
              exact hpet
          | none =>
            have hrest : atMp rest (petts P) = [] := by
              cases hrest : atMp rest (petts P) with
              | nil => rfl
              | cons y ys =>
                rw [hrest] at hl
                exact absurd hl (by simp)
            rw [hrest] at hpet
            show petv (some r') = petv P
            rw [show petv (some r') =
              some (tags.filter (fun t => t.head? == some "p"))
              from hpet']
            exact hpet.symm
        have hres := ih P (some r') hts0' htsp' hclose'
          (fun ets' b' h => hb0 ets' b' (List.mem_cons_of_mem _ h))
          (fun ets' tags' h => hbp ets' tags' (List.mem_cons_of_mem _ h))
          (fun ets' h => hbc ets' (List.mem_cons_of_mem _ h))
          hfold' hfold0' hpet2
          (fun _ => ⟨rP, hPeq, hPpub, hPupd⟩) hsome0
        refine ⟨?_, (pOk_cons nowT p τ _ rest).mpr ⟨trivial, ?_⟩⟩
        · rw [pRun_cons, hr']
          exact hres.1
        · rw [hr']
          exact hres.2
      · -- replayed below the final timestamp: discarded as stale
        have hstep : tsLt ets
            (τ.bind (fun r => r.petnames_updated_at)) = true := by
          show tsLt ets (petts τ) = true
          rw [htsp]
          exact tsLt_of_le_ne ets _
            (hbp ets tags (List.mem_cons_self _ _)) hat
        have hA0 : atM0 (PEv.p3 ets tags :: rest) (k0ts P) =
            atM0 rest (k0ts P) := by
          rw [atM0_cons, atM0_singleton_p3]
          rfl
        have hAp : atMp (PEv.p3 ets tags :: rest) (petts P) =
            atMp rest (petts P) := by
          rw [atMp_cons, atMp_singleton_p3, if_neg hat]
          rfl
        rw [hA0] at hfold hfold0 hform hsome0
        rw [hAp] at hpet hform
        have hres := ih P τ hts0 htsp hclose
          (fun ets' b' h => hb0 ets' b' (List.mem_cons_of_mem _ h))
          (fun ets' tags' h => hbp ets' tags' (List.mem_cons_of_mem _ h))
          (fun ets' h => hbc ets' (List.mem_cons_of_mem _ h))
          hfold hfold0 hpet hform hsome0
        refine ⟨?_, (pOk_cons nowT p τ _ rest).mpr ⟨trivial, ?_⟩⟩
        · rw [pRun_cons, pStep_p3_skip nowT p τ ets tags hstep]
          exact hres.1
        · rw [pStep_p3_skip nowT p τ ets tags hstep]
          exact hres.2

/-- Replaying a people row's own action list over its final state is a
no-op and never throws, provided the first pass did not throw and every
kind-0 patch binds each key to its last value. -/
theorem pReplay (nowT : Int) (p : String) (s : Option Person)
    (evs : List PEv) (hok : pOk nowT p s evs)
    (hcanon : ∀ ets b, PEv.e0 ets b ∈ evs →
      ∀ q ∈ b, alookup q.1 b = some q.2) :
    pRun nowT p (pRun nowT p s evs) evs = pRun nowT p s evs ∧
    pOk nowT p (pRun nowT p s evs) evs := by
  obtain ⟨hb0, hbp, hbc, ⟨w, hw⟩, hlast, hform, hsome0⟩ :=
    pRun_decomp nowT p evs s hok
  have hA : ∀ b ∈ atM0 evs (k0ts (pRun nowT p s evs)),
      ∀ q ∈ b, alookup q.1 b = some q.2 := by
    intro b hb
    simp only [atM0, List.mem_filterMap] at hb
    obtain ⟨ev, hev, hevb⟩ := hb
    cases ev with
    | e0 ets b' =>
      dsimp only at hevb
      by_cases hc :
          (some ets : Option Int) = k0ts (pRun nowT p s evs)
      · rw [if_pos hc] at hevb
        obtain rfl := Option.some.inj hevb
        exact hcanon ets b' hev
      · rw [if_neg hc] at hevb
        cases hevb
    | p3 ets tags => cases hevb
    | c3 ets => cases hevb
  have hfold : List.foldl jsMerge (k0v (pRun nowT p s evs))
      (atM0 evs (k0ts (pRun nowT p s evs))) = k0v (pRun nowT p s evs) := by
    rw [hw]
    exact foldMerge_absorb _ w hA
  have hpetm : (match (atMp evs (petts (pRun nowT p s evs))).getLast? with
      | some tags => petv (pRun nowT p s evs) =
          some (tags.filter (fun t => t.head? == some "p"))
      | none => petv (pRun nowT p s evs) = petv (pRun nowT p s evs)) := by
    cases hl : (atMp evs (petts (pRun nowT p s evs))).getLast? with
    | some tags => exact hlast tags hl
    | none => rfl
  exact pRun_pass2 nowT p evs (pRun nowT p s evs) (pRun nowT p s evs)
    rfl rfl (Or.inl rfl) hb0 hbp hbc hfold (fun _ => rfl) hpetm hform hsome0

/-- Selected room actions split across concatenation. -/
theorem ratM_append (a b : List REv) (M : Option Int) :
    ratM (a ++ b) M = ratM a M ++ ratM b M := by
  unfold ratM
  rw [List.filterMap_append]

/-- The room selection of a single action. -/
theorem ratM_singleton (ev : REv) (M : Option Int) :
    ratM [ev] M =
      if (some ev.ets : Option Int) = M then [(ev.pubkey, ev.content)]
      else [] := by
  unfold ratM
  by_cases h : (some ev.ets : Option Int) = M
  · rw [if_pos h]
    simp only [List.filterMap_cons, List.filterMap_nil]
    rw [if_pos h]
  · rw [if_neg h]
    simp only [List.filterMap_cons, List.filterMap_nil]
    rw [if_neg h]

/-- Selected room actions split off the head action. -/
theorem ratM_cons (ev : REv) (rest : List REv) (M : Option Int) :
    ratM (ev :: rest) M = ratM [ev] M ++ ratM rest M := by
  unfold ratM
  exact filterMap_cons_append _ ev rest

/-- No room action is selected at a timestamp no action carries. -/
theorem ratM_empty (evs : List REv) (M : Option Int)
    (hM : ∀ ev ∈ evs, ¬((some ev.ets : Option Int) = M)) :
    ratM evs M = [] := by
  unfold ratM
  rw [List.filterMap_eq_nil]
  intro ev hev
  rw [if_neg (hM ev hev)]

/-- Pass-one shape of a room replay: the final timestamp bounds every
action, the stored attributes are a merge fold of the patches carried at
the final timestamp, the last such action names the stored pubkey, and
any such action forces the row to exist under the replayed id. -/
theorem rRun_decomp (rid : String) :
    ∀ (evs : List REv) (s : Option Room),
      (∀ ev ∈ evs, optIntLe (some ev.ets) (rts (rRun rid s evs))) ∧
      (∃ w, rv (rRun rid s evs) =
        List.foldl jsMerge w
          ((ratM evs (rts (rRun rid s evs))).map Prod.snd)) ∧
      (∀ pr, (ratM evs (rts (rRun rid s evs))).getLast? = some pr →
        ∃ r, rRun rid s evs = some r ∧ r.pubkey = pr.1) ∧
      (ratM evs (rts (rRun rid s evs)) ≠ [] →
        ∃ r, rRun rid s evs = some r ∧ r.id = rid) := by
  intro evs
  induction evs using List.reverseRecOn with
  | nil =>
    intro s
    refine ⟨?_, ⟨rv s, rfl⟩, ?_, ?_⟩
    · intro ev hmem; cases hmem
    · intro pr hpr; exact absurd hpr (by simp [ratM])
    · intro hne; exact absurd rfl hne
  | append_singleton evs' ev ih =>
    intro s
    obtain ⟨ha, ⟨w, hw⟩, hlast, hform⟩ := ih s
    have hR : rRun rid s (evs' ++ [ev]) =
        rStep rid (rRun rid s evs') ev := by
      rw [rRun_append]
      rfl
    rw [hR]
    by_cases hts : tsLt ev.ets (rts (rRun rid s evs')) = true
    · -- discarded as stale
      rw [rStep_skip rid _ ev hts]
      have hne : ¬((some ev.ets : Option Int) =
          rts (rRun rid s evs')) := by
        intro heq
        rw [← heq, tsLt_irrefl] at hts
        cases hts
      rw [ratM_append, ratM_singleton, if_neg hne, List.append_nil]
      refine ⟨?_, ⟨w, hw⟩, hlast, hform⟩
      intro ev' hmem
      rcases List.mem_append.mp hmem with h | h
      · exact ha ev' h
      · rw [List.mem_singleton.mp h]
        exact optIntLe_of_tsLt ev.ets _ hts
    · -- folded in
      obtain ⟨row, hr, hrid, hrpub, hrupd, hrattrs⟩ :
          ∃ row, rStep rid (rRun rid s evs') ev = some row ∧
            row.id = rid ∧ row.pubkey = ev.pubkey ∧
            row.updated_at = ev.ets ∧
            row.attrs = jsMerge (rv (rRun rid s evs')) ev.content :=
        ⟨_, rStep_apply rid _ ev (by simpa using hts), rfl, rfl, rfl, rfl⟩
      rw [hr]
      have hkts : rts (some row) = some ev.ets := by
        show some row.updated_at = _
        rw [hrupd]
      have hrvrow : rv (some row) =
          jsMerge (rv (rRun rid s evs')) ev.content := by
        show row.attrs = _
        rw [hrattrs]
      rw [hkts]
      have hA : ratM (evs' ++ [ev]) (some ev.ets) =
          ratM evs' (some ev.ets) ++ [(ev.pubkey, ev.content)] := by
        rw [ratM_append, ratM_singleton, if_pos rfl]
      rw [hA]
      have hbound : optIntLe (rts (rRun rid s evs')) (some ev.ets) := by
        cases hk : rts (rRun rid s evs') with
        | none => trivial
        | some T =>
          exact optIntLe_of_not_tsLt ev.ets T
            (by rw [← hk]; simpa using hts)
      refine ⟨?_, ?_, ?_, ?_⟩
      · intro ev' hmem
        rcases List.mem_append.mp hmem with h | h
        · exact optIntLe_trans _ _ _ (ha ev' h) hbound
        · rw [List.mem_singleton.mp h]
          exact le_refl _
      · by_cases heq : rts (rRun rid s evs') = (some ev.ets : Option Int)
        · rw [heq] at hw
          refine ⟨w, ?_⟩
          rw [hrvrow, List.map_append, List.foldl_append, hw]
          rfl
        · have hempty : ratM evs' (some ev.ets) = [] := by
            apply ratM_empty
            intro ev' hmem heqq
            have h5 := ha ev' hmem
            have h6 : ev'.ets = ev.ets := Option.some.inj heqq
            rw [h6] at h5
            cases hk : rts (rRun rid s evs') with
            | none => rw [hk] at h5; exact h5
            | some T =>
              rw [hk] at h5 hbound
              exact heq (by rw [hk, le_antisymm hbound h5])
          refine ⟨rv (rRun rid s evs'), ?_⟩
          rw [hempty, hrvrow]
          rfl
      · intro pr hpr
        rw [List.getLast?_concat] at hpr
        obtain rfl := Option.some.inj hpr
        exact ⟨row, rfl, hrpub⟩
      · intro _
        exact ⟨row, rfl, hrid⟩

/-- Pass-two characterization of a room replay: from any row close to
the pass-one result that carries its timestamp and whose pending patches
complete to the pass-one values, replaying the same actions lands
exactly on the pass-one row. -/
theorem rRun_pass2 (rid : String) :
    ∀ (evs : List REv) (R τ : Option Room),
      rts τ = rts R →
      RClose rid τ R →
      (∀ ev ∈ evs, optIntLe (some ev.ets) (rts R)) →
      List.foldl jsMerge (rv τ) ((ratM evs (rts R)).map Prod.snd) =
        rv R →
      (match (ratM evs (rts R)).getLast? with
       | some pr => ∃ r, R = some r ∧ r.pubkey = pr.1
       | none =>
         τ.map (fun r => r.pubkey) = R.map (fun r => r.pubkey)) →
      (ratM evs (rts R) ≠ [] → ∃ r, R = some r ∧ r.id = rid) →
      rRun rid τ evs = R := by
  intro evs
  induction evs with
  | nil =>
    intro R τ hts hclose hb hfold hpk hform
    show τ = R
    rcases hclose with rfl | ⟨rτ, rR, hτeq, hReq, hid1, hid2, hupd⟩
    · rfl
    · have hpk' : τ.map (fun r => r.pubkey) =
          R.map (fun r => r.pubkey) := hpk
      have hfold' : rv τ = rv R := hfold
      rw [hτeq, hReq]
      rw [hτeq, hReq] at hpk' hfold'
      have hattrs : rτ.attrs = rR.attrs := hfold'
      have hpub : rτ.pubkey = rR.pubkey := by
        simpa using hpk'
      obtain ⟨a1, a2, a3, a4⟩ := rτ
      obtain ⟨b1, b2, b3, b4⟩ := rR
      simp_all
  | cons ev rest ih =>
    intro R τ hts hclose hb hfold hpk hform
    by_cases hat : (some ev.ets : Option Int) = rts R
    · -- replayed at the final timestamp: the patch folds in again
      have hstep : tsLt ev.ets (rts τ) = false := by
        rw [hts, ← hat]
        exact tsLt_irrefl ev.ets
      obtain ⟨row, hr, hrid, hrpub, hrupd, hrattrs⟩ :
          ∃ row, rStep rid τ ev = some row ∧
            row.id = rid ∧ row.pubkey = ev.pubkey ∧
            row.updated_at = ev.ets ∧
            row.attrs = jsMerge (rv τ) ev.content :=
        ⟨_, rStep_apply rid τ ev hstep, rfl, rfl, rfl, rfl⟩
      have hA : ratM (ev :: rest) (rts R) =
          (ev.pubkey, ev.content) :: ratM rest (rts R) := by
        rw [ratM_cons, ratM_singleton, if_pos hat]
        rfl
      rw [hA] at hfold hpk hform
      obtain ⟨rR, hReq, hRid⟩ := hform (by simp)
      have hts' : rts (some row) = rts R := by
        show some row.updated_at = _
        rw [hrupd, hat]
      have hclose' : RClose rid (some row) R := by
        refine Or.inr ⟨row, rR, rfl, hReq, hrid, hRid, ?_⟩
        have h1 : rts R = some rR.updated_at := by
          rw [hReq]
          rfl
        rw [hrupd]
        exact Option.some.inj (by rw [← h1]; exact hat)
      have hfold' : List.foldl jsMerge (rv (some row))
          ((ratM rest (rts R)).map Prod.snd) = rv R := by
        have hrv : rv (some row) = jsMerge (rv τ) ev.content := by
          show row.attrs = _
          rw [hrattrs]
        rw [hrv]
        rw [List.map_cons, List.foldl_cons] at hfold
        exact hfold
      have hpk' : (match (ratM rest (rts R)).getLast? with
          | some pr => ∃ r, R = some r ∧ r.pubkey = pr.1
          | none => (some row : Option Room).map (fun r => r.pubkey) =
              R.map (fun r => r.pubkey)) := by
        cases hl : (ratM rest (rts R)).getLast? with
        | some pr =>
          cases hrest : ratM rest (rts R) with
          | nil => rw [hrest] at hl; cases hl
          | cons y ys =>
            rw [hrest] at hpk
            rw [show (((ev.pubkey, ev.content) :: y :: ys).getLast? =
              (y :: ys).getLast?) from List.getLast?_cons_cons,
              ← hrest, hl] at hpk
            exact hpk
        | none =>
          have hrest : ratM rest (rts R) = [] := by
            cases hrest : ratM rest (rts R) with
            | nil => rfl
            | cons y ys =>
              rw [hrest] at hl
              exact absurd hl (by simp)
          rw [hrest] at hpk
          obtain ⟨rR2, hReq2, hRpub2⟩ :=
            show ∃ r, R = some r ∧ r.pubkey = ev.pubkey by
              simpa using hpk
          rw [hReq2]
          show some row.pubkey = some rR2.pubkey
          rw [hrpub, hRpub2]
      have hres := ih R (some row) hts' hclose'
        (fun ev' h => hb ev' (List.mem_cons_of_mem _ h))
        hfold' hpk' (fun _ => ⟨rR, hReq, hRid⟩)
      rw [rRun_cons, hr]
      exact hres
    · -- replayed below the final timestamp: discarded as stale
      have hstep : tsLt ev.ets (rts τ) = true := by
        rw [hts]
        exact tsLt_of_le_ne ev.ets _
          (hb ev (List.mem_cons_self _ _)) hat
      have hA : ratM (ev :: rest) (rts R) = ratM rest (rts R) := by
        rw [ratM_cons, ratM_singleton, if_neg hat]
        rfl
      rw [hA] at hfold hpk hform
      have hres := ih R τ hts hclose
        (fun ev' h => hb ev' (List.mem_cons_of_mem _ h))
        hfold hpk hform
      rw [rRun_cons, rStep_skip rid τ ev hstep]
      exact hres

/-- Replaying a room row's own action list over its final state is a
no-op, provided every contributed content object binds each key to its
last value. -/
theorem rReplay (rid : String) (s : Option Room) (evs : List REv)
    (hcanon : ∀ ev ∈ evs, ∀ q ∈ ev.content,
      alookup q.1 ev.content = some q.2) :
    rRun rid (rRun rid s evs) evs = rRun rid s evs := by
  obtain ⟨hb, ⟨w, hw⟩, hlast, hform⟩ := rRun_decomp rid evs s
  have hA : ∀ b ∈ (ratM evs (rts (rRun rid s evs))).map Prod.snd,
      ∀ q ∈ b, alookup q.1 b = some q.2 := by
    intro b hb'
    rw [List.mem_map] at hb'
    obtain ⟨pr, hpr, hprb⟩ := hb'
    simp only [ratM, List.mem_filterMap] at hpr
    obtain ⟨ev, hev, hevpr⟩ := hpr
    by_cases hc : (some ev.ets : Option Int) = rts (rRun rid s evs)
    · rw [if_pos hc] at hevpr
      obtain rfl := Option.some.inj hevpr
      rw [← hprb]
      exact hcanon ev hev
    · rw [if_neg hc] at hevpr
      cases hevpr
  have hfold : List.foldl jsMerge (rv (rRun rid s evs))
      ((ratM evs (rts (rRun rid s evs))).map Prod.snd) =
        rv (rRun rid s evs) := by
    rw [hw]
    exact foldMerge_absorb _ w hA
  have hpkm : (match (ratM evs (rts (rRun rid s evs))).getLast? with
      | some pr => ∃ r, rRun rid s evs = some r ∧ r.pubkey = pr.1
      | none => (rRun rid s evs).map (fun r => r.pubkey) =
          (rRun rid s evs).map (fun r => r.pubkey)) := by
    cases hl : (ratM evs (rts (rRun rid s evs))).getLast? with
    | some pr => exact hlast pr hl
    | none => rfl
  exact rRun_pass2 rid evs (rRun rid s evs) (rRun rid s evs)
    rfl (Or.inl rfl) hb hfold hpkm hform

/-- A replayed relay-list update never lowers past its own timestamp. -/
theorem rlStep_upd_le (ts : Option Int) (ets : Int) :
    optIntLe (some ets) (rlStep ts (.upd ets)) := by
  show optIntLe (some ets) (if tsLt ets ts then ts else some ets)
  by_cases h : tsLt ets ts = true
  · rw [if_pos h]
    cases ts with
    | none => simp [tsLt] at h
    | some t =>
      simp only [tsLt, decide_eq_true_eq] at h
      exact le_of_lt h
  · rw [if_neg h]
    exact le_refl _

/-- Pass-one shape of a relay-timestamp replay: the final timestamp
bounds every update, strictly so for every untagged check that the run
accepted. -/
theorem rlRun_decomp :
    ∀ (evs : List RlEv) (ts : Option Int),
      (∀ ets, RlEv.upd ets ∈ evs →
        optIntLe (some ets) (rlRun ts evs)) ∧
      (rlOk ts evs → ∀ ets, RlEv.chk ets ∈ evs →
        tsLt ets (rlRun ts evs) = true) := by
  intro evs
  induction evs with
  | nil =>
    intro ts
    exact ⟨fun ets h => absurd h (by simp),
      fun _ ets h => absurd h (by simp)⟩
  | cons ev rest ih =>
    intro ts
    constructor
    · intro ets hmem
      rw [rlRun_cons]
      rcases List.mem_cons.mp hmem with h | h
      · refine optIntLe_trans _ _ _ ?_ (rlRun_mono rest _)
        rw [← h]
        exact rlStep_upd_le ts ets
      · exact (ih (rlStep ts ev)).1 ets h
    · intro hok ets hmem
      rw [rlRun_cons]
      obtain ⟨hhead, htail⟩ := (rlOk_cons ts ev rest).mp hok
      rcases List.mem_cons.mp hmem with h | h
      · have h1 : tsLt ets ts = true := by
          rw [← h] at hhead
          exact hhead
        have h2 : rlStep ts ev = ts := by
          rw [← h]
          rfl
        refine tsLt_mono ets (rlStep ts ev) _ (rlRun_mono rest _) ?_
        rw [h2]
        exact h1
      · exact (ih (rlStep ts ev)).2 htail ets h

/-- Any timestamp that bounds every update and strictly bounds every
check is a fixed point of the replay, and replaying from it never trips
a staleness check. -/
theorem rlFix :
    ∀ (evs : List RlEv) (T : Option Int),
      (∀ ets, RlEv.upd ets ∈ evs → optIntLe (some ets) T) →
      (∀ ets, RlEv.chk ets ∈ evs → tsLt ets T = true) →
      rlRun T evs = T ∧ rlOk T evs := by
  intro evs
  induction evs with
  | nil => intro T _ _; exact ⟨rfl, trivial⟩
  | cons ev rest ih =>
    intro T hb hcx
    have hstep : rlStep T ev = T := by
      cases ev with
      | upd ets =>
        show (if tsLt ets T then T else some ets) = T
        by_cases h : tsLt ets T = true
        · rw [if_pos h]
        · rw [if_neg h]
          have h1 := hb ets (List.mem_cons_self _ _)
          cases T with
          | none => exact absurd h1 (by simp [optIntLe])
          | some t =>
            have h2 : ets ≤ t := h1
            have h3 : ¬(ets < t) := by simpa [tsLt] using h
            rw [le_antisymm h2 (not_lt.mp h3)]
      | skip ets => rfl
      | chk ets => rfl
    have hres := ih T (fun ets h => hb ets (List.mem_cons_of_mem _ h))
      (fun ets h => hcx ets (List.mem_cons_of_mem _ h))
    refine ⟨?_, (rlOk_cons T ev rest).mpr ⟨?_, ?_⟩⟩
    · rw [rlRun_cons, hstep]
      exact hres.1
    · cases ev with
      | upd ets => trivial
      | skip ets => trivial
      | chk ets => exact hcx ets (List.mem_cons_self _ _)
    · rw [hstep]
      exact hres.2

/-- Replaying the relay-timestamp actions over their final state is a
no-op and never throws, provided the first pass did not throw. -/
theorem rlReplay (ts : Option Int) (evs : List RlEv)
    (hok : rlOk ts evs) :
    rlRun (rlRun ts evs) evs = rlRun ts evs ∧
    rlOk (rlRun ts evs) evs := by
  obtain ⟨hb, hc⟩ := rlRun_decomp evs ts
  exact rlFix evs (rlRun ts evs) hb (hc hok)

/-! ### Per-event action extraction -/

/-- Filtering a single element keeps exactly its mapped value. -/
theorem filterMap_one {α β : Type} (f : α → Option β) (a : α) :
    List.filterMap f [a] = (f a).toList := by
  cases h : f a with
  | none => simp [List.filterMap_cons, h]
  | some b => simp [List.filterMap_cons, h]

/-- The people actions of a single event. -/
theorem pext_one (ctx : Ctx) (p : String) (e : Event) :
    pext ctx p [e] =
      (if e.pubkey = p then
        if e.kind = 0 then (eff0 ctx e).map (fun b => PEv.e0 e.created_at b)
        else if e.kind = 3 then
          match e.tags with
          | some tags => some (.p3 e.created_at tags)
          | none => some (.c3 e.created_at)
        else none
      else none).toList := by
  unfold pext
  rw [filterMap_one]

/-- The room actions of a single event. -/
theorem rext_one (ctx : Ctx) (rid : String) (e : Event) :
    rext ctx rid [e] =
      (if e.kind = 40 then
        if e.id = rid then
          (roomEff ctx e).map (fun c => ⟨e.created_at, e.pubkey, c⟩)
        else none
      else if e.kind = 41 then
        match e.tags with
        | none => none
        | some tags =>
          if roomTarget tags = some rid then
            (roomEff ctx e).map (fun c => ⟨e.created_at, e.pubkey, c⟩)
          else none
      else none : Option REv).toList := by
  unfold rext
  rw [filterMap_one]

/-- The relay-timestamp actions of a single event. -/
theorem rlext_one (ctx : Ctx) (user : String) (e : Event) :
    rlext ctx user [e] =
      (if e.pubkey = user then
        if e.kind = 2 then some (.upd e.created_at)
        else if e.kind = 3 then
          some (if rl3some ctx e then .upd e.created_at
            else .skip e.created_at)
        else if e.kind = 10001 then
          match e.tags with
          | some _ => some (.upd e.created_at)
          | none => some (.chk e.created_at)
        else if e.kind = 10002 then
          match e.tags with
          | some _ => some (.upd e.created_at)
          | none => some (.skip e.created_at)
        else none
      else none : Option RlEv).toList := by
  unfold rlext
  rw [filterMap_one]

/-- The people actions of a batch split off the head event. -/
theorem pext_cons (ctx : Ctx) (p : String) (e : Event) (rest : List Event) :
    pext ctx p (e :: rest) = pext ctx p [e] ++ pext ctx p rest := by
  unfold pext
  exact filterMap_cons_append _ e rest

/-- The room actions of a batch split off the head event. -/
theorem rext_cons (ctx : Ctx) (rid : String) (e : Event)
    (rest : List Event) :
    rext ctx rid (e :: rest) = rext ctx rid [e] ++ rext ctx rid rest := by
  unfold rext
  exact filterMap_cons_append _ e rest

/-- The relay-timestamp actions of a batch split off the head event. -/
theorem rlext_cons (ctx : Ctx) (user : String) (e : Event)
    (rest : List Event) :
    rlext ctx user (e :: rest) =
      rlext ctx user [e] ++ rlext ctx user rest := by
  unfold rlext
  exact filterMap_cons_append _ e rest

/-- A present patch value wins. -/
theorem patchField_some {α : Type} (x : α) (y : Option α) :
    patchField (some x) y = some x := rfl

/-- An absent patch value keeps the old one. -/
theorem patchField_none {α : Type} (y : Option α) :
    patchField none y = y := rfl

/-- A fresh kind-0 person update writes exactly the replayed step row. -/
theorem pStep_eq_update0 (nowT : Int) (σ : State) (pk : String) (cts : Int)
    (b : List (String × JVal))
    (h : tsLt cts ((σ.people pk).bind (fun r => r.kind0_updated_at)) =
      false) :
    pStep nowT pk (σ.people pk) (.e0 cts b) =
      (updatePerson nowT σ pk
        { kind0 := some
            (jsMerge (((σ.people pk).bind (fun r => r.kind0)).getD []) b),
          kind0_updated_at := some cts }).people pk := by
  rw [updatePerson_people_same]
  unfold pStep
  dsimp only
  rw [if_neg (by simp [h])]
  unfold personBase
  cases hs : σ.people pk <;> rfl

/-- A fresh kind-3 petnames update writes exactly the replayed step
row. -/
theorem pStep_eq_update3 (nowT : Int) (σ : State) (pk : String) (cts : Int)
    (tags : List (List String))
    (h : tsLt cts ((σ.people pk).bind (fun r => r.petnames_updated_at)) =
      false) :
    pStep nowT pk (σ.people pk) (.p3 cts tags) =
      (updatePerson nowT σ pk
        { petnames_updated_at := some cts,
          petnames := some (tags.filter (fun t => t.head? == some "p")) }
        ).people pk := by
  rw [updatePerson_people_same]
  unfold pStep
  dsimp only
  rw [if_neg (by simp [h])]
  unfold personBase
  cases hs : σ.people pk <;> rfl

/-- The kind-0 handler is a no-op on a stale event (guard form). -/
theorem handler0_stale_t (ctx : Ctx) (e : Event) (σ : State)
    (hstale : tsLt e.created_at
      ((σ.people e.pubkey).bind (fun p => p.kind0_updated_at)) = true) :
    handler0 ctx e σ = .ok σ := by
  unfold handler0
  cases hp : ctx.parse e.content with
  | none => rfl
  | some kind0 =>
    dsimp only
    rw [if_pos hstale]

/-- The kind-0 handler is a no-op on content that parses to `null`. -/
theorem handler0_null (ctx : Ctx) (e : Event) (σ : State) (j : JVal)
    (hp : ctx.parse e.content = some j)
    (hstale : tsLt e.created_at
      ((σ.people e.pubkey).bind (fun p => p.kind0_updated_at)) = false)
    (hj : j = JVal.null) :
    handler0 ctx e σ = .ok σ := by
  unfold handler0
  rw [hp]
  dsimp only
  rw [if_neg (by simp [hstale]), if_pos hj]

/-- The kind-0 handler on a fresh non-null event whose payment address
is a truthy non-string records at most a verification launch, leaving
every table untouched. -/
theorem handler0_unsafe (ctx : Ctx) (e : Event) (σ : State) (j v : JVal)
    (hp : ctx.parse e.content = some j)
    (hstale : tsLt e.created_at
      ((σ.people e.pubkey).bind (fun p => p.kind0_updated_at)) = false)
    (hnull : ¬(j = JVal.null)) (ha : kind0Address j = some v)
    (hstr : ∀ s, ¬(v = JVal.str s)) (htr : jTruthy v = true) :
    ∃ effs, handler0 ctx e σ = .ok { σ with effects := effs } := by
  unfold handler0
  rw [hp]
  dsimp only
  rw [if_neg (by simp [hstale]), if_neg hnull, ha]
  cases v with
  | str s => exact absurd rfl (hstr s)
  | null => cases htr
  | bool b =>
    dsimp only
    rw [if_pos htr]
    exact ⟨_, rfl⟩
  | num n =>
    dsimp only
    rw [if_pos htr]
    exact ⟨_, rfl⟩
  | arr xs =>
    dsimp only
    rw [if_pos htr]
    exact ⟨_, rfl⟩
  | obj l =>
    dsimp only
    rw [if_pos htr]
    exact ⟨_, rfl⟩

/-- A non-null parsed value fails the null test. -/
theorem isNullJ_false_of_ne (j : JVal) (h : ¬(j = JVal.null)) :
    isNullJ j = false := by
  cases j with
  | null => exact absurd rfl h
  | bool b => rfl
  | num q => rfl
  | str s => rfl
  | arr xs => rfl
  | obj l => rfl

/-- The kind-0 handler never writes any people row but its event's. -/
theorem handler0_people_other (ctx : Ctx) (e : Event) (σ σ' : State)
    (hok : handler0 ctx e σ = .ok σ') (p : String)
    (hne : ¬(e.pubkey = p)) : σ'.people p = σ.people p := by
  unfold handler0 at hok
  have hσ := Except.ok.inj hok
  subst hσ
  clear hok
  split
  · rfl
  · dsimp only
    split
    · rfl
    · split
      · rfl
      · split
        · rw [updatePerson_people_other _ _ _ _ p (fun h => hne h.symm)]
        · split
          · rfl
          · rw [updatePerson_people_other _ _ _ _ p (fun h => hne h.symm)]
        · rw [updatePerson_people_other _ _ _ _ p (fun h => hne h.symm)]

/-- The kind-0 handler replays its recorded action on its event's people
row. -/
theorem handler0_people_char (ctx : Ctx) (e : Event) (σ σ' : State)
    (h0 : e.kind = 0) (hok : handler0 ctx e σ = .ok σ') :
    ∀ p, σ'.people p = pRun ctx.nowT p (σ.people p) (pext ctx p [e]) := by
  intro p
  rw [pext_one]
  by_cases hpk : e.pubkey = p
  · rw [if_pos hpk, if_pos h0]
    subst hpk
    cases hp : ctx.parse e.content with
    | none =>
      have he : eff0 ctx e = none := by
        unfold eff0
        rw [hp]
      rw [he]
      rw [handler0_parse_fail ctx e σ hp] at hok
      obtain rfl := Except.ok.inj hok
      rfl
    | some j =>
      by_cases hst : tsLt e.created_at
          ((σ.people e.pubkey).bind (fun r => r.kind0_updated_at)) = true
      · rw [handler0_stale_t ctx e σ hst] at hok
        obtain rfl := Except.ok.inj hok
        cases he : eff0 ctx e with
        | none => rfl
        | some b =>
          show σ.people e.pubkey = pStep ctx.nowT e.pubkey
            (σ.people e.pubkey) (.e0 e.created_at b)
          rw [pStep_e0_skip ctx.nowT e.pubkey (σ.people e.pubkey)
            e.created_at b hst]
      · have hst' : tsLt e.created_at
            ((σ.people e.pubkey).bind (fun r => r.kind0_updated_at)) =
            false := by
          simpa using hst
        by_cases hnull : j = JVal.null
        · rw [handler0_null ctx e σ j hp hst' hnull] at hok
          obtain rfl := Except.ok.inj hok
          have he : eff0 ctx e = none := by
            unfold eff0
            rw [hp]
            dsimp only
            rw [if_pos (show isNullJ j = true from by rw [hnull]; rfl)]
          rw [he]
          rfl
        · have hnullb : ¬(isNullJ j = true) := by
            simp [isNullJ_false_of_ne j hnull]
          have haccept : addressSafe j = true →
              eff0 ctx e = some (toObj j) →
              σ'.people e.pubkey = pRun ctx.nowT e.pubkey
                (σ.people e.pubkey)
                ((eff0 ctx e).map
                  (fun b => PEv.e0 e.created_at b)).toList := by
            intro hsafe he
            obtain ⟨effs, heq⟩ :=
              handler0_accept ctx e σ j hp hst' hnull hsafe
            rw [heq] at hok
            obtain rfl := Except.ok.inj hok
            rw [he]
            exact (pStep_eq_update0 ctx.nowT { σ with effects := effs }
              e.pubkey e.created_at (toObj j) hst').symm
          cases ha : kind0Address j with
          | none =>
            refine haccept ?_ ?_
            · unfold addressSafe
              rw [ha]
            · unfold eff0
              rw [hp]
              dsimp only
              rw [if_neg hnullb, ha]
          | some v =>
            cases v with
            | str s =>
              refine haccept ?_ ?_
              · unfold addressSafe
                rw [ha]
              · unfold eff0
                rw [hp]
                dsimp only
                rw [if_neg hnullb, ha]
            | null =>
              refine haccept ?_ ?_
              · unfold addressSafe
                rw [ha]
                rfl
              · unfold eff0
                rw [hp]
                dsimp only
                rw [if_neg hnullb, ha]
                rfl
            | bool b =>
              by_cases htr : jTruthy (JVal.bool b) = true
              · obtain ⟨effs, heq⟩ := handler0_unsafe ctx e σ j _ hp hst'
                  hnull ha (fun s h => JVal.noConfusion h) htr
                rw [heq] at hok
                obtain rfl := Except.ok.inj hok
                have he : eff0 ctx e = none := by
                  unfold eff0
                  rw [hp]
                  dsimp only
                  rw [if_neg hnullb, ha]
                  dsimp only
                  rw [if_pos htr]
                rw [he]
                rfl
              · refine haccept ?_ ?_
                · unfold addressSafe
                  rw [ha]
                  simpa using htr
                · unfold eff0
                  rw [hp]
                  dsimp only
                  rw [if_neg hnullb, ha]
                  dsimp only
                  rw [if_neg htr]
            | num n =>
              by_cases htr : jTruthy (JVal.num n) = true
              · obtain ⟨effs, heq⟩ := handler0_unsafe ctx e σ j _ hp hst'
                  hnull ha (fun s h => JVal.noConfusion h) htr
                rw [heq] at hok
                obtain rfl := Except.ok.inj hok
                have he : eff0 ctx e = none := by
                  unfold eff0
                  rw [hp]
                  dsimp only
                  rw [if_neg hnullb, ha]
                  dsimp only
                  rw [if_pos htr]
                rw [he]
                rfl
              · refine haccept ?_ ?_
                · unfold addressSafe
                  rw [ha]
                  simpa using htr
                · unfold eff0
                  rw [hp]
                  dsimp only
                  rw [if_neg hnullb, ha]
                  dsimp only
                  rw [if_neg htr]
            | arr xs =>
              by_cases htr : jTruthy (JVal.arr xs) = true
              · obtain ⟨effs, heq⟩ := handler0_unsafe ctx e σ j _ hp hst'
                  hnull ha (fun s h => JVal.noConfusion h) htr
                rw [heq] at hok
                obtain rfl := Except.ok.inj hok
                have he : eff0 ctx e = none := by
                  unfold eff0
                  rw [hp]
                  dsimp only
                  rw [if_neg hnullb, ha]
                  dsimp only
                  rw [if_pos htr]
                rw [he]
                rfl
              · refine haccept ?_ ?_
                · unfold addressSafe
                  rw [ha]
                  simpa using htr
                · unfold eff0
                  rw [hp]
                  dsimp only
                  rw [if_neg hnullb, ha]
                  dsimp only
                  rw [if_neg htr]
            | obj l =>
              by_cases htr : jTruthy (JVal.obj l) = true
              · obtain ⟨effs, heq⟩ := handler0_unsafe ctx e σ j _ hp hst'
                  hnull ha (fun s h => JVal.noConfusion h) htr
                rw [heq] at hok
                obtain rfl := Except.ok.inj hok
                have he : eff0 ctx e = none := by
                  unfold eff0
                  rw [hp]
                  dsimp only
                  rw [if_neg hnullb, ha]
                  dsimp only
                  rw [if_pos htr]
                rw [he]
                rfl
              · refine haccept ?_ ?_
                · unfold addressSafe
                  rw [ha]
                  simpa using htr
                · unfold eff0
                  rw [hp]
                  dsimp only
                  rw [if_neg hnullb, ha]
                  dsimp only
                  rw [if_neg htr]
  · rw [if_neg hpk]
    exact handler0_people_other ctx e σ σ' hok p hpk

/-- The kind-40 handler is a no-op on stale events (guard form). -/
theorem handler40_stale_t (ctx : Ctx) (e : Event) (σ : State)
    (hts : tsLt e.created_at
      ((σ.rooms e.id).map (fun r => r.updated_at)) = true) :
    handler40 ctx e σ = .ok σ := by
  unfold handler40
  dsimp only
  rw [if_pos hts]

/-- The kind-41 handler is a no-op without an `e`-tag room reference. -/
theorem handler41_no_target (ctx : Ctx) (e : Event) (σ : State)
    (tags : List (List String)) (htags : e.tags = some tags)
    (hr : ((tagsOfType tags "e").head?).bind (fun t => t.get? 1) = none) :
    handler41 ctx e σ = .ok σ := by
  unfold handler41
  rw [htags]
  dsimp only
  rw [hr]

/-- The kind-41 handler is a no-op on stale events (guard form). -/
theorem handler41_stale_t (ctx : Ctx) (e : Event) (σ : State)
    (tags : List (List String)) (rid : String) (htags : e.tags = some tags)
    (hr : ((tagsOfType tags "e").head?).bind (fun t => t.get? 1) = some rid)
    (hts : tsLt e.created_at
      ((σ.rooms rid).map (fun r => r.updated_at)) = true) :
    handler41 ctx e σ = .ok σ := by
  unfold handler41
  rw [htags]
  dsimp only
  rw [hr]
  dsimp only
  rw [if_pos hts]

/-- The kind-41 handler is a no-op without parseable whitelisted
content. -/
theorem handler41_no_content (ctx : Ctx) (e : Event) (σ : State)
    (tags : List (List String)) (rid : String) (htags : e.tags = some tags)
    (hr : ((tagsOfType tags "e").head?).bind (fun t => t.get? 1) = some rid)
    (hts : tsLt e.created_at
      ((σ.rooms rid).map (fun r => r.updated_at)) = false)
    (hrc : roomContent ctx e = none) :
    handler41 ctx e σ = .ok σ := by
  unfold handler41
  rw [htags]
  dsimp only
  rw [hr]
  dsimp only
  rw [if_neg (by simp [hts]), hrc]

/-- The kind-41 handler is a no-op when no truthy `name` survives the
projection. -/
theorem handler41_no_name (ctx : Ctx) (e : Event) (σ : State)
    (tags : List (List String)) (rid : String)
    (content : List (String × JVal)) (htags : e.tags = some tags)
    (hr : ((tagsOfType tags "e").head?).bind (fun t => t.get? 1) = some rid)
    (hts : tsLt e.created_at
      ((σ.rooms rid).map (fun r => r.updated_at)) = false)
    (hrc : roomContent ctx e = some content)
    (hn : jTruthyOpt (alookup "name" content) = false) :
    handler41 ctx e σ = .ok σ := by
  unfold handler41
  rw [htags]
  dsimp only
  rw [hr]
  dsimp only
  rw [if_neg (by simp [hts]), hrc]
  dsimp only
  rw [if_pos (by simp [hn])]

/-- The kind-41 handler on a fresh referenced event with a truthy `name`
patches the referenced room. -/
theorem handler41_accept (ctx : Ctx) (e : Event) (σ : State)
    (tags : List (List String)) (rid : String)
    (content : List (String × JVal)) (htags : e.tags = some tags)
    (hr : ((tagsOfType tags "e").head?).bind (fun t => t.get? 1) = some rid)
    (hts : tsLt e.created_at
      ((σ.rooms rid).map (fun r => r.updated_at)) = false)
    (hrc : roomContent ctx e = some content)
    (hn : jTruthyOpt (alookup "name" content) = true) :
    handler41 ctx e σ = .ok { σ with
      rooms := mapPut σ.rooms rid ⟨rid, e.pubkey, e.created_at,
        jsMerge (((σ.rooms rid).map (fun r => r.attrs)).getD [])
          content⟩ } := by
  unfold handler41
  rw [htags]
  dsimp only
  rw [hr]
  dsimp only
  rw [if_neg (by simp [hts]), hrc]
  dsimp only
  rw [if_neg (by simp [hn])]

/-- The kind-40 handler replays its recorded action on every room row. -/
theorem handler40_rooms_char (ctx : Ctx) (e : Event) (σ σ' : State)
    (h40 : e.kind = 40) (hok : handler40 ctx e σ = .ok σ') :
    ∀ rid, σ'.rooms rid = rRun rid (σ.rooms rid) (rext ctx rid [e]) := by
  intro rid
  rw [rext_one, if_pos h40]
  by_cases hts : tsLt e.created_at
      ((σ.rooms e.id).map (fun r => r.updated_at)) = true
  · rw [handler40_stale_t ctx e σ hts] at hok
    obtain rfl := Except.ok.inj hok
    by_cases hid : e.id = rid
    · rw [if_pos hid]
      cases hre : roomEff ctx e with
      | none => rfl
      | some c =>
        show σ.rooms rid = rStep rid (σ.rooms rid) ⟨e.created_at, e.pubkey, c⟩
        rw [rStep_skip rid (σ.rooms rid) _
          (show tsLt e.created_at (rts (σ.rooms rid)) = true from by
            rw [← hid]
            exact hts)]
    · rw [if_neg hid]
      rfl
  · have hts' : tsLt e.created_at
        ((σ.rooms e.id).map (fun r => r.updated_at)) = false := by
      simpa using hts
    cases hrc : roomContent ctx e with
    | none =>
      rw [handler40_no_content ctx e σ hrc] at hok
      obtain rfl := Except.ok.inj hok
      have hre : roomEff ctx e = none := by
        unfold roomEff
        rw [hrc]
      rw [hre]
      by_cases hid : e.id = rid
      · rw [if_pos hid]
        rfl
      · rw [if_neg hid]
        rfl
    | some content =>
      cases hn : jTruthyOpt (alookup "name" content) with
      | false =>
        rw [handler40_no_name ctx e σ content hrc hn] at hok
        obtain rfl := Except.ok.inj hok
        have hre : roomEff ctx e = none := by
          unfold roomEff
          rw [hrc]
          dsimp only
          rw [if_neg (by simp [hn])]
        rw [hre]
        by_cases hid : e.id = rid
        · rw [if_pos hid]
          rfl
        · rw [if_neg hid]
          rfl
      | true =>
        rw [handler40_accept ctx e σ content hts' hrc hn] at hok
        obtain rfl := Except.ok.inj hok
        have hre : roomEff ctx e = some content := by
          unfold roomEff
          rw [hrc]
          dsimp only
          rw [if_pos hn]
        rw [hre]
        by_cases hid : e.id = rid
        · rw [if_pos hid]
          show mapPut σ.rooms e.id _ rid =
            rStep rid (σ.rooms rid) ⟨e.created_at, e.pubkey, content⟩
          rw [rStep_apply rid (σ.rooms rid) _
            (show tsLt e.created_at (rts (σ.rooms rid)) = false from by
              rw [← hid]
              exact hts')]
          unfold mapPut
          rw [if_pos hid.symm, ← hid]
          rfl
        · rw [if_neg hid]
          show mapPut σ.rooms e.id _ rid = σ.rooms rid
          unfold mapPut
          rw [if_neg (fun h => hid h.symm)]

/-- The kind-41 handler replays its recorded action on every room row. -/
theorem handler41_rooms_char (ctx : Ctx) (e : Event) (σ σ' : State)
    (h41 : e.kind = 41) (tags : List (List String))
    (htags : e.tags = some tags) (hok : handler41 ctx e σ = .ok σ') :
    ∀ rid, σ'.rooms rid = rRun rid (σ.rooms rid) (rext ctx rid [e]) := by
  intro rid
  have h40 : ¬(e.kind = 40) := by
    rw [h41]
    norm_num
  rw [rext_one, if_neg h40, if_pos h41, htags]
  dsimp only
  cases hr : ((tagsOfType tags "e").head?).bind (fun t => t.get? 1) with
  | none =>
    rw [handler41_no_target ctx e σ tags htags hr] at hok
    obtain rfl := Except.ok.inj hok
    have hne : ¬(roomTarget tags = some rid) := by
      unfold roomTarget
      rw [hr]
      exact fun h => Option.noConfusion h
    rw [if_neg hne]
    rfl
  | some roomId =>
    by_cases hts : tsLt e.created_at
        ((σ.rooms roomId).map (fun r => r.updated_at)) = true
    · rw [handler41_stale_t ctx e σ tags roomId htags hr hts] at hok
      obtain rfl := Except.ok.inj hok
      by_cases hid : roomId = rid
      · rw [if_pos (show roomTarget tags = some rid from by
          unfold roomTarget
          rw [hr, hid])]
        cases hre : roomEff ctx e with
        | none => rfl
        | some c =>
          show σ.rooms rid = rStep rid (σ.rooms rid)
            ⟨e.created_at, e.pubkey, c⟩
          rw [rStep_skip rid (σ.rooms rid) _
            (show tsLt e.created_at (rts (σ.rooms rid)) = true from by
              rw [← hid]
              exact hts)]
      · rw [if_neg (show ¬(roomTarget tags = some rid) from by
          unfold roomTarget
          rw [hr]
          exact fun h => hid (Option.some.inj h))]
        rfl
    · have hts' : tsLt e.created_at
          ((σ.rooms roomId).map (fun r => r.updated_at)) = false := by
        simpa using hts
      cases hrc : roomContent ctx e with
      | none =>
        rw [handler41_no_content ctx e σ tags roomId htags hr hts' hrc]
          at hok
        obtain rfl := Except.ok.inj hok
        have hre : roomEff ctx e = none := by
          unfold roomEff
          rw [hrc]
        split
        · rw [hre]
          rfl
        · rfl
      | some content =>
        cases hn : jTruthyOpt (alookup "name" content) with
        | false =>
          rw [handler41_no_name ctx e σ tags roomId content htags hr hts'
            hrc hn] at hok
          obtain rfl := Except.ok.inj hok
          have hre : roomEff ctx e = none := by
            unfold roomEff
            rw [hrc]
            dsimp only
            rw [if_neg (by simp [hn])]
          split
          · rw [hre]
            rfl
          · rfl
        | true =>
          rw [handler41_accept ctx e σ tags roomId content htags hr hts'
            hrc hn] at hok
          obtain rfl := Except.ok.inj hok
          have hre : roomEff ctx e = some content := by
            unfold roomEff
            rw [hrc]
            dsimp only
            rw [if_pos hn]
          by_cases hid : roomId = rid
          · rw [if_pos (show roomTarget tags = some rid from by
              unfold roomTarget
              rw [hr, hid]), hre]
            show mapPut σ.rooms roomId _ rid =
              rStep rid (σ.rooms rid) ⟨e.created_at, e.pubkey, content⟩
            rw [rStep_apply rid (σ.rooms rid) _
              (show tsLt e.created_at (rts (σ.rooms rid)) = false from by
                rw [← hid]
                exact hts')]
            unfold mapPut
            rw [if_pos hid.symm, ← hid]
            rfl
          · rw [if_neg (show ¬(roomTarget tags = some rid) from by
              unfold roomTarget
              rw [hr]
              exact fun h => hid (Option.some.inj h))]
            show mapPut σ.rooms roomId _ rid = σ.rooms rid
            unfold mapPut
            rw [if_neg (fun h => hid h.symm)]

/-- The profile handler is a no-op on stale events (guard form). -/
theorem profileHandler_stale_t {α : Type} (readTs : Profile → Option Int)
    (setField : Profile → α → Int → Profile)
    (getValue : Ctx → Event → Profile → Except String (Option α))
    (ctx : Ctx) (e : Event) (σ : State)
    (hts : tsLt e.created_at (readTs σ.profile) = true) :
    profileHandler readTs setField getValue ctx e σ = .ok σ := by
  unfold profileHandler
  by_cases hpk : e.pubkey ≠ σ.profile.pubkey
  · rw [if_pos hpk]
  · rw [if_neg hpk, if_pos hts]

/-- The profile handler propagates a value-computation throw on a fresh
own event. -/
theorem profileHandler_err {α : Type} (readTs : Profile → Option Int)
    (setField : Profile → α → Int → Profile)
    (getValue : Ctx → Event → Profile → Except String (Option α))
    (ctx : Ctx) (e : Event) (σ : State) (err : String)
    (hpk : e.pubkey = σ.profile.pubkey)
    (hts : tsLt e.created_at (readTs σ.profile) = false)
    (hgv : getValue ctx e σ.profile = .error err) :
    profileHandler readTs setField getValue ctx e σ = .error err := by
  unfold profileHandler
  rw [if_neg (by simp [hpk]), if_neg (by simp [hts]), hgv]

/-- The kind-3 relay extraction returns a value exactly when its recorded
action is an update. -/
theorem getValueRelays3_char (ctx : Ctx) (e : Event) (prof : Profile) :
    (rl3some ctx e = false → getValueRelays3 ctx e prof = .ok none) ∧
    (rl3some ctx e = true →
      ∃ v, getValueRelays3 ctx e prof = .ok (some v)) := by
  unfold getValueRelays3 rl3some
  cases hp : ctx.parse e.content with
  | none => exact ⟨fun _ => rfl, fun h => Bool.noConfusion h⟩
  | some j =>
    dsimp only
    cases hj : jEntries j with
    | none => exact ⟨fun _ => rfl, fun h => Bool.noConfusion h⟩
    | some entries =>
      dsimp only
      cases hn : entries.any (fun p => isNullJ p.2) with
      | true =>
        constructor
        · intro _
          rfl
        · intro h
          exact absurd h (by simp)
      | false =>
        constructor
        · intro h
          exact absurd h (by simp)
        · intro _
          exact ⟨_, rfl⟩

/-- Running a batch splits across concatenation, with an error in the
first part skipping the second. -/
theorem runEvents_append (ctx : Ctx) :
    ∀ (a b : List Event) (σ : State),
      runEvents ctx σ (a ++ b) =
        match runEvents ctx σ a with
        | (σ', none) => runEvents ctx σ' b
        | (σ', some err) => (σ', some err) := by
  intro a
  induction a with
  | nil => intro b σ; rfl
  | cons e rest ih =>
    intro b σ
    show (match procEvent ctx σ e with
      | (σ', none) => runEvents ctx σ' (rest ++ b)
      | (σ', some err) => (σ', some err)) = _
    cases hpe : procEvent ctx σ e with
    | mk σ' errOpt =>
      cases errOpt with
      | none =>
        show runEvents ctx σ' (rest ++ b) = _
        rw [ih b σ']
        have hre : runEvents ctx σ (e :: rest) = runEvents ctx σ' rest := by
          show (match procEvent ctx σ e with
            | (τ, none) => runEvents ctx τ rest
            | (τ, some err) => (τ, some err)) = _
          rw [hpe]
        rw [hre]
      | some err =>
        show (σ', some err) = _
        have hre : runEvents ctx σ (e :: rest) = (σ', some err) := by
          show (match procEvent ctx σ e with
            | (τ, none) => runEvents ctx τ rest
            | (τ, some e') => (τ, some e')) = _
          rw [hpe]
        rw [hre]

/-- An error accumulator passes through the chunk fold unchanged. -/
theorem foldChunks_err (ctx : Ctx) :
    ∀ (chunks : List (List Event)) (σ : State) (err : String),
      chunks.foldl (stepChunk ctx) (σ, some err) = (σ, some err) := by
  intro chunks
  induction chunks with
  | nil => intro σ err; rfl
  | cons c rest ih =>
    intro σ err
    show rest.foldl (stepChunk ctx) (stepChunk ctx (σ, some err) c) = _
    show rest.foldl (stepChunk ctx) (σ, some err) = _
    exact ih σ err

/-- Folding the chunks of a batch runs the batch. -/
theorem foldChunks_eq (ctx : Ctx) :
    ∀ (chunks : List (List Event)) (σ : State),
      chunks.foldl (stepChunk ctx) (σ, none) =
        runEvents ctx σ chunks.flatten := by
  intro chunks
  induction chunks with
  | nil => intro σ; rfl
  | cons c rest ih =>
    intro σ
    show rest.foldl (stepChunk ctx) (stepChunk ctx (σ, none) c) = _
    show rest.foldl (stepChunk ctx) (runEvents ctx σ c) = _
    rw [List.flatten_cons, runEvents_append]
    cases hrc : runEvents ctx σ c with
    | mk σ' errOpt =>
      cases errOpt with
      | none => exact ih σ'
      | some err => exact foldChunks_err ctx rest σ' err

/-- Chunking splits the batch into consecutive pieces. -/
theorem chunkFuel_flatten :
    ∀ (fuel : Nat) (l : List Event), (chunkFuel fuel l).flatten = l := by
  intro fuel
  induction fuel with
  | zero =>
    intro l
    cases l with
    | nil => rfl
    | cons x rest => simp [chunkFuel]
  | succ n ih =>
    intro l
    cases l with
    | nil => rfl
    | cons x rest =>
      show ((x :: rest).take 100 ++
        (chunkFuel n ((x :: rest).drop 100)).flatten) = x :: rest
      rw [ih ((x :: rest).drop 100)]
      exact List.take_append_drop 100 (x :: rest)

/-- The entry point runs the null-filtered batch in order. -/
theorem processEvents_eq_run (ctx : Ctx) (σ : State)
    (events : List (Option Event)) :
    processEvents ctx σ events =
      runEvents ctx σ (events.filterMap id) := by
  unfold processEvents
  rw [foldChunks_eq]
  unfold chunk100
  rw [chunkFuel_flatten]

/-! ### Per-kind dispatch characterization -/

/-- Dispatching an event of an unhandled kind only archives it. -/
theorem procChar_other (ctx : Ctx) (σ : State) (e : Event)
    (h0 : ¬(e.kind = 0)) (h2 : ¬(e.kind = 2)) (h3 : ¬(e.kind = 3))
    (h10000 : ¬(e.kind = 10000)) (h10001 : ¬(e.kind = 10001))
    (h10002 : ¬(e.kind = 10002)) (h40 : ¬(e.kind = 40))
    (h41 : ¬(e.kind = 41)) : ProcChar ctx σ e := by
  have hOk : OkEv ctx σ e :=
    ⟨fun hk => absurd hk h3, fun hk => absurd hk h10001,
     fun hk => absurd hk h10002, fun hk => absurd hk h41⟩
  have hH : handlersFor e.kind = [] := by
    unfold handlersFor
    rw [if_neg h0, if_neg h2, if_neg h3, if_neg h10000, if_neg h10001,
      if_neg h10002, if_neg h40, if_neg h41]
  have hpe : procEvent ctx σ e = (archive σ e, none) := by
    unfold procEvent
    rw [hH, runHandlers_nil]
  obtain ⟨harch1, harch2, harch3, _, _, _⟩ := archive_frame σ e
  refine ⟨fun _ => ?_, fun hn => absurd hOk hn⟩
  rw [hpe]
  refine ⟨rfl, ?_, ?_, ?_, ?_⟩
  · intro p
    have hpext : pext ctx p [e] = [] := by
      rw [pext_one]
      by_cases hpk : e.pubkey = p
      · rw [if_pos hpk, if_neg h0, if_neg h3]
        rfl
      · rw [if_neg hpk]
        rfl
    rw [hpext]
    exact congrFun harch1 p
  · intro rid
    have hrext : rext ctx rid [e] = [] := by
      rw [rext_one, if_neg h40, if_neg h41]
      rfl
    rw [hrext]
    exact congrFun harch3 rid
  · exact congrArg Profile.pubkey harch2
  · have hrl : rlext ctx σ.profile.pubkey [e] = [] := by
      rw [rlext_one]
      by_cases hpk : e.pubkey = σ.profile.pubkey
      · rw [if_pos hpk, if_neg h2, if_neg h3, if_neg h10001, if_neg h10002]
        rfl
      · rw [if_neg hpk]
        rfl
    rw [hrl]
    exact congrArg Profile.relays_updated_at harch2

/-- Dispatching a kind-0 event never throws and replays the people
projection. -/
theorem procChar_kind0 (ctx : Ctx) (σ : State) (e : Event)
    (h0 : e.kind = 0) : ProcChar ctx σ e := by
  have k3 : ¬(e.kind = 3) := by rw [h0]; norm_num
  have k2 : ¬(e.kind = 2) := by rw [h0]; norm_num
  have k10001 : ¬(e.kind = 10001) := by rw [h0]; norm_num
  have k10002 : ¬(e.kind = 10002) := by rw [h0]; norm_num
  have k40 : ¬(e.kind = 40) := by rw [h0]; norm_num
  have k41 : ¬(e.kind = 41) := by rw [h0]; norm_num
  have hOk : OkEv ctx σ e :=
    ⟨fun hk => absurd hk k3, fun hk => absurd hk k10001,
     fun hk => absurd hk k10002, fun hk => absurd hk k41⟩
  have hH : handlersFor e.kind = [handler0] := by
    unfold handlersFor
    rw [if_pos h0]
  obtain ⟨σ', hok⟩ := handler0_total ctx e (archive σ e)
  have hpe : procEvent ctx σ e = (σ', none) := by
    unfold procEvent
    rw [hH, runHandlers_cons_ok ctx e _ _ _ _ hok, runHandlers_nil]
  obtain ⟨harch1, harch2, harch3, _, _, _⟩ := archive_frame σ e
  obtain ⟨hfrooms, _, _, _, hfpk, _, hfts, _, _⟩ :=
    handler0_ok_frame ctx e (archive σ e) σ' hok
  refine ⟨fun _ => ?_, fun hn => absurd hOk hn⟩
  rw [hpe]
  refine ⟨rfl, ?_, ?_, ?_, ?_⟩
  · intro p
    have hh := handler0_people_char ctx e (archive σ e) σ' h0 hok p
    rw [harch1] at hh
    exact hh
  · intro rid
    have hrext : rext ctx rid [e] = [] := by
      rw [rext_one, if_neg k40, if_neg k41]
      rfl
    rw [hrext]
    show σ'.rooms rid = σ.rooms rid
    rw [hfrooms, harch3]
  · show σ'.profile.pubkey = σ.profile.pubkey
    rw [hfpk]
    exact congrArg Profile.pubkey harch2
  · have hrl : rlext ctx σ.profile.pubkey [e] = [] := by
      rw [rlext_one]
      by_cases hpk : e.pubkey = σ.profile.pubkey
      · rw [if_pos hpk, if_neg k2, if_neg k3, if_neg k10001, if_neg k10002]
        rfl
      · rw [if_neg hpk]
        rfl
    rw [hrl]
    show σ'.profile.relays_updated_at = σ.profile.relays_updated_at
    rw [hfts]
    exact congrArg Profile.relays_updated_at harch2

/-- A non-throwing profile-handler run can only change the profile
through its field setter. -/
theorem profileHandler_profile_pres {α : Type}
    (readTs : Profile → Option Int)
    (setField : Profile → α → Int → Profile)
    (getValue : Ctx → Event → Profile → Except String (Option α))
    (ctx : Ctx) (e : Event) (σ σ' : State)
    (hok : profileHandler readTs setField getValue ctx e σ = .ok σ')
    (hpk : ∀ prof v t, (setField prof v t).pubkey = prof.pubkey) :
    σ'.profile.pubkey = σ.profile.pubkey := by
  unfold profileHandler at hok
  dsimp only at hok
  split at hok
  · obtain rfl := Except.ok.inj hok
    rfl
  · split at hok
    · obtain rfl := Except.ok.inj hok
      rfl
    · split at hok
      · exact Except.noConfusion hok
      · obtain rfl := Except.ok.inj hok
        rfl
      · obtain rfl := Except.ok.inj hok
        exact hpk σ.profile _ _

/-- Dispatching a kind-2 event never throws and replays the relay
timestamp. -/
theorem procChar_kind2 (ctx : Ctx) (σ : State) (e : Event)
    (h2 : e.kind = 2) : ProcChar ctx σ e := by
  have k0 : ¬(e.kind = 0) := by rw [h2]; norm_num
  have k3 : ¬(e.kind = 3) := by rw [h2]; norm_num
  have k10001 : ¬(e.kind = 10001) := by rw [h2]; norm_num
  have k10002 : ¬(e.kind = 10002) := by rw [h2]; norm_num
  have k40 : ¬(e.kind = 40) := by rw [h2]; norm_num
  have k41 : ¬(e.kind = 41) := by rw [h2]; norm_num
  have hOk : OkEv ctx σ e :=
    ⟨fun hk => absurd hk k3, fun hk => absurd hk k10001,
     fun hk => absurd hk k10002, fun hk => absurd hk k41⟩
  have hH : handlersFor e.kind =
      [profileHandler (fun p => p.relays_updated_at) setRelays
        getValueRelays2, handler2Routes] := by
    unfold handlersFor
    rw [if_neg k0, if_pos h2]
  obtain ⟨harch1, harch2, harch3, _, _, _⟩ := archive_frame σ e
  have hpext : ∀ p, pext ctx p [e] = [] := by
    intro p
    rw [pext_one]
    by_cases hpk : e.pubkey = p
    · rw [if_pos hpk, if_neg k0, if_neg k3]
      rfl
    · rw [if_neg hpk]
      rfl
  have hrext : ∀ rid, rext ctx rid [e] = [] := by
    intro rid
    rw [rext_one, if_neg k40, if_neg k41]
    rfl
  obtain ⟨σ1, hok1⟩ := profileHandler_total
    (fun p => p.relays_updated_at) setRelays getValueRelays2 ctx e
    (archive σ e) ⟨_, rfl⟩
  obtain ⟨σ2, hok2⟩ : ∃ σ2, handler2Routes ctx e σ1 = .ok σ2 := ⟨_, rfl⟩
  have hpe : procEvent ctx σ e = (σ2, none) := by
    unfold procEvent
    rw [hH, runHandlers_cons_ok ctx e _ _ _ _ hok1,
      runHandlers_cons_ok ctx e _ _ _ _ hok2, runHandlers_nil]
  obtain ⟨hfp1, hfr1, _, _, _, _⟩ := profileHandler_ok_frame
    (fun p => p.relays_updated_at) setRelays getValueRelays2 ctx e
    (archive σ e) σ1 hok1
  obtain ⟨heo1, heo2, heo3, _, _⟩ := handler2Routes_eqOutside ctx e σ1 σ2 hok2
  refine ⟨fun _ => ?_, fun hn => absurd hOk hn⟩
  rw [hpe]
  refine ⟨rfl, ?_, ?_, ?_, ?_⟩
  · intro p
    rw [hpext p]
    show σ2.people p = σ.people p
    rw [heo1, hfp1, harch1]
  · intro rid
    rw [hrext rid]
    show σ2.rooms rid = σ.rooms rid
    rw [heo3, hfr1, harch3]
  · show σ2.profile.pubkey = σ.profile.pubkey
    rw [heo2]
    rw [profileHandler_profile_pres _ _ _ ctx e (archive σ e) σ1 hok1
      (fun prof v t => rfl)]
    exact congrArg Profile.pubkey harch2
  · by_cases hpk : e.pubkey = σ.profile.pubkey
    · have hrl : rlext ctx σ.profile.pubkey [e] = [.upd e.created_at] := by
        rw [rlext_one, if_pos hpk, if_pos h2]
        rfl
      rw [hrl]
      by_cases hst : tsLt e.created_at σ.profile.relays_updated_at = true
      · have h1 : profileHandler (fun p => p.relays_updated_at) setRelays
            getValueRelays2 ctx e (archive σ e) = .ok (archive σ e) :=
          profileHandler_stale_t _ _ _ ctx e (archive σ e)
            (by rw [harch2]; exact hst)
        rw [h1] at hok1
        obtain rfl := Except.ok.inj hok1
        show σ2.profile.relays_updated_at =
          rlStep σ.profile.relays_updated_at (.upd e.created_at)
        rw [show rlStep σ.profile.relays_updated_at (.upd e.created_at) =
            σ.profile.relays_updated_at from by
          show (if tsLt e.created_at σ.profile.relays_updated_at then _
            else _) = _
          rw [if_pos hst]]
        rw [heo2]
        exact congrArg Profile.relays_updated_at harch2
      · have hst' : tsLt e.created_at σ.profile.relays_updated_at =
            false := by
          simpa using hst
        have hgv : getValueRelays2 ctx e (archive σ e).profile =
            .ok (some (uniqByUrl ((archive σ e).profile.relays ++
              [{ url := e.content }]))) := rfl
        have h1 := profileHandler_accept (fun p => p.relays_updated_at)
          setRelays getValueRelays2 ctx e (archive σ e) _
          (by rw [harch2]; exact hpk)
          (by rw [harch2]; exact hst') hgv
        rw [h1] at hok1
        obtain rfl := Except.ok.inj hok1
        show σ2.profile.relays_updated_at =
          rlStep σ.profile.relays_updated_at (.upd e.created_at)
        rw [heo2]
        show (some e.created_at : Option Int) =
          rlStep σ.profile.relays_updated_at (.upd e.created_at)
        show (some e.created_at : Option Int) =
          if tsLt e.created_at σ.profile.relays_updated_at then
            σ.profile.relays_updated_at
          else some e.created_at
        rw [if_neg (by simp [hst'])]
    · have hrl : rlext ctx σ.profile.pubkey [e] = [] := by
        rw [rlext_one, if_neg hpk]
        rfl
      rw [hrl]
      have h1 : profileHandler (fun p => p.relays_updated_at) setRelays
          getValueRelays2 ctx e (archive σ e) = .ok (archive σ e) :=
        profileHandler_other _ _ _ ctx e (archive σ e)
          (by rw [harch2]; exact hpk)
      rw [h1] at hok1
      obtain rfl := Except.ok.inj hok1
      show σ2.profile.relays_updated_at = σ.profile.relays_updated_at
      rw [heo2]
      exact congrArg Profile.relays_updated_at harch2

/-- Dispatching a kind-10000 event never throws and changes none of the
replayed projections. -/
theorem procChar_kind10000 (ctx : Ctx) (σ : State) (e : Event)
    (h10000 : e.kind = 10000) : ProcChar ctx σ e := by
  have k0 : ¬(e.kind = 0) := by rw [h10000]; norm_num
  have k2 : ¬(e.kind = 2) := by rw [h10000]; norm_num
  have k3 : ¬(e.kind = 3) := by rw [h10000]; norm_num
  have k10001 : ¬(e.kind = 10001) := by rw [h10000]; norm_num
  have k10002 : ¬(e.kind = 10002) := by rw [h10000]; norm_num
  have k40 : ¬(e.kind = 40) := by rw [h10000]; norm_num
  have k41 : ¬(e.kind = 41) := by rw [h10000]; norm_num
  have hOk : OkEv ctx σ e :=
    ⟨fun hk => absurd hk k3, fun hk => absurd hk k10001,
     fun hk => absurd hk k10002, fun hk => absurd hk k41⟩
  have hH : handlersFor e.kind =
      [profileHandler (fun p => p.mutes_updated_at) setMutes
        getValueMutes] := by
    unfold handlersFor
    rw [if_neg k0, if_neg k2, if_neg k3, if_pos h10000]
  obtain ⟨harch1, harch2, harch3, _, _, _⟩ := archive_frame σ e
  obtain ⟨σ1, hok1⟩ := profileHandler_total
    (fun p => p.mutes_updated_at) setMutes getValueMutes ctx e
    (archive σ e) ⟨_, rfl⟩
  have hpe : procEvent ctx σ e = (σ1, none) := by
    unfold procEvent
    rw [hH, runHandlers_cons_ok ctx e _ _ _ _ hok1, runHandlers_nil]
  obtain ⟨hfp1, hfr1, _, _, _, _⟩ := profileHandler_ok_frame
    (fun p => p.mutes_updated_at) setMutes getValueMutes ctx e
    (archive σ e) σ1 hok1
  have hprof : σ1.profile.pubkey = σ.profile.pubkey ∧
      σ1.profile.relays_updated_at = σ.profile.relays_updated_at := by
    have h := hok1
    unfold profileHandler at h
    dsimp only at h
    split at h
    · obtain rfl := Except.ok.inj h
      exact ⟨congrArg Profile.pubkey harch2,
        congrArg Profile.relays_updated_at harch2⟩
    · split at h
      · obtain rfl := Except.ok.inj h
        exact ⟨congrArg Profile.pubkey harch2,
          congrArg Profile.relays_updated_at harch2⟩
      · split at h
        · exact Except.noConfusion h
        · obtain rfl := Except.ok.inj h
          exact ⟨congrArg Profile.pubkey harch2,
            congrArg Profile.relays_updated_at harch2⟩
        · obtain rfl := Except.ok.inj h
          dsimp only [setMutes]
          exact ⟨congrArg Profile.pubkey harch2,
            congrArg Profile.relays_updated_at harch2⟩
  refine ⟨fun _ => ?_, fun hn => absurd hOk hn⟩
  rw [hpe]
  refine ⟨rfl, ?_, ?_, ?_, ?_⟩
  · intro p
    have hpext : pext ctx p [e] = [] := by
      rw [pext_one]
      by_cases hpk : e.pubkey = p
      · rw [if_pos hpk, if_neg k0, if_neg k3]
        rfl
      · rw [if_neg hpk]
        rfl
    rw [hpext]
    show σ1.people p = σ.people p
    rw [hfp1, harch1]
  · intro rid
    have hrext : rext ctx rid [e] = [] := by
      rw [rext_one, if_neg k40, if_neg k41]
      rfl
    rw [hrext]
    show σ1.rooms rid = σ.rooms rid
    rw [hfr1, harch3]
  · exact hprof.1
  · have hrl : rlext ctx σ.profile.pubkey [e] = [] := by
      rw [rlext_one]
      by_cases hpk : e.pubkey = σ.profile.pubkey
      · rw [if_pos hpk, if_neg k2, if_neg k3, if_neg k10001, if_neg k10002]
        rfl
      · rw [if_neg hpk]
        rfl
    rw [hrl]
    exact hprof.2

/-- Dispatching a kind-40 event never throws and replays the room
projection. -/
theorem procChar_kind40 (ctx : Ctx) (σ : State) (e : Event)
    (h40 : e.kind = 40) : ProcChar ctx σ e := by
  have k0 : ¬(e.kind = 0) := by rw [h40]; norm_num
  have k2 : ¬(e.kind = 2) := by rw [h40]; norm_num
  have k3 : ¬(e.kind = 3) := by rw [h40]; norm_num
  have k10000 : ¬(e.kind = 10000) := by rw [h40]; norm_num
  have k10001 : ¬(e.kind = 10001) := by rw [h40]; norm_num
  have k10002 : ¬(e.kind = 10002) := by rw [h40]; norm_num
  have k41 : ¬(e.kind = 41) := by rw [h40]; norm_num
  have hOk : OkEv ctx σ e :=
    ⟨fun hk => absurd hk k3, fun hk => absurd hk k10001,
     fun hk => absurd hk k10002, fun hk => absurd hk k41⟩
  have hH : handlersFor e.kind = [handler40] := by
    unfold handlersFor
    rw [if_neg k0, if_neg k2, if_neg k3, if_neg k10000, if_neg k10001,
      if_neg k10002, if_pos h40]
  obtain ⟨harch1, harch2, harch3, _, _, _⟩ := archive_frame σ e
  obtain ⟨σ1, hok1⟩ : ∃ σ1, handler40 ctx e (archive σ e) = .ok σ1 :=
    ⟨_, rfl⟩
  have hpe : procEvent ctx σ e = (σ1, none) := by
    unfold procEvent
    rw [hH, runHandlers_cons_ok ctx e _ _ _ _ hok1, runHandlers_nil]
  obtain ⟨hfp1, hfpr1, _, _, _, _⟩ :=
    handler40_ok_frame ctx e (archive σ e) σ1 hok1
  refine ⟨fun _ => ?_, fun hn => absurd hOk hn⟩
  rw [hpe]
  refine ⟨rfl, ?_, ?_, ?_, ?_⟩
  · intro p
    have hpext : pext ctx p [e] = [] := by
      rw [pext_one]
      by_cases hpk : e.pubkey = p
      · rw [if_pos hpk, if_neg k0, if_neg k3]
        rfl
      · rw [if_neg hpk]
        rfl
    rw [hpext]
    show σ1.people p = σ.people p
    rw [hfp1, harch1]
  · intro rid
    have hh := handler40_rooms_char ctx e (archive σ e) σ1 h40 hok1 rid
    rw [harch3] at hh
    exact hh
  · show σ1.profile.pubkey = σ.profile.pubkey
    rw [hfpr1]
    exact congrArg Profile.pubkey harch2
  · have hrl : rlext ctx σ.profile.pubkey [e] = [] := by
      rw [rlext_one]
      by_cases hpk : e.pubkey = σ.profile.pubkey
      · rw [if_pos hpk, if_neg k2, if_neg k3, if_neg k10001, if_neg k10002]
        rfl
      · rw [if_neg hpk]
        rfl
    rw [hrl]
    show σ1.profile.relays_updated_at = σ.profile.relays_updated_at
    rw [hfpr1]
    exact congrArg Profile.relays_updated_at harch2

/-- Dispatching a kind-41 event throws exactly on a missing tag list and
otherwise replays the room projection. -/
theorem procChar_kind41 (ctx : Ctx) (σ : State) (e : Event)
    (h41 : e.kind = 41) : ProcChar ctx σ e := by
  have k0 : ¬(e.kind = 0) := by rw [h41]; norm_num
  have k2 : ¬(e.kind = 2) := by rw [h41]; norm_num
  have k3 : ¬(e.kind = 3) := by rw [h41]; norm_num
  have k10000 : ¬(e.kind = 10000) := by rw [h41]; norm_num
  have k10001 : ¬(e.kind = 10001) := by rw [h41]; norm_num
  have k10002 : ¬(e.kind = 10002) := by rw [h41]; norm_num
  have k40 : ¬(e.kind = 40) := by rw [h41]; norm_num
  have hH : handlersFor e.kind = [handler41] := by
    unfold handlersFor
    rw [if_neg k0, if_neg k2, if_neg k3, if_neg k10000, if_neg k10001,
      if_neg k10002, if_neg k40, if_pos h41]
  obtain ⟨harch1, harch2, harch3, _, _, _⟩ := archive_frame σ e
  cases htags : e.tags with
  | none =>
    have hno : ¬OkEv ctx σ e := fun hOk => absurd htags (hOk.2.2.2 h41)
    have herr : handler41 ctx e (archive σ e) =
        .error "tags of undefined" := by
      unfold handler41
      rw [htags]
    have hpe : procEvent ctx σ e =
        (archive σ e, some "tags of undefined") := by
      unfold procEvent
      rw [hH, runHandlers_cons_err ctx e _ _ _ _ herr]
    exact ⟨fun hOk => absurd hOk hno, fun _ => hpe⟩
  | some tags =>
    have hOk : OkEv ctx σ e :=
      ⟨fun hk => absurd hk k3, fun hk => absurd hk k10001,
       fun hk => absurd hk k10002,
       fun _ hn => Option.noConfusion (htags ▸ hn)⟩
    obtain ⟨σ1, hok1⟩ := handler41_total ctx e (archive σ e) tags htags
    have hpe : procEvent ctx σ e = (σ1, none) := by
      unfold procEvent
      rw [hH, runHandlers_cons_ok ctx e _ _ _ _ hok1, runHandlers_nil]
    obtain ⟨hfp1, hfpr1, _, _, _, _⟩ :=
      handler41_ok_frame ctx e (archive σ e) σ1 hok1
    refine ⟨fun _ => ?_, fun hn => absurd hOk hn⟩
    rw [hpe]
    refine ⟨rfl, ?_, ?_, ?_, ?_⟩
    · intro p
      have hpext : pext ctx p [e] = [] := by
        rw [pext_one]
        by_cases hpk : e.pubkey = p
        · rw [if_pos hpk, if_neg k0, if_neg k3]
          rfl
        · rw [if_neg hpk]
          rfl
      rw [hpext]
      show σ1.people p = σ.people p
      rw [hfp1, harch1]
    · intro rid
      have hh := handler41_rooms_char ctx e (archive σ e) σ1 h41 tags
        htags hok1 rid
      rw [harch3] at hh
      exact hh
    · show σ1.profile.pubkey = σ.profile.pubkey
      rw [hfpr1]
      exact congrArg Profile.pubkey harch2
    · have hrl : rlext ctx σ.profile.pubkey [e] = [] := by
        rw [rlext_one]
        by_cases hpk : e.pubkey = σ.profile.pubkey
        · rw [if_pos hpk, if_neg k2, if_neg k3, if_neg k10001,
            if_neg k10002]
          rfl
        · rw [if_neg hpk]
          rfl
      rw [hrl]
      show σ1.profile.relays_updated_at = σ.profile.relays_updated_at
      rw [hfpr1]
      exact congrArg Profile.relays_updated_at harch2

/-- Dispatching a kind-10001 event throws exactly on an untagged fresh
own event and otherwise replays the relay timestamp. -/
theorem procChar_kind10001 (ctx : Ctx) (σ : State) (e : Event)
    (h10001 : e.kind = 10001) : ProcChar ctx σ e := by
  have k0 : ¬(e.kind = 0) := by rw [h10001]; norm_num
  have k2 : ¬(e.kind = 2) := by rw [h10001]; norm_num
  have k3 : ¬(e.kind = 3) := by rw [h10001]; norm_num
  have k10000 : ¬(e.kind = 10000) := by rw [h10001]; norm_num
  have k10002 : ¬(e.kind = 10002) := by rw [h10001]; norm_num
  have k40 : ¬(e.kind = 40) := by rw [h10001]; norm_num
  have k41 : ¬(e.kind = 41) := by rw [h10001]; norm_num
  have hH : handlersFor e.kind =
      [profileHandler (fun p => p.relays_updated_at) setRelays
        getValueRelays10001] := by
    unfold handlersFor
    rw [if_neg k0, if_neg k2, if_neg k3, if_neg k10000, if_pos h10001]
  obtain ⟨harch1, harch2, harch3, _, _, _⟩ := archive_frame σ e
  have hpext : ∀ p, pext ctx p [e] = [] := by
    intro p
    rw [pext_one]
    by_cases hpk : e.pubkey = p
    · rw [if_pos hpk, if_neg k0, if_neg k3]
      rfl
    · rw [if_neg hpk]
      rfl
  have hrext : ∀ rid, rext ctx rid [e] = [] := by
    intro rid
    rw [rext_one, if_neg k40, if_neg k41]
    rfl
  by_cases hpk : e.pubkey = σ.profile.pubkey
  · by_cases hst : tsLt e.created_at σ.profile.relays_updated_at = true
    · have hOk : OkEv ctx σ e :=
        ⟨fun hk => absurd hk k3, fun _ _ _ => hst,
         fun hk => absurd hk k10002, fun hk => absurd hk k41⟩
      have h1 : profileHandler (fun p => p.relays_updated_at) setRelays
          getValueRelays10001 ctx e (archive σ e) = .ok (archive σ e) :=
        profileHandler_stale_t _ _ _ ctx e (archive σ e)
          (by rw [harch2]; exact hst)
      have hpe : procEvent ctx σ e = (archive σ e, none) := by
        unfold procEvent
        rw [hH, runHandlers_cons_ok ctx e _ _ _ _ h1, runHandlers_nil]
      refine ⟨fun _ => ?_, fun hn => absurd hOk hn⟩
      rw [hpe]
      refine ⟨rfl, ?_, ?_, ?_, ?_⟩
      · intro p
        rw [hpext p]
        exact congrFun harch1 p
      · intro rid
        rw [hrext rid]
        exact congrFun harch3 rid
      · exact congrArg Profile.pubkey harch2
      · rw [rlext_one, if_pos hpk, if_neg k2, if_neg k3, if_pos h10001]
        cases htags : e.tags with
        | none =>
          show (archive σ e).profile.relays_updated_at =
            σ.profile.relays_updated_at
          exact congrArg Profile.relays_updated_at harch2
        | some tags =>
          show (archive σ e).profile.relays_updated_at =
            rlStep σ.profile.relays_updated_at (.upd e.created_at)
          rw [show rlStep σ.profile.relays_updated_at (.upd e.created_at) =
              σ.profile.relays_updated_at from by
            show (if tsLt e.created_at σ.profile.relays_updated_at then _
              else _) = _
            rw [if_pos hst]]
          exact congrArg Profile.relays_updated_at harch2
    · have hst' : tsLt e.created_at σ.profile.relays_updated_at =
          false := by
        simpa using hst
      cases htags : e.tags with
      | none =>
        have hno : ¬OkEv ctx σ e :=
          fun hOk => hst (hOk.2.1 h10001 htags hpk)
        have hgv : getValueRelays10001 ctx e (archive σ e).profile =
            .error "tags of undefined" := by
          unfold getValueRelays10001
          rw [htags]
        have herr : profileHandler (fun p => p.relays_updated_at)
            setRelays getValueRelays10001 ctx e (archive σ e) =
            .error "tags of undefined" :=
          profileHandler_err _ _ _ ctx e (archive σ e) _
            (by rw [harch2]; exact hpk) (by rw [harch2]; exact hst') hgv
        have hpe : procEvent ctx σ e =
            (archive σ e, some "tags of undefined") := by
          unfold procEvent
          rw [hH, runHandlers_cons_err ctx e _ _ _ _ herr]
        exact ⟨fun hOk => absurd hOk hno, fun _ => hpe⟩
      | some tags =>
        have hOk : OkEv ctx σ e :=
          ⟨fun hk => absurd hk k3,
           fun _ hn _ => absurd (htags ▸ hn) (fun h => Option.noConfusion h),
           fun hk => absurd hk k10002, fun hk => absurd hk k41⟩
        have hgv : getValueRelays10001 ctx e (archive σ e).profile =
            .ok (some (tags.map (fun t =>
              { url := (t.get? 0).getD "",
                read := some (!(t.get? 1 == some "!")),
                write := some (!(t.get? 2 == some "!")) }))) := by
          unfold getValueRelays10001
          rw [htags]
        have h1 := profileHandler_accept (fun p => p.relays_updated_at)
          setRelays getValueRelays10001 ctx e (archive σ e) _
          (by rw [harch2]; exact hpk) (by rw [harch2]; exact hst') hgv
        obtain ⟨σ1, hok1⟩ := profileHandler_total
          (fun p => p.relays_updated_at) setRelays getValueRelays10001
          ctx e (archive σ e) ⟨_, hgv⟩
        have hσ1 := Except.ok.inj (h1.symm.trans hok1)
        have hpe : procEvent ctx σ e = (σ1, none) := by
          unfold procEvent
          rw [hH, runHandlers_cons_ok ctx e _ _ _ _ hok1, runHandlers_nil]
        refine ⟨fun _ => ?_, fun hn => absurd hOk hn⟩
        rw [hpe]
        refine ⟨rfl, ?_, ?_, ?_, ?_⟩
        · intro p
          rw [hpext p]
          rw [← hσ1]
          exact congrFun harch1 p
        · intro rid
          rw [hrext rid]
          rw [← hσ1]
          exact congrFun harch3 rid
        · rw [← hσ1]
          show (archive σ e).profile.pubkey = σ.profile.pubkey
          exact congrArg Profile.pubkey harch2
        · rw [rlext_one, if_pos hpk, if_neg k2, if_neg k3, if_pos h10001,
            htags, ← hσ1]
          show (some e.created_at : Option Int) =
            rlStep σ.profile.relays_updated_at (.upd e.created_at)
          show (some e.created_at : Option Int) =
            if tsLt e.created_at σ.profile.relays_updated_at then
              σ.profile.relays_updated_at
            else some e.created_at
          rw [if_neg (by simp [hst'])]
  · have hOk : OkEv ctx σ e :=
      ⟨fun hk => absurd hk k3, fun _ _ hpk' => absurd hpk' hpk,
       fun hk => absurd hk k10002, fun hk => absurd hk k41⟩
    have h1 : profileHandler (fun p => p.relays_updated_at) setRelays
        getValueRelays10001 ctx e (archive σ e) = .ok (archive σ e) :=
      profileHandler_other _ _ _ ctx e (archive σ e)
        (by rw [harch2]; exact hpk)
    have hpe : procEvent ctx σ e = (archive σ e, none) := by
      unfold procEvent
      rw [hH, runHandlers_cons_ok ctx e _ _ _ _ h1, runHandlers_nil]
    refine ⟨fun _ => ?_, fun hn => absurd hOk hn⟩
    rw [hpe]
    refine ⟨rfl, ?_, ?_, ?_, ?_⟩
    · intro p
      rw [hpext p]
      exact congrFun harch1 p
    · intro rid
      rw [hrext rid]
      exact congrFun harch3 rid
    · exact congrArg Profile.pubkey harch2
    · rw [rlext_one, if_neg hpk]
      exact congrArg Profile.relays_updated_at harch2

/-- Dispatching a kind-10002 event throws exactly on a missing tag list
and otherwise replays the relay timestamp. -/
theorem procChar_kind10002 (ctx : Ctx) (σ : State) (e : Event)
    (h10002 : e.kind = 10002) : ProcChar ctx σ e := by
  have k0 : ¬(e.kind = 0) := by rw [h10002]; norm_num
  have k2 : ¬(e.kind = 2) := by rw [h10002]; norm_num
  have k3 : ¬(e.kind = 3) := by rw [h10002]; norm_num
  have k10000 : ¬(e.kind = 10000) := by rw [h10002]; norm_num
  have k10001 : ¬(e.kind = 10001) := by rw [h10002]; norm_num
  have k40 : ¬(e.kind = 40) := by rw [h10002]; norm_num
  have k41 : ¬(e.kind = 41) := by rw [h10002]; norm_num
  have hH : handlersFor e.kind =
      [profileHandler (fun p => p.relays_updated_at) setRelays
        getValueRelays10002, handler10002Routes] := by
    unfold handlersFor
    rw [if_neg k0, if_neg k2, if_neg k3, if_neg k10000, if_neg k10001,
      if_pos h10002]
  obtain ⟨harch1, harch2, harch3, _, _, _⟩ := archive_frame σ e
  have hpext : ∀ p, pext ctx p [e] = [] := by
    intro p
    rw [pext_one]
    by_cases hpk : e.pubkey = p
    · rw [if_pos hpk, if_neg k0, if_neg k3]
      rfl
    · rw [if_neg hpk]
      rfl
  have hrext : ∀ rid, rext ctx rid [e] = [] := by
    intro rid
    rw [rext_one, if_neg k40, if_neg k41]
    rfl
  cases htags : e.tags with
  | none =>
    have hno : ¬OkEv ctx σ e := fun hOk => absurd htags (hOk.2.2.1 h10002)
    have herr2 : ∀ τ, handler10002Routes ctx e τ =
        .error "tags of undefined" := by
      intro τ
      unfold handler10002Routes
      rw [htags]
    have hpe : procEvent ctx σ e =
        (archive σ e, some "tags of undefined") := by
      unfold procEvent
      rw [hH]
      by_cases hpk : e.pubkey = σ.profile.pubkey
      · by_cases hst : tsLt e.created_at σ.profile.relays_updated_at = true
        · rw [runHandlers_cons_ok ctx e _ _ _ _
            (profileHandler_stale_t _ _ _ ctx e (archive σ e)
              (by rw [harch2]; exact hst)),
            runHandlers_cons_err ctx e _ _ _ _ (herr2 (archive σ e))]
        · have hgv : getValueRelays10002 ctx e (archive σ e).profile =
              .error "tags of undefined" := by
            unfold getValueRelays10002
            rw [htags]
          rw [runHandlers_cons_err ctx e _ _ _ _
            (profileHandler_err _ _ _ ctx e (archive σ e) _
              (by rw [harch2]; exact hpk)
              (by rw [harch2]; simpa using hst) hgv)]
      · rw [runHandlers_cons_ok ctx e _ _ _ _
          (profileHandler_other _ _ _ ctx e (archive σ e)
            (by rw [harch2]; exact hpk)),
          runHandlers_cons_err ctx e _ _ _ _ (herr2 (archive σ e))]
    exact ⟨fun hOk => absurd hOk hno, fun _ => hpe⟩
  | some tags =>
    have hOk : OkEv ctx σ e :=
      ⟨fun hk => absurd hk k3, fun hk => absurd hk k10001,
       fun _ hn => absurd (htags ▸ hn) (fun h => Option.noConfusion h),
       fun hk => absurd hk k41⟩
    have hgv : getValueRelays10002 ctx e (archive σ e).profile =
        .ok (some ((tagsOfType tags "r").map (fun t =>
          let m := (t.get? 2).getD ""
          { url := (t.get? 1).getD "",
            read := some ((if m = "" then "read" else m) == "read"),
            write := some ((if m = "" then "write" else m) ==
              "write") }))) := by
      unfold getValueRelays10002
      rw [htags]
    obtain ⟨σ1, hok1⟩ := profileHandler_total
      (fun p => p.relays_updated_at) setRelays getValueRelays10002
      ctx e (archive σ e) ⟨_, hgv⟩
    obtain ⟨σ2, hok2⟩ := handler10002Routes_total ctx e σ1 tags htags
    have hpe : procEvent ctx σ e = (σ2, none) := by
      unfold procEvent
      rw [hH, runHandlers_cons_ok ctx e _ _ _ _ hok1,
        runHandlers_cons_ok ctx e _ _ _ _ hok2, runHandlers_nil]
    obtain ⟨hfp1, hfr1, _, _, _, _⟩ := profileHandler_ok_frame
      (fun p => p.relays_updated_at) setRelays getValueRelays10002 ctx e
      (archive σ e) σ1 hok1
    obtain ⟨heo1, heo2, heo3, _, _⟩ :=
      handler10002Routes_eqOutside ctx e σ1 σ2 hok2
    refine ⟨fun _ => ?_, fun hn => absurd hOk hn⟩
    rw [hpe]
    refine ⟨rfl, ?_, ?_, ?_, ?_⟩
    · intro p
      rw [hpext p]
      show σ2.people p = σ.people p
      rw [heo1, hfp1, harch1]
    · intro rid
      rw [hrext rid]
      show σ2.rooms rid = σ.rooms rid
      rw [heo3, hfr1, harch3]
    · show σ2.profile.pubkey = σ.profile.pubkey
      rw [heo2]
      rw [profileHandler_profile_pres _ _ _ ctx e (archive σ e) σ1 hok1
        (fun prof v t => rfl)]
      exact congrArg Profile.pubkey harch2
    · by_cases hpk : e.pubkey = σ.profile.pubkey
      · have hrl : rlext ctx σ.profile.pubkey [e] =
            [.upd e.created_at] := by
          rw [rlext_one, if_pos hpk, if_neg k2, if_neg k3, if_neg k10001,
            if_pos h10002, htags]
          rfl
        rw [hrl]
        by_cases hst : tsLt e.created_at σ.profile.relays_updated_at = true
        · have h1 : profileHandler (fun p => p.relays_updated_at)
              setRelays getValueRelays10002 ctx e (archive σ e) =
              .ok (archive σ e) :=
            profileHandler_stale_t _ _ _ ctx e (archive σ e)
              (by rw [harch2]; exact hst)
          have hσ1 := Except.ok.inj (h1.symm.trans hok1)
          show σ2.profile.relays_updated_at =
            rlStep σ.profile.relays_updated_at (.upd e.created_at)
          rw [show rlStep σ.profile.relays_updated_at (.upd e.created_at) =
              σ.profile.relays_updated_at from by
            show (if tsLt e.created_at σ.profile.relays_updated_at then _
              else _) = _
            rw [if_pos hst]]
          rw [heo2, ← hσ1]
          exact congrArg Profile.relays_updated_at harch2
        · have hst' : tsLt e.created_at σ.profile.relays_updated_at =
              false := by
            simpa using hst
          have h1 := profileHandler_accept (fun p => p.relays_updated_at)
            setRelays getValueRelays10002 ctx e (archive σ e) _
            (by rw [harch2]; exact hpk) (by rw [harch2]; exact hst') hgv
          have hσ1 := Except.ok.inj (h1.symm.trans hok1)
          rw [heo2, ← hσ1]
          show (some e.created_at : Option Int) =
            rlStep σ.profile.relays_updated_at (.upd e.created_at)
          show (some e.created_at : Option Int) =
            if tsLt e.created_at σ.profile.relays_updated_at then
              σ.profile.relays_updated_at
            else some e.created_at
          rw [if_neg (by simp [hst'])]
      · have hrl : rlext ctx σ.profile.pubkey [e] = [] := by
          rw [rlext_one, if_neg hpk]
          rfl
        rw [hrl]
        have h1 : profileHandler (fun p => p.relays_updated_at) setRelays
            getValueRelays10002 ctx e (archive σ e) = .ok (archive σ e) :=
          profileHandler_other _ _ _ ctx e (archive σ e)
            (by rw [harch2]; exact hpk)
        have hσ1 := Except.ok.inj (h1.symm.trans hok1)
        show σ2.profile.relays_updated_at = σ.profile.relays_updated_at
        rw [heo2, ← hσ1]
        exact congrArg Profile.relays_updated_at harch2

/-- The kind-3 petnames handler is a no-op on stale events (guard
form). -/
theorem handler3Petnames_stale_t (ctx : Ctx) (e : Event) (σ : State)
    (hts : tsLt e.created_at
      ((σ.people e.pubkey).bind (fun p => p.petnames_updated_at)) =
      true) :
    handler3Petnames ctx e σ = .ok σ := by
  unfold handler3Petnames
  rw [if_pos hts]

/-- The kind-3 petnames handler throws on a fresh untagged event. -/
theorem handler3Petnames_err (ctx : Ctx) (e : Event) (σ : State)
    (hts : tsLt e.created_at
      ((σ.people e.pubkey).bind (fun p => p.petnames_updated_at)) =
      false)
    (htags : e.tags = none) :
    handler3Petnames ctx e σ = .error "tags of undefined" := by
  unfold handler3Petnames
  rw [if_neg (by simp [hts]), htags]

/-- The kind-3 petnames handler never writes any people row but its
event's. -/
theorem handler3Petnames_people_other (ctx : Ctx) (e : Event)
    (σ σ' : State) (hok : handler3Petnames ctx e σ = .ok σ') (p : String)
    (hne : ¬(e.pubkey = p)) : σ'.people p = σ.people p := by
  by_cases hts : tsLt e.created_at
      ((σ.people e.pubkey).bind (fun q => q.petnames_updated_at)) = true
  · rw [handler3Petnames_stale_t ctx e σ hts] at hok
    obtain rfl := Except.ok.inj hok
    rfl
  · cases htags : e.tags with
    | none =>
      rw [handler3Petnames_err ctx e σ (by simpa using hts) htags] at hok
      exact Except.noConfusion hok
    | some tags =>
      rw [handler3Petnames_accept ctx e σ tags htags
        (by simpa using hts)] at hok
      obtain rfl := Except.ok.inj hok
      rw [updatePerson_people_other _ _ _ _ p (fun h => hne h.symm)]

/-- A non-throwing kind-3 relay-selection pass replays the recorded
relay-timestamp action. -/
theorem profileHandler_gv3_rlts (ctx : Ctx) (e : Event) (τ σ2 : State)
    (h3 : e.kind = 3)
    (hok : profileHandler (fun p => p.relays_updated_at) setRelays
      getValueRelays3 ctx e τ = .ok σ2) :
    σ2.profile.relays_updated_at =
      rlRun τ.profile.relays_updated_at
        (rlext ctx τ.profile.pubkey [e]) := by
  have k2 : ¬(e.kind = 2) := by rw [h3]; norm_num
  rw [rlext_one]
  by_cases hpk : e.pubkey = τ.profile.pubkey
  · rw [if_pos hpk, if_neg k2, if_pos h3]
    cases hrl3 : rl3some ctx e with
    | false =>
      have h2 : profileHandler (fun p => p.relays_updated_at) setRelays
          getValueRelays3 ctx e τ = .ok τ :=
        profileHandler_falsy _ _ _ ctx e τ
          ((getValueRelays3_char ctx e τ.profile).1 hrl3)
      obtain rfl := Except.ok.inj (h2.symm.trans hok)
      rfl
    | true =>
      by_cases hst : tsLt e.created_at τ.profile.relays_updated_at = true
      · have h2 := profileHandler_stale_t (fun p => p.relays_updated_at)
          setRelays getValueRelays3 ctx e τ hst
        obtain rfl := Except.ok.inj (h2.symm.trans hok)
        show τ.profile.relays_updated_at =
          if tsLt e.created_at τ.profile.relays_updated_at then
            τ.profile.relays_updated_at
          else some e.created_at
        rw [if_pos hst]
      · obtain ⟨v, hv⟩ := (getValueRelays3_char ctx e τ.profile).2 hrl3
        have h2 := profileHandler_accept (fun p => p.relays_updated_at)
          setRelays getValueRelays3 ctx e τ v hpk (by simpa using hst) hv
        have hσ2 := Except.ok.inj (h2.symm.trans hok)
        rw [← hσ2]
        show (some e.created_at : Option Int) =
          if tsLt e.created_at τ.profile.relays_updated_at then
            τ.profile.relays_updated_at
          else some e.created_at
        rw [if_neg (by simpa using hst)]
  · rw [if_neg hpk]
    have h2 := profileHandler_other (fun p => p.relays_updated_at)
      setRelays getValueRelays3 ctx e τ hpk
    obtain rfl := Except.ok.inj (h2.symm.trans hok)
    rfl

/-- Dispatching a kind-3 event throws exactly on a fresh untagged event
and otherwise replays the people and relay-timestamp projections. -/
theorem procChar_kind3 (ctx : Ctx) (σ : State) (e : Event)
    (h3 : e.kind = 3) : ProcChar ctx σ e := by
  have k0 : ¬(e.kind = 0) := by rw [h3]; norm_num
  have k2 : ¬(e.kind = 2) := by rw [h3]; norm_num
  have k10000 : ¬(e.kind = 10000) := by rw [h3]; norm_num
  have k10001 : ¬(e.kind = 10001) := by rw [h3]; norm_num
  have k10002 : ¬(e.kind = 10002) := by rw [h3]; norm_num
  have k40 : ¬(e.kind = 40) := by rw [h3]; norm_num
  have k41 : ¬(e.kind = 41) := by rw [h3]; norm_num
  have hH : handlersFor e.kind =
      [handler3Petnames,
       profileHandler (fun p => p.relays_updated_at) setRelays
         getValueRelays3,
       handler3Routes] := by
    unfold handlersFor
    rw [if_neg k0, if_neg k2, if_pos h3]
  obtain ⟨harch1, harch2, harch3, _, _, _⟩ := archive_frame σ e
  have hrext : ∀ rid, rext ctx rid [e] = [] := by
    intro rid
    rw [rext_one, if_neg k40, if_neg k41]
    rfl
  cases htags : e.tags with
  | none =>
    by_cases hst3 : tsLt e.created_at
        ((σ.people e.pubkey).bind (fun r => r.petnames_updated_at)) = true
    · have hOk : OkEv ctx σ e :=
        ⟨fun _ _ => hst3, fun hk => absurd hk k10001,
         fun hk => absurd hk k10002, fun hk => absurd hk k41⟩
      have h1 : handler3Petnames ctx e (archive σ e) =
          .ok (archive σ e) :=
        handler3Petnames_stale_t ctx e (archive σ e)
          (by rw [harch1]; exact hst3)
      obtain ⟨σ2, hok2⟩ := profileHandler_total
        (fun p => p.relays_updated_at) setRelays getValueRelays3 ctx e
        (archive σ e) ⟨_, rfl⟩
      obtain ⟨σ3, hok3⟩ : ∃ σ3, handler3Routes ctx e σ2 = .ok σ3 :=
        ⟨_, rfl⟩
      have hpe : procEvent ctx σ e = (σ3, none) := by
        unfold procEvent
        rw [hH, runHandlers_cons_ok ctx e _ _ _ _ h1,
          runHandlers_cons_ok ctx e _ _ _ _ hok2,
          runHandlers_cons_ok ctx e _ _ _ _ hok3, runHandlers_nil]
      obtain ⟨hfp2, hfr2, _, _, _, _⟩ := profileHandler_ok_frame
        (fun p => p.relays_updated_at) setRelays getValueRelays3 ctx e
        (archive σ e) σ2 hok2
      obtain ⟨heo1, heo2, heo3, _, _⟩ :=
        handler3Routes_eqOutside ctx e σ2 σ3 hok3
      refine ⟨fun _ => ?_, fun hn => absurd hOk hn⟩
      rw [hpe]
      refine ⟨rfl, ?_, ?_, ?_, ?_⟩
      · intro p
        have hps : pRun ctx.nowT p (σ.people p) (pext ctx p [e]) =
            σ.people p := by
          rw [pext_one]
          by_cases hpk : e.pubkey = p
          · rw [if_pos hpk, if_neg k0, if_pos h3, htags]
            rfl
          · rw [if_neg hpk]
            rfl
        rw [hps]
        show σ3.people p = σ.people p
        rw [heo1, hfp2, harch1]
      · intro rid
        rw [hrext rid]
        show σ3.rooms rid = σ.rooms rid
        rw [heo3, hfr2, harch3]
      · show σ3.profile.pubkey = σ.profile.pubkey
        rw [heo2]
        rw [profileHandler_profile_pres _ _ _ ctx e (archive σ e) σ2 hok2
          (fun prof v t => rfl)]
        exact congrArg Profile.pubkey harch2
      · have hh := profileHandler_gv3_rlts ctx e (archive σ e) σ2 h3 hok2
        rw [harch2] at hh
        show σ3.profile.relays_updated_at = _
        rw [heo2]
        exact hh
    · have hno : ¬OkEv ctx σ e := fun hOk => hst3 (hOk.1 h3 htags)
      have herr : handler3Petnames ctx e (archive σ e) =
          .error "tags of undefined" :=
        handler3Petnames_err ctx e (archive σ e)
          (by rw [harch1]; simpa using hst3) htags
      have hpe : procEvent ctx σ e =
          (archive σ e, some "tags of undefined") := by
        unfold procEvent
        rw [hH, runHandlers_cons_err ctx e _ _ _ _ herr]
      exact ⟨fun hOk => absurd hOk hno, fun _ => hpe⟩
  | some tags =>
    have hOk : OkEv ctx σ e :=
      ⟨fun _ hn => absurd (htags ▸ hn) (fun h => Option.noConfusion h),
       fun hk => absurd hk k10001, fun hk => absurd hk k10002,
       fun hk => absurd hk k41⟩
    obtain ⟨σ1, hok1⟩ := handler3Petnames_total ctx e (archive σ e) tags
      htags
    obtain ⟨σ2, hok2⟩ := profileHandler_total
      (fun p => p.relays_updated_at) setRelays getValueRelays3 ctx e σ1
      ⟨_, rfl⟩
    obtain ⟨σ3, hok3⟩ : ∃ σ3, handler3Routes ctx e σ2 = .ok σ3 := ⟨_, rfl⟩
    have hpe : procEvent ctx σ e = (σ3, none) := by
      unfold procEvent
      rw [hH, runHandlers_cons_ok ctx e _ _ _ _ hok1,
        runHandlers_cons_ok ctx e _ _ _ _ hok2,
        runHandlers_cons_ok ctx e _ _ _ _ hok3, runHandlers_nil]
    obtain ⟨hfr1, _, _, _, _, hfpk1, _, hfts1, _, _⟩ :=
      handler3Petnames_ok_frame ctx e (archive σ e) σ1 hok1
    obtain ⟨hfp2, hfr2, _, _, _, _⟩ := profileHandler_ok_frame
      (fun p => p.relays_updated_at) setRelays getValueRelays3 ctx e σ1
      σ2 hok2
    obtain ⟨heo1, heo2, heo3, _, _⟩ :=
      handler3Routes_eqOutside ctx e σ2 σ3 hok3
    refine ⟨fun _ => ?_, fun hn => absurd hOk hn⟩
    rw [hpe]
    refine ⟨rfl, ?_, ?_, ?_, ?_⟩
    · intro p
      rw [pext_one]
      by_cases hpk : e.pubkey = p
      · rw [if_pos hpk, if_neg k0, if_pos h3, htags]
        subst hpk
        by_cases hst3 : tsLt e.created_at
            ((σ.people e.pubkey).bind
              (fun r => r.petnames_updated_at)) = true
        · have h1 : handler3Petnames ctx e (archive σ e) =
              .ok (archive σ e) :=
            handler3Petnames_stale_t ctx e (archive σ e)
              (by rw [harch1]; exact hst3)
          have hσ1 := Except.ok.inj (h1.symm.trans hok1)
          show σ3.people e.pubkey = pStep ctx.nowT e.pubkey
            (σ.people e.pubkey) (.p3 e.created_at tags)
          rw [pStep_p3_skip ctx.nowT e.pubkey (σ.people e.pubkey)
            e.created_at tags hst3]
          rw [heo1, hfp2, ← hσ1, harch1]
        · have hst3' : tsLt e.created_at
              ((σ.people e.pubkey).bind
                (fun r => r.petnames_updated_at)) = false := by
            simpa using hst3
          have h1 := handler3Petnames_accept ctx e (archive σ e) tags
            htags (by rw [harch1]; exact hst3')
          have hσ1 := Except.ok.inj (h1.symm.trans hok1)
          have hq := pStep_eq_update3 ctx.nowT (archive σ e) e.pubkey
            e.created_at tags (by rw [harch1]; exact hst3')
          rw [congrFun harch1 e.pubkey] at hq
          show σ3.people e.pubkey = pStep ctx.nowT e.pubkey
            (σ.people e.pubkey) (.p3 e.created_at tags)
          rw [heo1, hfp2, ← hσ1]
          exact hq.symm
      · rw [if_neg hpk]
        show σ3.people p = σ.people p
        rw [heo1, hfp2,
          handler3Petnames_people_other ctx e (archive σ e) σ1 hok1 p hpk,
          harch1]
    · intro rid
      rw [hrext rid]
      show σ3.rooms rid = σ.rooms rid
      rw [heo3, hfr2, hfr1, harch3]
    · show σ3.profile.pubkey = σ.profile.pubkey
      rw [heo2]
      rw [profileHandler_profile_pres _ _ _ ctx e σ1 σ2 hok2
        (fun prof v t => rfl)]
      rw [hfpk1]
      exact congrArg Profile.pubkey harch2
    · have hh := profileHandler_gv3_rlts ctx e σ1 σ2 h3 hok2
      have hu : σ1.profile.pubkey = σ.profile.pubkey := by
        rw [hfpk1]
        exact congrArg Profile.pubkey harch2
      have ht : σ1.profile.relays_updated_at =
          σ.profile.relays_updated_at := by
        rw [hfts1]
        exact congrArg Profile.relays_updated_at harch2
      rw [hu, ht] at hh
      show σ3.profile.relays_updated_at = _
      rw [heo2]
      exact hh

/-- The per-event dispatch characterization, for every kind. -/
theorem procEvent_char (ctx : Ctx) (σ : State) (e : Event) :
    ProcChar ctx σ e := by
  by_cases h0 : e.kind = 0
  · exact procChar_kind0 ctx σ e h0
  by_cases h2 : e.kind = 2
  · exact procChar_kind2 ctx σ e h2
  by_cases h3 : e.kind = 3
  · exact procChar_kind3 ctx σ e h3
  by_cases h10000 : e.kind = 10000
  · exact procChar_kind10000 ctx σ e h10000
  by_cases h10001 : e.kind = 10001
  · exact procChar_kind10001 ctx σ e h10001
  by_cases h10002 : e.kind = 10002
  · exact procChar_kind10002 ctx σ e h10002
  by_cases h40 : e.kind = 40
  · exact procChar_kind40 ctx σ e h40
  by_cases h41 : e.kind = 41
  · exact procChar_kind41 ctx σ e h41
  exact procChar_other ctx σ e h0 h2 h3 h10000 h10001 h10002 h40 h41

/-- The empty batch runs cleanly from any state. -/
theorem AllOk_nil (ctx : Ctx) (σ : State) : AllOk ctx σ [] :=
  ⟨fun e h => absurd h (List.not_mem_nil e),
   fun e h => absurd h (List.not_mem_nil e),
   fun _ => trivial, trivial⟩

/-- The per-event no-throw conditions are the batch conditions of the
singleton batch. -/
theorem OkEv_iff_single (ctx : Ctx) (σ : State) (e : Event) :
    OkEv ctx σ e ↔ AllOk ctx σ [e] := by
  constructor
  · intro hOk
    refine ⟨?_, ?_, ?_, ?_⟩
    · intro e' he' hk
      obtain rfl := List.mem_singleton.mp he'
      exact hOk.2.2.1 hk
    · intro e' he' hk
      obtain rfl := List.mem_singleton.mp he'
      exact hOk.2.2.2 hk
    · intro p
      rw [pext_one]
      by_cases hpk : e.pubkey = p
      · rw [if_pos hpk]
        by_cases hk0 : e.kind = 0
        · rw [if_pos hk0]
          cases he : eff0 ctx e with
          | none => exact trivial
          | some b => exact ⟨trivial, trivial⟩
        · rw [if_neg hk0]
          by_cases hk3 : e.kind = 3
          · rw [if_pos hk3]
            cases htags : e.tags with
            | none =>
              refine ⟨?_, trivial⟩
              rw [← hpk]
              exact hOk.1 hk3 htags
            | some tags => exact ⟨trivial, trivial⟩
          · rw [if_neg hk3]
            exact trivial
      · rw [if_neg hpk]
        exact trivial
    · rw [rlext_one]
      by_cases hpk : e.pubkey = σ.profile.pubkey
      · rw [if_pos hpk]
        by_cases hk2 : e.kind = 2
        · rw [if_pos hk2]
          exact ⟨trivial, trivial⟩
        · rw [if_neg hk2]
          by_cases hk3 : e.kind = 3
          · rw [if_pos hk3]
            cases hrl : rl3some ctx e with
            | false => exact ⟨trivial, trivial⟩
            | true => exact ⟨trivial, trivial⟩
          · rw [if_neg hk3]
            by_cases hk10001 : e.kind = 10001
            · rw [if_pos hk10001]
              cases htags : e.tags with
              | none => exact ⟨hOk.2.1 hk10001 htags hpk, trivial⟩
              | some tags => exact ⟨trivial, trivial⟩
            · rw [if_neg hk10001]
              by_cases hk10002 : e.kind = 10002
              · rw [if_pos hk10002]
                cases htags : e.tags with
                | none => exact ⟨trivial, trivial⟩
                | some tags => exact ⟨trivial, trivial⟩
              · rw [if_neg hk10002]
                exact trivial
      · rw [if_neg hpk]
        exact trivial
  · intro hA
    obtain ⟨hA1, hA2, hA3, hA4⟩ := hA
    refine ⟨?_, ?_, ?_, ?_⟩
    · intro hk3 htags
      have h := hA3 e.pubkey
      rw [pext_one, if_pos rfl, if_neg (by rw [hk3]; norm_num),
        if_pos hk3, htags] at h
      exact h.1
    · intro hk htags hpk
      have h := hA4
      rw [rlext_one, if_pos hpk, if_neg (by rw [hk]; norm_num),
        if_neg (by rw [hk]; norm_num), if_pos hk, htags] at h
      exact h.1
    · intro hk
      exact hA1 e (List.mem_singleton.mpr rfl) hk
    · intro hk
      exact hA2 e (List.mem_singleton.mpr rfl) hk

/-- A clean batch run restricts to its head event. -/
theorem AllOk_cons_head (ctx : Ctx) (σ : State) (e : Event)
    (rest : List Event) (h : AllOk ctx σ (e :: rest)) :
    AllOk ctx σ [e] := by
  obtain ⟨h1, h2, h3, h4⟩ := h
  refine ⟨?_, ?_, ?_, ?_⟩
  · intro e' he' hk
    obtain rfl := List.mem_singleton.mp he'
    exact h1 e' (List.mem_cons_self _ _) hk
  · intro e' he' hk
    obtain rfl := List.mem_singleton.mp he'
    exact h2 e' (List.mem_cons_self _ _) hk
  · intro p
    have hp := h3 p
    rw [pext_cons] at hp
    exact ((pOk_append ctx.nowT p _ _ _).mp hp).1
  · have h4' := h4
    rw [rlext_cons] at h4'
    exact ((rlOk_append _ _ _).mp h4').1

/-- The batch no-throw conditions decompose across the head event, once
the head's dispatch satisfies the replay contract. -/
theorem AllOk_cons_iff (ctx : Ctx) (σ : State) (e : Event)
    (rest : List Event) (σe : State)
    (hp : ∀ p, σe.people p =
      pRun ctx.nowT p (σ.people p) (pext ctx p [e]))
    (hpk : σe.profile.pubkey = σ.profile.pubkey)
    (hts : σe.profile.relays_updated_at =
      rlRun σ.profile.relays_updated_at
        (rlext ctx σ.profile.pubkey [e])) :
    AllOk ctx σ (e :: rest) ↔ (AllOk ctx σ [e] ∧ AllOk ctx σe rest) := by
  constructor
  · intro hA
    obtain ⟨h1, h2, h3, h4⟩ := hA
    refine ⟨AllOk_cons_head ctx σ e rest ⟨h1, h2, h3, h4⟩,
      ?_, ?_, ?_, ?_⟩
    · intro e' he' hk
      exact h1 e' (List.mem_cons_of_mem _ he') hk
    · intro e' he' hk
      exact h2 e' (List.mem_cons_of_mem _ he') hk
    · intro p
      have hq := h3 p
      rw [pext_cons] at hq
      have hq2 := ((pOk_append ctx.nowT p _ _ _).mp hq).2
      rw [← hp p] at hq2
      exact hq2
    · have hq := h4
      rw [rlext_cons] at hq
      have hq2 := ((rlOk_append _ _ _).mp hq).2
      rw [← hts] at hq2
      rw [← hpk] at hq2
      exact hq2
  · intro hA
    obtain ⟨⟨h1s, h2s, h3s, h4s⟩, ⟨h1r, h2r, h3r, h4r⟩⟩ := hA
    refine ⟨?_, ?_, ?_, ?_⟩
    · intro e' he' hk
      rcases List.mem_cons.mp he' with rfl | hm
      · exact h1s e' (List.mem_singleton.mpr rfl) hk
      · exact h1r e' hm hk
    · intro e' he' hk
      rcases List.mem_cons.mp he' with rfl | hm
      · exact h2s e' (List.mem_singleton.mpr rfl) hk
      · exact h2r e' hm hk
    · intro p
      rw [pext_cons]
      refine (pOk_append ctx.nowT p _ _ _).mpr ⟨h3s p, ?_⟩
      have hq := h3r p
      rw [hp p] at hq
      exact hq
    · rw [rlext_cons]
      refine (rlOk_append _ _ _).mpr ⟨h4s, ?_⟩
      have hq := h4r
      rw [hpk, hts] at hq
      exact hq

/-- A batch either runs cleanly — replaying every projection — or splits
at the first event whose no-throw condition fails, which raises the
missing-tags error with only the archive written past the clean
prefix. -/
theorem runEvents_split (ctx : Ctx) :
    ∀ (evs : List Event) (σ : State),
      (AllOk ctx σ evs →
        (runEvents ctx σ evs).2 = none ∧
        (∀ p, (runEvents ctx σ evs).1.people p =
          pRun ctx.nowT p (σ.people p) (pext ctx p evs)) ∧
        (∀ rid, (runEvents ctx σ evs).1.rooms rid =
          rRun rid (σ.rooms rid) (rext ctx rid evs)) ∧
        (runEvents ctx σ evs).1.profile.pubkey = σ.profile.pubkey ∧
        (runEvents ctx σ evs).1.profile.relays_updated_at =
          rlRun σ.profile.relays_updated_at
            (rlext ctx σ.profile.pubkey evs)) ∧
      (¬AllOk ctx σ evs →
        ∃ pre e post S1,
          evs = pre ++ e :: post ∧ AllOk ctx σ pre ∧
          runEvents ctx σ pre = (S1, none) ∧ ¬OkEv ctx S1 e ∧
          runEvents ctx σ evs =
            (archive S1 e, some "tags of undefined")) := by
  intro evs
  induction evs with
  | nil =>
    intro σ
    exact ⟨fun _ => ⟨rfl, fun p => rfl, fun rid => rfl, rfl, rfl⟩,
      fun hn => absurd (AllOk_nil ctx σ) hn⟩
  | cons e rest ih =>
    intro σ
    obtain ⟨hchOk, hchErr⟩ := procEvent_char ctx σ e
    by_cases hOk : OkEv ctx σ e
    · obtain ⟨h2none, hp, hr, hpk, hts⟩ := hchOk hOk
      have hpe : procEvent ctx σ e = ((procEvent ctx σ e).1, none) := by
        rw [← h2none]
      have hrun : runEvents ctx σ (e :: rest) =
          runEvents ctx (procEvent ctx σ e).1 rest :=
        runEvents_cons_ok ctx σ _ e rest hpe
      have hAiff := AllOk_cons_iff ctx σ e rest (procEvent ctx σ e).1
        hp hpk hts
      have hOkS : AllOk ctx σ [e] := (OkEv_iff_single ctx σ e).mp hOk
      obtain ⟨ih1, ih2⟩ := ih (procEvent ctx σ e).1
      constructor
      · intro hA
        have hArest : AllOk ctx (procEvent ctx σ e).1 rest :=
          (hAiff.mp hA).2
        obtain ⟨g1, g2, g3, g4, g5⟩ := ih1 hArest
        rw [hrun]
        refine ⟨g1, ?_, ?_, ?_, ?_⟩
        · intro p
          rw [g2 p, hp p, pext_cons ctx p e rest, pRun_append]
        · intro rid
          rw [g3 rid, hr rid, rext_cons ctx rid e rest, rRun_append]
        · rw [g4, hpk]
        · rw [g5, hts, hpk, rlext_cons ctx σ.profile.pubkey e rest,
            rlRun_append]
      · intro hnA
        have hnArest : ¬AllOk ctx (procEvent ctx σ e).1 rest :=
          fun hA => hnA (hAiff.mpr ⟨hOkS, hA⟩)
        obtain ⟨pre, e', post, S1, hsplit, hApre, hrunpre, hnOk,
          hrunAll⟩ := ih2 hnArest
        refine ⟨e :: pre, e', post, S1, by rw [hsplit, List.cons_append], ?_, ?_, hnOk, ?_⟩
        · exact (AllOk_cons_iff ctx σ e pre (procEvent ctx σ e).1
            hp hpk hts).mpr ⟨hOkS, hApre⟩
        · rw [runEvents_cons_ok ctx σ _ e pre hpe]
          exact hrunpre
        · rw [hrun]
          exact hrunAll
    · have hpeErr := hchErr hOk
      constructor
      · intro hA
        exact absurd
          ((OkEv_iff_single ctx σ e).mpr (AllOk_cons_head ctx σ e rest hA))
          hOk
      · intro _
        refine ⟨[], e, rest, σ, rfl, AllOk_nil ctx σ, rfl, hOk, ?_⟩
        exact runEvents_cons_err ctx σ _ e rest _ hpeErr

/-- C2: every field-group guarded by the last-write-wins merger — the
Identity's kind-0 data and petnames, the user profile's relays and mutes,
and room metadata — ignores an event whose `created_at` is strictly below
the stored companion timestamp (leaving field and timestamp unchanged),
while an event whose `created_at` equals the stored timestamp is
accepted. -/
theorem claim2_lww_guard :
    (∀ (ctx : Ctx) (σ : State) (e : Event) (T : Int), e.kind = 0 →
      (σ.people e.pubkey).bind (fun p => p.kind0_updated_at) = some T →
      e.created_at < T →
      (procEvent ctx σ e).1.people = σ.people) ∧
    (∀ (ctx : Ctx) (σ : State) (e : Event) (T : Int), e.kind = 3 →
      (σ.people e.pubkey).bind (fun p => p.petnames_updated_at) = some T →
      e.created_at < T →
      (procEvent ctx σ e).1.people = σ.people) ∧
    (∀ (ctx : Ctx) (σ : State) (e : Event) (T : Int),
      (e.kind = 2 ∨ e.kind = 3 ∨ e.kind = 10001 ∨ e.kind = 10002) →
      σ.profile.relays_updated_at = some T → e.created_at < T →
      (procEvent ctx σ e).1.profile.relays = σ.profile.relays ∧
      (procEvent ctx σ e).1.profile.relays_updated_at =
        σ.profile.relays_updated_at) ∧
    (∀ (ctx : Ctx) (σ : State) (e : Event) (T : Int), e.kind = 10000 →
      σ.profile.mutes_updated_at = some T → e.created_at < T →
      (procEvent ctx σ e).1.profile.mutes = σ.profile.mutes ∧
      (procEvent ctx σ e).1.profile.mutes_updated_at =
        σ.profile.mutes_updated_at) ∧
    (∀ (ctx : Ctx) (σ : State) (e : Event) (room : Room), e.kind = 40 →
      σ.rooms e.id = some room → e.created_at < room.updated_at →
      (procEvent ctx σ e).1.rooms = σ.rooms) ∧
    (∀ (ctx : Ctx) (σ : State) (e : Event) (tags : List (List String))
        (rid : String) (room : Room), e.kind = 41 → e.tags = some tags →
      ((tagsOfType tags "e").head?).bind (fun t => t.get? 1) = some rid →
      σ.rooms rid = some room → e.created_at < room.updated_at →
      (procEvent ctx σ e).1.rooms = σ.rooms) ∧
    (∀ (ctx : Ctx) (σ : State) (e : Event) (j : JVal) (T : Int), e.kind = 0 →
      (σ.people e.pubkey).bind (fun p => p.kind0_updated_at) = some T →
      e.created_at = T → ctx.parse e.content = some j → ¬(j = JVal.null) →
      addressSafe j = true →
      ((procEvent ctx σ e).1.people e.pubkey).bind
        (fun p => p.kind0_updated_at) = some e.created_at) ∧
    (∀ (ctx : Ctx) (σ : State) (e : Event) (tags : List (List String))
        (T : Int), e.kind = 3 → e.tags = some tags →
      (σ.people e.pubkey).bind (fun p => p.petnames_updated_at) = some T →
      e.created_at = T →
      ((procEvent ctx σ e).1.people e.pubkey).bind (fun p => p.petnames) =
        some (tags.filter (fun t => t.head? == some "p")) ∧
      ((procEvent ctx σ e).1.people e.pubkey).bind
        (fun p => p.petnames_updated_at) = some e.created_at) ∧
    (∀ (ctx : Ctx) (σ : State) (e : Event) (T : Int), e.kind = 2 →
      e.pubkey = σ.profile.pubkey →
      σ.profile.relays_updated_at = some T → e.created_at = T →
      (procEvent ctx σ e).1.profile.relays =
        uniqByUrl (σ.profile.relays ++ [{ url := e.content }]) ∧
      (procEvent ctx σ e).1.profile.relays_updated_at =
        some e.created_at) ∧
    (∀ (ctx : Ctx) (σ : State) (e : Event) (tags : List (List String))
        (v : List RelayEntry) (T : Int), e.kind = 3 →
      e.tags = some tags → e.pubkey = σ.profile.pubkey →
      σ.profile.relays_updated_at = some T → e.created_at = T →
      getValueRelays3 ctx e σ.profile = .ok (some v) →
      (procEvent ctx σ e).1.profile.relays = v ∧
      (procEvent ctx σ e).1.profile.relays_updated_at =
        some e.created_at) ∧
    (∀ (ctx : Ctx) (σ : State) (e : Event) (tags : List (List String))
        (T : Int), e.kind = 10001 → e.tags = some tags →
      e.pubkey = σ.profile.pubkey →
      σ.profile.relays_updated_at = some T → e.created_at = T →
      (procEvent ctx σ e).1.profile.relays =
        tags.map (fun t =>
          { url := (t.get? 0).getD "",
            read := some (!(t.get? 1 == some "!")),
            write := some (!(t.get? 2 == some "!")) }) ∧
      (procEvent ctx σ e).1.profile.relays_updated_at =
        some e.created_at) ∧
    (∀ (ctx : Ctx) (σ : State) (e : Event) (tags : List (List String))
        (T : Int), e.kind = 10002 → e.tags = some tags →
      e.pubkey = σ.profile.pubkey →
      σ.profile.relays_updated_at = some T → e.created_at = T →
      (procEvent ctx σ e).1.profile.relays =
        (tagsOfType tags "r").map (fun t =>
          let m := (t.get? 2).getD ""
          { url := (t.get? 1).getD "",
            read := some ((if m = "" then "read" else m) == "read"),
            write := some ((if m = "" then "write" else m) == "write") }) ∧
      (procEvent ctx σ e).1.profile.relays_updated_at =
        some e.created_at) ∧
    (∀ (ctx : Ctx) (σ : State) (e : Event) (tags : List (List String))
        (T : Int), e.kind = 10000 → e.tags = some tags →
      e.pubkey = σ.profile.pubkey →
      σ.profile.mutes_updated_at = some T → e.created_at = T →
      (procEvent ctx σ e).1.profile.mutes = some tags ∧
      (procEvent ctx σ e).1.profile.mutes_updated_at =
        some e.created_at) ∧
    (∀ (ctx : Ctx) (σ : State) (e : Event) (room : Room)
        (content : List (String × JVal)), e.kind = 40 →
      σ.rooms e.id = some room → e.created_at = room.updated_at →
      roomContent ctx e = some content →
      jTruthyOpt (alookup "name" content) = true →
      (procEvent ctx σ e).1.rooms e.id =
        some ⟨e.id, e.pubkey, e.created_at,
          jsMerge room.attrs content⟩) ∧
    (∀ (ctx : Ctx) (σ : State) (e : Event) (tags : List (List String))
        (rid : String) (room : Room)
        (content : List (String × JVal)), e.kind = 41 →
      e.tags = some tags →
      ((tagsOfType tags "e").head?).bind (fun t => t.get? 1) = some rid →
      σ.rooms rid = some room → e.created_at = room.updated_at →
      roomContent ctx e = some content →
      jTruthyOpt (alookup "name" content) = true →
      (procEvent ctx σ e).1.rooms rid =
        some ⟨rid, e.pubkey, e.created_at,
          jsMerge room.attrs content⟩) := by
  refine ⟨?_, ?_, ?_, ?_, ?_, ?_, ?_, ?_, ?_, ?_, ?_, ?_, ?_, ?_, ?_⟩
  · -- stale kind-0 data
    intro ctx σ e T hk hT hlt
    obtain ⟨hp, _, _, _, _, _⟩ := archive_frame σ e
    have h0 : handler0 ctx e (archive σ e) = .ok (archive σ e) :=
      handler0_stale ctx e (archive σ e) T (by rw [hp]; exact hT) hlt
    show (runHandlers ctx e (handlersFor e.kind) (archive σ e)).1.people = σ.people
    rw [hk, show handlersFor 0 = [handler0] from rfl,
      runHandlers_cons_ok _ _ _ _ _ _ h0, runHandlers_nil]
    exact hp
  · -- stale petnames
    intro ctx σ e T hk hT hlt
    obtain ⟨hp, _, _, _, _, _⟩ := archive_frame σ e
    have h1 : handler3Petnames ctx e (archive σ e) = .ok (archive σ e) :=
      handler3Petnames_stale ctx e (archive σ e) T (by rw [hp]; exact hT) hlt
    show (runHandlers ctx e (handlersFor e.kind) (archive σ e)).1.people = σ.people
    rw [hk, show handlersFor 3 = [handler3Petnames,
      profileHandler (fun p => p.relays_updated_at) setRelays getValueRelays3,
      handler3Routes] from rfl,
      runHandlers_cons_ok _ _ _ _ _ _ h1]
    obtain ⟨σ2, h2⟩ := profileHandler_total
      (fun p => p.relays_updated_at) setRelays getValueRelays3 ctx e
      (archive σ e) ⟨_, rfl⟩
    rw [runHandlers_cons_ok _ _ _ _ _ _ h2]
    obtain ⟨σ3, h3⟩ : ∃ σ', handler3Routes ctx e σ2 = .ok σ' := ⟨_, rfl⟩
    rw [runHandlers_cons_ok _ _ _ _ _ _ h3, runHandlers_nil]
    rw [(handler3Routes_eqOutside ctx e σ2 σ3 h3).1,
      (profileHandler_ok_frame _ _ _ ctx e _ σ2 h2).1]
    exact hp
  · -- stale user relays, kinds 2 / 3 / 10001 / 10002
    intro ctx σ e T hk hT hlt
    obtain ⟨hp, hprof, _, _, _, _⟩ := archive_frame σ e
    have hT0 : (archive σ e).profile.relays_updated_at = some T := by
      rw [hprof]; exact hT
    have hsr : ∀ gv, profileHandler (fun p => p.relays_updated_at) setRelays
        gv ctx e (archive σ e) = .ok (archive σ e) :=
      fun gv => profileHandler_stale _ _ gv ctx e (archive σ e) T hT0 hlt
    show (runHandlers ctx e (handlersFor e.kind) (archive σ e)).1.profile.relays =
        σ.profile.relays ∧
      (runHandlers ctx e (handlersFor e.kind) (archive σ e)).1.profile.relays_updated_at =
        σ.profile.relays_updated_at
    rcases hk with hk | hk | hk | hk
    · rw [hk, show handlersFor 2 = [profileHandler
        (fun p => p.relays_updated_at) setRelays getValueRelays2,
        handler2Routes] from rfl,
        runHandlers_cons_ok _ _ _ _ _ _ (hsr getValueRelays2)]
      obtain ⟨σ2, h2⟩ : ∃ σ', handler2Routes ctx e (archive σ e) = .ok σ' :=
        ⟨_, rfl⟩
      rw [runHandlers_cons_ok _ _ _ _ _ _ h2, runHandlers_nil]
      have hfr := (handler2Routes_eqOutside ctx e _ σ2 h2).2.1
      exact ⟨by rw [hfr, hprof], by rw [hfr, hprof]⟩
    · rw [hk, show handlersFor 3 = [handler3Petnames,
        profileHandler (fun p => p.relays_updated_at) setRelays getValueRelays3,
        handler3Routes] from rfl]
      cases h1 : handler3Petnames ctx e (archive σ e) with
      | error err =>
        rw [runHandlers_cons_err _ _ _ _ _ _ h1]
        exact ⟨by rw [show ((archive σ e, some err) :
            State × Option String).1 = archive σ e from rfl, hprof],
          by rw [show ((archive σ e, some err) :
            State × Option String).1 = archive σ e from rfl, hprof]⟩
      | ok σ1 =>
        rw [runHandlers_cons_ok _ _ _ _ _ _ h1]
        obtain ⟨_, _, _, _, _, hpk1, hrel1, hrelts1, _, _⟩ :=
          handler3Petnames_ok_frame ctx e _ σ1 h1
        have h2 : profileHandler (fun p => p.relays_updated_at) setRelays
            getValueRelays3 ctx e σ1 = .ok σ1 :=
          profileHandler_stale _ _ _ ctx e σ1 T (by rw [hrelts1]; exact hT0) hlt
        rw [runHandlers_cons_ok _ _ _ _ _ _ h2]
        obtain ⟨σ3, h3⟩ : ∃ σ', handler3Routes ctx e σ1 = .ok σ' := ⟨_, rfl⟩
        rw [runHandlers_cons_ok _ _ _ _ _ _ h3, runHandlers_nil]
        have hfr := (handler3Routes_eqOutside ctx e σ1 σ3 h3).2.1
        exact ⟨by rw [hfr, hrel1, hprof], by rw [hfr, hrelts1, hprof]⟩
    · rw [hk, show handlersFor 10001 = [profileHandler
        (fun p => p.relays_updated_at) setRelays getValueRelays10001] from rfl,
        runHandlers_cons_ok _ _ _ _ _ _ (hsr getValueRelays10001),
        runHandlers_nil]
      exact ⟨by rw [hprof], by rw [hprof]⟩
    · rw [hk, show handlersFor 10002 = [profileHandler
        (fun p => p.relays_updated_at) setRelays getValueRelays10002,
        handler10002Routes] from rfl,
        runHandlers_cons_ok _ _ _ _ _ _ (hsr getValueRelays10002)]
      cases h2 : handler10002Routes ctx e (archive σ e) with
      | error err =>
        rw [runHandlers_cons_err _ _ _ _ _ _ h2]
        exact ⟨by rw [show ((archive σ e, some err) :
            State × Option String).1 = archive σ e from rfl, hprof],
          by rw [show ((archive σ e, some err) :
            State × Option String).1 = archive σ e from rfl, hprof]⟩
      | ok σ2 =>
        rw [runHandlers_cons_ok _ _ _ _ _ _ h2, runHandlers_nil]
        have hfr := (handler10002Routes_eqOutside ctx e _ σ2 h2).2.1
        exact ⟨by rw [hfr, hprof], by rw [hfr, hprof]⟩
  · -- stale user mutes
    intro ctx σ e T hk hT hlt
    obtain ⟨hp, hprof, _, _, _, _⟩ := archive_frame σ e
    have h1 : profileHandler (fun p => p.mutes_updated_at) setMutes
        getValueMutes ctx e (archive σ e) = .ok (archive σ e) :=
      profileHandler_stale _ _ _ ctx e (archive σ e) T
        (by rw [hprof]; exact hT) hlt
    show (runHandlers ctx e (handlersFor e.kind) (archive σ e)).1.profile.mutes =
        σ.profile.mutes ∧
      (runHandlers ctx e (handlersFor e.kind) (archive σ e)).1.profile.mutes_updated_at =
        σ.profile.mutes_updated_at
    rw [hk, show handlersFor 10000 = [profileHandler
      (fun p => p.mutes_updated_at) setMutes getValueMutes] from rfl,
      runHandlers_cons_ok _ _ _ _ _ _ h1, runHandlers_nil]
    exact ⟨by rw [hprof], by rw [hprof]⟩
  · -- stale room creation
    intro ctx σ e room hk hroom hlt
    obtain ⟨_, _, hrm, _, _, _⟩ := archive_frame σ e
    have h1 : handler40 ctx e (archive σ e) = .ok (archive σ e) :=
      handler40_stale ctx e (archive σ e) room (by rw [hrm]; exact hroom) hlt
    show (runHandlers ctx e (handlersFor e.kind) (archive σ e)).1.rooms = σ.rooms
    rw [hk, show handlersFor 40 = [handler40] from rfl,
      runHandlers_cons_ok _ _ _ _ _ _ h1, runHandlers_nil]
    exact hrm
  · -- stale room metadata update
    intro ctx σ e tags rid room hk htags hr hroom hlt
    obtain ⟨_, _, hrm, _, _, _⟩ := archive_frame σ e
    have h1 : handler41 ctx e (archive σ e) = .ok (archive σ e) :=
      handler41_stale ctx e (archive σ e) tags rid room htags hr
        (by rw [hrm]; exact hroom) hlt
    show (runHandlers ctx e (handlersFor e.kind) (archive σ e)).1.rooms = σ.rooms
    rw [hk, show handlersFor 41 = [handler41] from rfl,
      runHandlers_cons_ok _ _ _ _ _ _ h1, runHandlers_nil]
    exact hrm
  · -- equal-timestamp kind-0 events are accepted
    intro ctx σ e j T hk hT heq hp hnull hsafe
    obtain ⟨hpa, _, _, _, _, _⟩ := archive_frame σ e
    have hstale : tsLt e.created_at
        (((archive σ e).people e.pubkey).bind fun p => p.kind0_updated_at) = false := by
      rw [hpa, hT, heq]
      simp [tsLt]
    obtain ⟨effs, h0⟩ := handler0_accept ctx e (archive σ e) j hp hstale hnull hsafe
    show ((runHandlers ctx e (handlersFor e.kind) (archive σ e)).1.people
      e.pubkey).bind (fun p => p.kind0_updated_at) = some e.created_at
    rw [hk, show handlersFor 0 = [handler0] from rfl,
      runHandlers_cons_ok _ _ _ _ _ _ h0, runHandlers_nil,
      updatePerson_people_same]
    simp [patchField]
  · -- equal-timestamp kind-3 petname events are accepted
    intro ctx σ e tags T hk htags hT heq
    obtain ⟨hpa, _, _, _, _, _⟩ := archive_frame σ e
    have hstale : tsLt e.created_at
        (((archive σ e).people e.pubkey).bind fun p => p.petnames_updated_at) = false := by
      rw [hpa, hT, heq]
      simp [tsLt]
    have h1 := handler3Petnames_accept ctx e (archive σ e) tags htags hstale
    show (((runHandlers ctx e (handlersFor e.kind) (archive σ e)).1.people
        e.pubkey).bind (fun p => p.petnames) =
        some (tags.filter (fun t => t.head? == some "p"))) ∧
      (((runHandlers ctx e (handlersFor e.kind) (archive σ e)).1.people
        e.pubkey).bind (fun p => p.petnames_updated_at) = some e.created_at)
    rw [hk, show handlersFor 3 = [handler3Petnames,
      profileHandler (fun p => p.relays_updated_at) setRelays getValueRelays3,
      handler3Routes] from rfl,
      runHandlers_cons_ok _ _ _ _ _ _ h1]
    obtain ⟨σ2, h2⟩ := profileHandler_total
      (fun p => p.relays_updated_at) setRelays getValueRelays3 ctx e _ ⟨_, rfl⟩
    rw [runHandlers_cons_ok _ _ _ _ _ _ h2]
    obtain ⟨σ3, h3⟩ : ∃ σ', handler3Routes ctx e σ2 = .ok σ' := ⟨_, rfl⟩
    rw [runHandlers_cons_ok _ _ _ _ _ _ h3, runHandlers_nil,
      (handler3Routes_eqOutside ctx e σ2 σ3 h3).1,
      (profileHandler_ok_frame _ _ _ ctx e _ σ2 h2).1,
      updatePerson_people_same]
    constructor
    · simp [patchField]
    · simp [patchField]
  · -- equal-timestamp kind-2 relay events are accepted
    intro ctx σ e T hk hpk hT heq
    obtain ⟨_, hprof, _, _, _, _⟩ := archive_frame σ e
    have hstale : tsLt e.created_at
        ((archive σ e).profile.relays_updated_at) = false := by
      rw [hprof, hT, heq]
      simp [tsLt]
    have hgv : getValueRelays2 ctx e (archive σ e).profile =
        .ok (some (uniqByUrl ((archive σ e).profile.relays ++
          [{ url := e.content }]))) := rfl
    have h1 := profileHandler_accept (fun p => p.relays_updated_at)
      setRelays getValueRelays2 ctx e (archive σ e) _
      (by rw [hprof]; exact hpk) hstale hgv
    obtain ⟨σ1, hσ1⟩ : ∃ σ1, profileHandler
        (fun p => p.relays_updated_at) setRelays getValueRelays2 ctx e
        (archive σ e) = .ok σ1 := ⟨_, h1⟩
    have hs := Except.ok.inj (h1.symm.trans hσ1)
    obtain ⟨σ2, h2⟩ : ∃ σ', handler2Routes ctx e σ1 = .ok σ' := ⟨_, rfl⟩
    show ((runHandlers ctx e (handlersFor e.kind)
        (archive σ e)).1.profile.relays =
        uniqByUrl (σ.profile.relays ++ [{ url := e.content }])) ∧
      ((runHandlers ctx e (handlersFor e.kind)
        (archive σ e)).1.profile.relays_updated_at = some e.created_at)
    rw [hk, show handlersFor 2 = [profileHandler
      (fun p => p.relays_updated_at) setRelays getValueRelays2,
      handler2Routes] from rfl,
      runHandlers_cons_ok _ _ _ _ _ _ hσ1,
      runHandlers_cons_ok _ _ _ _ _ _ h2, runHandlers_nil]
    have hfr := (handler2Routes_eqOutside ctx e σ1 σ2 h2).2.1
    constructor
    · rw [hfr, ← hs]
      show uniqByUrl ((archive σ e).profile.relays ++
        [{ url := e.content }]) = _
      rw [hprof]
    · rw [hfr, ← hs]
      rfl
  · -- equal-timestamp kind-3 relay selections are accepted
    intro ctx σ e tags v T hk htags hpk hT heq hv
    obtain ⟨_, hprof, _, _, _, _⟩ := archive_frame σ e
    obtain ⟨σ1, hok1⟩ := handler3Petnames_total ctx e (archive σ e) tags
      htags
    obtain ⟨_, _, _, _, _, hpk1, hrel1, hrelts1, _, _⟩ :=
      handler3Petnames_ok_frame ctx e _ σ1 hok1
    have hstale : tsLt e.created_at σ1.profile.relays_updated_at =
        false := by
      rw [hrelts1, hprof, hT, heq]
      simp [tsLt]
    have hv1 : getValueRelays3 ctx e σ1.profile = .ok (some v) := hv
    have h2 := profileHandler_accept (fun p => p.relays_updated_at)
      setRelays getValueRelays3 ctx e σ1 v
      (by rw [hpk1, hprof]; exact hpk) hstale hv1
    obtain ⟨σ2, hσ2⟩ : ∃ σ2, profileHandler
        (fun p => p.relays_updated_at) setRelays getValueRelays3 ctx e
        σ1 = .ok σ2 := ⟨_, h2⟩
    have hs := Except.ok.inj (h2.symm.trans hσ2)
    obtain ⟨σ3, h3⟩ : ∃ σ', handler3Routes ctx e σ2 = .ok σ' := ⟨_, rfl⟩
    show ((runHandlers ctx e (handlersFor e.kind)
        (archive σ e)).1.profile.relays = v) ∧
      ((runHandlers ctx e (handlersFor e.kind)
        (archive σ e)).1.profile.relays_updated_at = some e.created_at)
    rw [hk, show handlersFor 3 = [handler3Petnames,
      profileHandler (fun p => p.relays_updated_at) setRelays
        getValueRelays3,
      handler3Routes] from rfl,
      runHandlers_cons_ok _ _ _ _ _ _ hok1,
      runHandlers_cons_ok _ _ _ _ _ _ hσ2,
      runHandlers_cons_ok _ _ _ _ _ _ h3, runHandlers_nil]
    have hfr := (handler3Routes_eqOutside ctx e σ2 σ3 h3).2.1
    exact ⟨by rw [hfr, ← hs]; rfl, by rw [hfr, ← hs]; rfl⟩
  · -- equal-timestamp kind-10001 relay lists are accepted
    intro ctx σ e tags T hk htags hpk hT heq
    obtain ⟨_, hprof, _, _, _, _⟩ := archive_frame σ e
    have hstale : tsLt e.created_at
        ((archive σ e).profile.relays_updated_at) = false := by
      rw [hprof, hT, heq]
      simp [tsLt]
    have hgv : getValueRelays10001 ctx e (archive σ e).profile =
        .ok (some (tags.map (fun t =>
          { url := (t.get? 0).getD "",
            read := some (!(t.get? 1 == some "!")),
            write := some (!(t.get? 2 == some "!")) }))) := by
      unfold getValueRelays10001
      rw [htags]
    have h1 := profileHandler_accept (fun p => p.relays_updated_at)
      setRelays getValueRelays10001 ctx e (archive σ e) _
      (by rw [hprof]; exact hpk) hstale hgv
    obtain ⟨σ1, hσ1⟩ : ∃ σ1, profileHandler
        (fun p => p.relays_updated_at) setRelays getValueRelays10001
        ctx e (archive σ e) = .ok σ1 := ⟨_, h1⟩
    have hs := Except.ok.inj (h1.symm.trans hσ1)
    show ((runHandlers ctx e (handlersFor e.kind)
        (archive σ e)).1.profile.relays = tags.map (fun t =>
          { url := (t.get? 0).getD "",
            read := some (!(t.get? 1 == some "!")),
            write := some (!(t.get? 2 == some "!")) })) ∧
      ((runHandlers ctx e (handlersFor e.kind)
        (archive σ e)).1.profile.relays_updated_at = some e.created_at)
    rw [hk, show handlersFor 10001 = [profileHandler
      (fun p => p.relays_updated_at) setRelays getValueRelays10001]
      from rfl,
      runHandlers_cons_ok _ _ _ _ _ _ hσ1, runHandlers_nil]
    exact ⟨by rw [← hs]; rfl, by rw [← hs]; rfl⟩
  · -- equal-timestamp kind-10002 relay lists are accepted
    intro ctx σ e tags T hk htags hpk hT heq
    obtain ⟨_, hprof, _, _, _, _⟩ := archive_frame σ e
    have hstale : tsLt e.created_at
        ((archive σ e).profile.relays_updated_at) = false := by
      rw [hprof, hT, heq]
      simp [tsLt]
    have hgv : getValueRelays10002 ctx e (archive σ e).profile =
        .ok (some ((tagsOfType tags "r").map (fun t =>
          let m := (t.get? 2).getD ""
          { url := (t.get? 1).getD "",
            read := some ((if m = "" then "read" else m) == "read"),
            write := some ((if m = "" then "write" else m) ==
              "write") }))) := by
      unfold getValueRelays10002
      rw [htags]
    have h1 := profileHandler_accept (fun p => p.relays_updated_at)
      setRelays getValueRelays10002 ctx e (archive σ e) _
      (by rw [hprof]; exact hpk) hstale hgv
    obtain ⟨σ1, hσ1⟩ : ∃ σ1, profileHandler
        (fun p => p.relays_updated_at) setRelays getValueRelays10002
        ctx e (archive σ e) = .ok σ1 := ⟨_, h1⟩
    have hs := Except.ok.inj (h1.symm.trans hσ1)
    obtain ⟨σ2, h2⟩ := handler10002Routes_total ctx e σ1 tags htags
    show ((runHandlers ctx e (handlersFor e.kind)
        (archive σ e)).1.profile.relays =
        (tagsOfType tags "r").map (fun t =>
          let m := (t.get? 2).getD ""
          { url := (t.get? 1).getD "",
            read := some ((if m = "" then "read" else m) == "read"),
            write := some ((if m = "" then "write" else m) ==
              "write") })) ∧
      ((runHandlers ctx e (handlersFor e.kind)
        (archive σ e)).1.profile.relays_updated_at = some e.created_at)
    rw [hk, show handlersFor 10002 = [profileHandler
      (fun p => p.relays_updated_at) setRelays getValueRelays10002,
      handler10002Routes] from rfl,
      runHandlers_cons_ok _ _ _ _ _ _ hσ1,
      runHandlers_cons_ok _ _ _ _ _ _ h2, runHandlers_nil]
    have hfr := (handler10002Routes_eqOutside ctx e σ1 σ2 h2).2.1
    exact ⟨by rw [hfr, ← hs]; rfl, by rw [hfr, ← hs]; rfl⟩
  · -- equal-timestamp kind-10000 mute lists are accepted
    intro ctx σ e tags T hk htags hpk hT heq
    obtain ⟨_, hprof, _, _, _, _⟩ := archive_frame σ e
    have hstale : tsLt e.created_at
        ((archive σ e).profile.mutes_updated_at) = false := by
      rw [hprof, hT, heq]
      simp [tsLt]
    have hgv : getValueMutes ctx e (archive σ e).profile =
        .ok (some tags) := by
      show Except.ok e.tags = _
      rw [htags]
    have h1 := profileHandler_accept (fun p => p.mutes_updated_at)
      setMutes getValueMutes ctx e (archive σ e) _
      (by rw [hprof]; exact hpk) hstale hgv
    obtain ⟨σ1, hσ1⟩ : ∃ σ1, profileHandler
        (fun p => p.mutes_updated_at) setMutes getValueMutes ctx e
        (archive σ e) = .ok σ1 := ⟨_, h1⟩
    have hs := Except.ok.inj (h1.symm.trans hσ1)
    show ((runHandlers ctx e (handlersFor e.kind)
        (archive σ e)).1.profile.mutes = some tags) ∧
      ((runHandlers ctx e (handlersFor e.kind)
        (archive σ e)).1.profile.mutes_updated_at = some e.created_at)
    rw [hk, show handlersFor 10000 = [profileHandler
      (fun p => p.mutes_updated_at) setMutes getValueMutes] from rfl,
      runHandlers_cons_ok _ _ _ _ _ _ hσ1, runHandlers_nil]
    exact ⟨by rw [← hs]; rfl, by rw [← hs]; rfl⟩
  · -- equal-timestamp kind-40 room creations are accepted
    intro ctx σ e room content hk hroom heq hrc hn
    obtain ⟨_, _, hrm, _, _, _⟩ := archive_frame σ e
    have hstale : tsLt e.created_at
        (((archive σ e).rooms e.id).map (fun r => r.updated_at)) =
        false := by
      rw [hrm, hroom]
      show tsLt e.created_at (some room.updated_at) = false
      rw [heq]
      exact tsLt_irrefl room.updated_at
    have h1 := handler40_accept ctx e (archive σ e) content hstale hrc hn
    obtain ⟨σ1, hσ1⟩ : ∃ σ1, handler40 ctx e (archive σ e) = .ok σ1 :=
      ⟨_, h1⟩
    have hs := Except.ok.inj (h1.symm.trans hσ1)
    show (runHandlers ctx e (handlersFor e.kind)
        (archive σ e)).1.rooms e.id =
      some ⟨e.id, e.pubkey, e.created_at, jsMerge room.attrs content⟩
    rw [hk, show handlersFor 40 = [handler40] from rfl,
      runHandlers_cons_ok _ _ _ _ _ _ hσ1, runHandlers_nil, ← hs]
    show mapPut (archive σ e).rooms e.id _ e.id = _
    unfold mapPut
    rw [if_pos rfl, hrm, hroom]
    rfl
  · -- equal-timestamp kind-41 room updates are accepted
    intro ctx σ e tags rid room content hk htags hr hroom heq hrc hn
    obtain ⟨_, _, hrm, _, _, _⟩ := archive_frame σ e
    have hstale : tsLt e.created_at
        (((archive σ e).rooms rid).map (fun r => r.updated_at)) =
        false := by
      rw [hrm, hroom]
      show tsLt e.created_at (some room.updated_at) = false
      rw [heq]
      exact tsLt_irrefl room.updated_at
    have h1 := handler41_accept ctx e (archive σ e) tags rid content
      htags hr hstale hrc hn
    obtain ⟨σ1, hσ1⟩ : ∃ σ1, handler41 ctx e (archive σ e) = .ok σ1 :=
      ⟨_, h1⟩
    have hs := Except.ok.inj (h1.symm.trans hσ1)
    show (runHandlers ctx e (handlersFor e.kind)
        (archive σ e)).1.rooms rid =
      some ⟨rid, e.pubkey, e.created_at, jsMerge room.attrs content⟩
    rw [hk, show handlersFor 41 = [handler41] from rfl,
      runHandlers_cons_ok _ _ _ _ _ _ hσ1, runHandlers_nil, ← hs]
    show mapPut (archive σ e).rooms rid _ rid = _
    unfold mapPut
    rw [if_pos rfl, hrm, hroom]
    rfl

/-- C2 witness: with `kind0_updated_at = 100`, a kind-0 event at 50
changes nothing, kind-0 and kind-3 events at exactly 100 are accepted. -/
theorem claim2_witness :
    (procEvent ⟨fun _ => some (.obj [("name", .str "n")]), 7⟩
      { State.init "u" with
        people := mapPut (fun _ => none) "alice"
          ⟨"alice", 0, none, some 100, none, some 100, none, none, none⟩ }
      { id := "e1", pubkey := "alice", kind := 0, created_at := 50,
        content := "c", tags := some [] }).1.people =
      ({ State.init "u" with
         people := mapPut (fun _ => none) "alice"
           ⟨"alice", 0, none, some 100, none, some 100, none, none, none⟩ } : State).people ∧
    ((procEvent ⟨fun _ => some (.obj [("name", .str "n")]), 7⟩
      { State.init "u" with
        people := mapPut (fun _ => none) "alice"
          ⟨"alice", 0, none, some 100, none, some 100, none, none, none⟩ }
      { id := "e2", pubkey := "alice", kind := 0, created_at := 100,
        content := "c", tags := some [] }).1.people "alice").bind
      (fun p => p.kind0_updated_at) = some 100 ∧
    ((procEvent ⟨fun _ => some (.obj [("name", .str "n")]), 7⟩
      { State.init "u" with
        people := mapPut (fun _ => none) "alice"
          ⟨"alice", 0, none, some 100, none, some 100, none, none, none⟩ }
      { id := "e3", pubkey := "alice", kind := 3, created_at := 100,
        content := "c", tags := some [["p", "bob"], ["e", "x"]] }).1.people
      "alice").bind (fun p => p.petnames) = some [["p", "bob"]] ∧
    (procEvent ⟨fun _ => none, 7⟩
      { State.init "u" with profile :=
        { pubkey := "u", relays_updated_at := some 100 } }
      { id := "e4", pubkey := "u", kind := 2, created_at := 100,
        content := "wss://x", tags := none
        }).1.profile.relays_updated_at = some 100 := by
  refine ⟨?_, ?_, ?_, ?_⟩
  · exact claim2_lww_guard.1 _ _ _ 100 rfl (by decide) (by decide)
  · exact claim2_lww_guard.2.2.2.2.2.2.1 _ _ _
      (.obj [("name", .str "n")]) 100 rfl (by decide) rfl rfl
      (fun h => JVal.noConfusion h) (by decide)
  · exact (claim2_lww_guard.2.2.2.2.2.2.2.1 _ _ _
      [["p", "bob"], ["e", "x"]] 100 rfl rfl (by decide) rfl).1
  · exact (claim2_lww_guard.2.2.2.2.2.2.2.2.1 _ _ _ 100
      rfl rfl rfl rfl).2

/-- Every kind-0 patch the dispatcher records binds each key to its last
value (it is a canonical spread object). -/
theorem eff0_canon (ctx : Ctx) (e : Event) (b : List (String × JVal))
    (h : eff0 ctx e = some b) : ∀ q ∈ b, alookup q.1 b = some q.2 := by
  unfold eff0 at h
  cases hp : ctx.parse e.content with
  | none =>
    rw [hp] at h
    cases h
  | some j =>
    rw [hp] at h
    dsimp only at h
    by_cases hn : isNullJ j = true
    · rw [if_pos hn] at h
      cases h
    · rw [if_neg hn] at h
      cases ha : kind0Address j with
      | none =>
        rw [ha] at h
        obtain rfl := Option.some.inj h
        exact toObj_canon j
      | some v =>
        rw [ha] at h
        cases v with
        | str s =>
          obtain rfl := Option.some.inj h
          exact toObj_canon j
        | null =>
          dsimp only at h
          obtain rfl := Option.some.inj h
          exact toObj_canon j
        | bool bb =>
          dsimp only at h
          by_cases htr : jTruthy (JVal.bool bb) = true
          · rw [if_pos htr] at h
            cases h
          · rw [if_neg htr] at h
            obtain rfl := Option.some.inj h
            exact toObj_canon j
        | num n =>
          dsimp only at h
          by_cases htr : jTruthy (JVal.num n) = true
          · rw [if_pos htr] at h
            cases h
          · rw [if_neg htr] at h
            obtain rfl := Option.some.inj h
            exact toObj_canon j
        | arr xs =>
          dsimp only at h
          by_cases htr : jTruthy (JVal.arr xs) = true
          · rw [if_pos htr] at h
            cases h
          · rw [if_neg htr] at h
            obtain rfl := Option.some.inj h
            exact toObj_canon j
        | obj l =>
          dsimp only at h
          by_cases htr : jTruthy (JVal.obj l) = true
          · rw [if_pos htr] at h
            cases h
          · rw [if_neg htr] at h
            obtain rfl := Option.some.inj h
            exact toObj_canon j

/-- Every kind-0 patch of a recorded people action list is canonical. -/
theorem pext_canon (ctx : Ctx) (p : String) (evs : List Event) :
    ∀ ets b, PEv.e0 ets b ∈ pext ctx p evs →
      ∀ q ∈ b, alookup q.1 b = some q.2 := by
  intro ets b hmem
  simp only [pext, List.mem_filterMap] at hmem
  obtain ⟨e, he, heq⟩ := hmem
  by_cases hpk : e.pubkey = p
  · rw [if_pos hpk] at heq
    by_cases hk0 : e.kind = 0
    · rw [if_pos hk0] at heq
      cases hef : eff0 ctx e with
      | none =>
        rw [hef] at heq
        cases heq
      | some b' =>
        rw [hef] at heq
        have h2 := Option.some.inj heq
        injection h2 with h3 h4
        rw [← h4]
        exact eff0_canon ctx e b' hef
    · rw [if_neg hk0] at heq
      by_cases hk3 : e.kind = 3
      · rw [if_pos hk3] at heq
        cases htags : e.tags with
        | none =>
          rw [htags] at heq
          exact PEv.noConfusion (Option.some.inj heq)
        | some tags =>
          rw [htags] at heq
          exact PEv.noConfusion (Option.some.inj heq)
      · rw [if_neg hk3] at heq
        cases heq
  · rw [if_neg hpk] at heq
    cases heq

/-- Every room content object the dispatcher records is canonical (it is
a whitelisted projection of a parsed object). -/
theorem roomEff_canon (ctx : Ctx) (e : Event) (c : List (String × JVal))
    (h : roomEff ctx e = some c) : ∀ q ∈ c, alookup q.1 c = some q.2 := by
  unfold roomEff at h
  cases hrc : roomContent ctx e with
  | none =>
    rw [hrc] at h
    cases h
  | some content =>
    rw [hrc] at h
    dsimp only at h
    by_cases hn : jTruthyOpt (alookup "name" content) = true
    · rw [if_pos hn] at h
      obtain rfl := Option.some.inj h
      unfold roomContent at hrc
      cases hp : ctx.parse e.content with
      | none =>
        rw [hp] at hrc
        cases hrc
      | some j =>
        rw [hp] at hrc
        exact pickFields_canon roomAttrs j _ hrc
    · rw [if_neg hn] at h
      cases h

/-- Every content object of a recorded room action list is canonical. -/
theorem rext_canon (ctx : Ctx) (rid : String) (evs : List Event) :
    ∀ ev ∈ rext ctx rid evs, ∀ q ∈ ev.content,
      alookup q.1 ev.content = some q.2 := by
  intro ev hmem
  simp only [rext, List.mem_filterMap] at hmem
  obtain ⟨e, he, heq⟩ := hmem
  by_cases h40 : e.kind = 40
  · rw [if_pos h40] at heq
    by_cases hid : e.id = rid
    · rw [if_pos hid] at heq
      cases hre : roomEff ctx e with
      | none =>
        rw [hre] at heq
        cases heq
      | some c =>
        rw [hre] at heq
        obtain rfl := Option.some.inj heq
        exact roomEff_canon ctx e c hre
    · rw [if_neg hid] at heq
      cases heq
  · rw [if_neg h40] at heq
    by_cases h41 : e.kind = 41
    · rw [if_pos h41] at heq
      cases htags : e.tags with
      | none =>
        rw [htags] at heq
        cases heq
      | some tags =>
        rw [htags] at heq
        dsimp only at heq
        by_cases htgt : roomTarget tags = some rid
        · rw [if_pos htgt] at heq
          cases hre : roomEff ctx e with
          | none =>
            rw [hre] at heq
            cases heq
          | some c =>
            rw [hre] at heq
            obtain rfl := Option.some.inj heq
            exact roomEff_canon ctx e c hre
        · rw [if_neg htgt] at heq
          cases heq
    · rw [if_neg h41] at heq
      cases heq

/-- The no-throw conditions of one event depend only on its pubkey's
people row, the profile's relay timestamp and the profile's pubkey. -/
theorem OkEv_iff_proj (ctx : Ctx) (σa σb : State) (e : Event)
    (hp : σa.people e.pubkey = σb.people e.pubkey)
    (hts : σa.profile.relays_updated_at = σb.profile.relays_updated_at)
    (hpk : σa.profile.pubkey = σb.profile.pubkey) :
    OkEv ctx σa e ↔ OkEv ctx σb e := by
  unfold OkEv
  rw [hp, hts, hpk]

/-- Running the identical batch a second time reproduces the people and
room tables of the first run — whether the first run completed or
stopped at a throwing event. -/
theorem runEvents_idem (ctx : Ctx) (evs : List Event) (σ : State) :
    (runEvents ctx (runEvents ctx σ evs).1 evs).1.people =
      (runEvents ctx σ evs).1.people ∧
    (runEvents ctx (runEvents ctx σ evs).1 evs).1.rooms =
      (runEvents ctx σ evs).1.rooms := by
  by_cases hA : AllOk ctx σ evs
  · obtain ⟨hA1, hA2, hA3, hA4⟩ := hA
    obtain ⟨g1, g2, g3, g4, g5⟩ :=
      (runEvents_split ctx evs σ).1 ⟨hA1, hA2, hA3, hA4⟩
    have hA' : AllOk ctx (runEvents ctx σ evs).1 evs := by
      refine ⟨hA1, hA2, ?_, ?_⟩
      · intro p
        rw [g2 p]
        exact (pReplay ctx.nowT p (σ.people p) (pext ctx p evs) (hA3 p)
          (fun ets b hm => pext_canon ctx p evs ets b hm)).2
      · rw [g4, g5]
        exact (rlReplay σ.profile.relays_updated_at
          (rlext ctx σ.profile.pubkey evs) hA4).2
    obtain ⟨g1', g2', g3', g4', g5'⟩ := (runEvents_split ctx evs _).1 hA'
    constructor
    · funext p
      rw [g2' p, g2 p]
      exact (pReplay ctx.nowT p (σ.people p) (pext ctx p evs) (hA3 p)
        (fun ets b hm => pext_canon ctx p evs ets b hm)).1
    · funext rid
      rw [g3' rid, g3 rid]
      exact rReplay rid (σ.rooms rid) (rext ctx rid evs)
        (fun ev hm => rext_canon ctx rid evs ev hm)
  · obtain ⟨pre, e, post, S1, hsplit, hApre, hrunpre, hnOk, hrunAll⟩ :=
      (runEvents_split ctx evs σ).2 hA
    obtain ⟨t1, t2, t3, t4⟩ := hApre
    obtain ⟨p1, p2, p3, p4, p5⟩ :=
      (runEvents_split ctx pre σ).1 ⟨t1, t2, t3, t4⟩
    rw [hrunpre] at p2 p3 p4 p5
    obtain ⟨haf1, haf2, haf3, _, _, _⟩ := archive_frame S1 e
    have hApre2 : AllOk ctx (archive S1 e) pre := by
      refine ⟨t1, t2, ?_, ?_⟩
      · intro p
        rw [haf1, p2 p]
        exact (pReplay ctx.nowT p (σ.people p) (pext ctx p pre) (t3 p)
          (fun ets b hm => pext_canon ctx p pre ets b hm)).2
      · rw [haf2, p4, p5]
        exact (rlReplay σ.profile.relays_updated_at
          (rlext ctx σ.profile.pubkey pre) t4).2
    obtain ⟨q1, q2, q3, q4, q5⟩ :=
      (runEvents_split ctx pre (archive S1 e)).1 hApre2
    have hq2 : ∀ p, (runEvents ctx (archive S1 e) pre).1.people p =
        S1.people p := by
      intro p
      rw [q2 p, haf1, p2 p]
      exact (pReplay ctx.nowT p (σ.people p) (pext ctx p pre) (t3 p)
        (fun ets b hm => pext_canon ctx p pre ets b hm)).1
    have hq3 : ∀ rid, (runEvents ctx (archive S1 e) pre).1.rooms rid =
        S1.rooms rid := by
      intro rid
      rw [q3 rid, haf3, p3 rid]
      exact rReplay rid (σ.rooms rid) (rext ctx rid pre)
        (fun ev hm => rext_canon ctx rid pre ev hm)
    have hq4 : (runEvents ctx (archive S1 e) pre).1.profile.pubkey =
        S1.profile.pubkey := by
      rw [q4, haf2]
    have hq5 : (runEvents ctx (archive S1 e) pre).1.profile.relays_updated_at =
        S1.profile.relays_updated_at := by
      rw [q5, haf2, p4, p5]
      exact (rlReplay σ.profile.relays_updated_at
        (rlext ctx σ.profile.pubkey pre) t4).1
    have hnOk2 : ¬OkEv ctx (runEvents ctx (archive S1 e) pre).1 e :=
      fun hOk2 => hnOk
        ((OkEv_iff_proj ctx _ S1 e (hq2 e.pubkey) hq5 hq4).mp hOk2)
    have hrunpre2 : runEvents ctx (archive S1 e) pre =
        ((runEvents ctx (archive S1 e) pre).1, none) := by
      rw [← q1]
    have hpe2 :=
      (procEvent_char ctx (runEvents ctx (archive S1 e) pre).1 e).2 hnOk2
    have hrun2 : runEvents ctx (archive S1 e) evs =
        (archive (runEvents ctx (archive S1 e) pre).1 e,
          some "tags of undefined") := by
      rw [hsplit, runEvents_append, hrunpre2]
      show runEvents ctx (runEvents ctx (archive S1 e) pre).1
        (e :: post) = _
      exact runEvents_cons_err ctx _ _ e post _ hpe2
    have hfin : (runEvents ctx σ evs).1 = archive S1 e := by
      rw [hrunAll]
    obtain ⟨hbf1, _, hbf3, _, _, _⟩ :=
      archive_frame (runEvents ctx (archive S1 e) pre).1 e
    constructor
    · funext p
      rw [hfin, hrun2]
      show (archive (runEvents ctx (archive S1 e) pre).1 e).people p =
        (archive S1 e).people p
      rw [hbf1, hq2 p, haf1]
    · funext rid
      rw [hfin, hrun2]
      show (archive (runEvents ctx (archive S1 e) pre).1 e).rooms rid =
        (archive S1 e).rooms rid
      rw [hbf3, hq3 rid, haf3]

/-- C6: processing an identical batch a second time leaves the Identity
(people) and Room projections exactly as one pass does — an
already-accepted update is either discarded by the equal-timestamp guard
or rewrites the same value — and this holds whether the first pass
completed or stopped at a throwing event. Route-evidence folding is not
idempotent by design: re-dispatching one tagged kind-10002 event adds
its positively-scored call tally to every route's count a second
time. -/
theorem claim6_entity_idempotence_route_growth :
    (∀ (ctx : Ctx) (σ : State) (events : List (Option Event)),
      (processEvents ctx (processEvents ctx σ events).1 events).1.people =
        (processEvents ctx σ events).1.people ∧
      (processEvents ctx (processEvents ctx σ events).1 events).1.rooms =
        (processEvents ctx σ events).1.rooms) ∧
    (∀ (ctx : Ctx) (σ : State) (e : Event) (tags : List (List String)),
      e.kind = 10002 → e.tags = some tags → ∀ rid,
      countAt (procEvent ctx (procEvent ctx σ e).1 e).1 rid =
        countAt σ rid +
          2 * (foldedScores ctx.nowT rid (calls10002 e tags)).length) := by
  constructor
  · intro ctx σ events
    simp only [processEvents_eq_run]
    exact runEvents_idem ctx (events.filterMap id) σ
  · intro ctx σ e tags hk htags rid
    have h1 := procEvent_10002_count ctx σ e tags hk htags rid
    have h2 := procEvent_10002_count ctx (procEvent ctx σ e).1 e tags hk
      htags rid
    rw [h2, h1]
    omega

/-- C6 witness: one tagged kind-10002 event folded twice takes the
targeted route's count from 0 to 2 (tally 1 per pass). -/
theorem claim6_witness :
    countAt (procEvent ⟨fun _ => none, 1700000000⟩
        (procEvent ⟨fun _ => none, 1700000000⟩ (State.init "u")
          { id := "e1", pubkey := "pk1", kind := 10002,
            created_at := 1700000000, content := "",
            tags := some [["r", "wss://relay.example", "write"]] }).1
        { id := "e1", pubkey := "pk1", kind := 10002,
          created_at := 1700000000, content := "",
          tags := some [["r", "wss://relay.example", "write"]] }).1
      (routeId "pk1" "wss://relay.example" "write") =
    countAt (State.init "u")
      (routeId "pk1" "wss://relay.example" "write") + 2 * 1 := by
  have h := claim6_entity_idempotence_route_growth.2
    ⟨fun _ => none, 1700000000⟩ (State.init "u")
    { id := "e1", pubkey := "pk1", kind := 10002,
      created_at := 1700000000, content := "",
      tags := some [["r", "wss://relay.example", "write"]] }
    [["r", "wss://relay.example", "write"]] rfl rfl
    (routeId "pk1" "wss://relay.example" "write")
  have hcalls : calls10002
      { id := "e1", pubkey := "pk1", kind := 10002,
        created_at := 1700000000, content := "",
        tags := some [["r", "wss://relay.example", "write"]] }
      [["r", "wss://relay.example", "write"]] =
      [⟨"pk1", "wss://relay.example", "kind:10002", "write",
        1700000000⟩] := rfl
  have hs1 : evidenceScore 1700000000 "kind:10002" 1700000000 =
      some 1 := by
    have hw : getWeight "kind:10002" = some 1 := rfl
    simp only [evidenceScore, hw, Option.map_some', Option.some.injEq,
      timedelta30Days]
    norm_num
  have hl : foldedScores 1700000000
      (routeId "pk1" "wss://relay.example" "write")
      [⟨"pk1", "wss://relay.example", "kind:10002", "write",
        1700000000⟩] = [1] := by
    unfold foldedScores
    rw [filterMap_one]
    dsimp only
    rw [show (isShareableRelay "wss://relay.example" &&
        (routeId "pk1" (normalizeRelayUrl "wss://relay.example") "write" ==
          routeId "pk1" "wss://relay.example" "write")) = true from by
      decide]
    rw [if_pos rfl, hs1]
    dsimp only
    rw [if_pos (show (1 : ℚ) > 0 from by norm_num)]
    rfl
  dsimp only at h
  rw [hcalls, hl] at h
  exact h

end Sync

